import Mathlib

/-!
# Haris C generator: header emitter and file protocol emitter

A shallow embedding of `cgenh.c` and `cgenc_file.c` (with the data model of
`schema.h` and the push idiom of `cgen.h`), and of the C functions that the
file protocol emitter writes into the generated library.

Arrays with a length field are lists, `char *` names are strings, an emitter
`CJobStatus f(CJob *job)` is a function from the job to the status it returns
together with the job it leaves behind.
-/

namespace Haris

/-! ## The schema model (schema.h) -/

/-- The scalar tags, in the order of the enum of schema.h. -/
inductive ScalarTag
  | SCALAR_UINT8 | SCALAR_INT8 | SCALAR_UINT16 | SCALAR_INT16 | SCALAR_UINT32
  | SCALAR_INT32 | SCALAR_UINT64 | SCALAR_INT64 | SCALAR_FLOAT32 | SCALAR_FLOAT64
  | SCALAR_BOOL | SCALAR_ENUM
  deriving DecidableEq, Repr

/-- The child tags of schema.h. -/
inductive ChildTag
  | CHILD_TEXT | CHILD_STRUCT | CHILD_SCALAR_LIST | CHILD_STRUCT_LIST
  deriving DecidableEq, Repr

/-- A scalar type: the tag, and for an enumeration the position of its
ParsedEnum in the schema (the C code holds a pointer, NULL otherwise). -/
structure ScalarType where
  tag : ScalarTag
  enum_type : Option Nat
  deriving DecidableEq, Repr

/-- A scalar field of a structure. -/
structure ScalarField where
  name : String
  offset : Int
  type : ScalarType
  deriving DecidableEq, Repr

/-- The tagged union `ChildTag` + `ChildType` of schema.h as one sum type. A
pointer to a ParsedStruct is the position of that structure in the schema. -/
inductive ChildType
  | text
  | strct (target : Nat)
  | scalar_list (elem : ScalarType)
  | struct_list (target : Nat)
  deriving DecidableEq, Repr

/-- The `embeddable` annotation of a child. -/
structure ChildMetadata where
  embeddable : Bool
  deriving DecidableEq, Repr

/-- A child field of a structure. -/
structure ChildField where
  name : String
  nullable : Bool
  meta : ChildMetadata
  type : ChildType
  deriving DecidableEq, Repr

/-- The `tag` member of a child field. -/
def ChildField.tag (child : ChildField) : ChildTag :=
  match child.type with
  | ChildType.text => ChildTag.CHILD_TEXT
  | ChildType.strct _ => ChildTag.CHILD_STRUCT
  | ChildType.scalar_list _ => ChildTag.CHILD_SCALAR_LIST
  | ChildType.struct_list _ => ChildTag.CHILD_STRUCT_LIST

/-- The `max_size` annotation of a structure. -/
structure StructMetadata where
  max_size : Nat
  deriving DecidableEq, Repr

/-- A structure of the schema. -/
structure ParsedStruct where
  name : String
  meta : StructMetadata
  schema_index : Int
  offset : Int
  scalars : List ScalarField
  children : List ChildField
  deriving DecidableEq, Repr

/-- An enumeration of the schema. -/
structure ParsedEnum where
  name : String
  values : List String
  deriving DecidableEq, Repr

/-- The schema: its structures and its enumerations, in order. -/
structure ParsedSchema where
  structs : List ParsedStruct
  enums : List ParsedEnum
  deriving DecidableEq, Repr

/-- The name read through a pointer to a structure of the schema
(`child->type.strct->name`); a position outside the schema reads as the empty
name. -/
def ParsedSchema.struct_name (schema : ParsedSchema) (target : Nat) : String :=
  match schema.structs.get? target with
  | some s => s.name
  | none => ""

/-! ## The job and its string stacks (cgen.h) -/

/-- The status codes of the generator. -/
inductive CJobStatus
  | CJOB_SUCCESS | CJOB_SCHEMA_ERROR | CJOB_JOB_ERROR | CJOB_IO_ERROR
  | CJOB_MEM_ERROR | CJOB_PARSE_ERROR
  deriving DecidableEq, Repr

/-- The five string stacks; each holds its fragments in the order of the
pushes. -/
structure CJobStrings where
  header_strings : List String
  header_bottom_strings : List String
  source_strings : List String
  public_functions : List String
  private_functions : List String
  deriving DecidableEq, Repr

/-- The protocols requested on the command line. -/
structure CJobProtocols where
  buffer : Bool
  file : Bool
  fd : Bool
  deriving DecidableEq, Repr

/-- A compilation job. The field `pfx` is the member `prefix` of the C
structure. The field `heap` is the part of the environment the pushes depend
on: the outcomes of the allocations still to come, in order (`false` is an
allocation that fails); past its end every allocation succeeds. -/
structure CJob where
  schema : ParsedSchema
  pfx : String
  output : String
  protocols : CJobProtocols
  strings : CJobStrings
  heap : List Bool
  deriving DecidableEq, Repr

/-- The five stacks by name. -/
inductive Stack
  | header | header_bottom | source | pub | priv
  deriving DecidableEq, Repr

/-- The fragment list with one more fragment on the named stack. -/
def CJobStrings.push (strings : CJobStrings) (st : Stack) (s : String) : CJobStrings :=
  match st with
  | Stack.header => { strings with header_strings := strings.header_strings ++ [s] }
  | Stack.header_bottom =>
      { strings with header_bottom_strings := strings.header_bottom_strings ++ [s] }
  | Stack.source => { strings with source_strings := strings.source_strings ++ [s] }
  | Stack.pub => { strings with public_functions := strings.public_functions ++ [s] }
  | Stack.priv => { strings with private_functions := strings.private_functions ++ [s] }

/-- The fragments of the named stack. -/
def CJobStrings.stack (strings : CJobStrings) (st : Stack) : List String :=
  match st with
  | Stack.header => strings.header_strings
  | Stack.header_bottom => strings.header_bottom_strings
  | Stack.source => strings.source_strings
  | Stack.pub => strings.public_functions
  | Stack.priv => strings.private_functions

/-- Modelled from the spec: the push of a formatted fragment, that is
`add_header_string(job, strformat(...))` and its four siblings, which cgen.h
declares and whose bodies are not among the sources at hand. By section 4.2 a
stack is an append-only sequence that keeps the order of the pushes, and by
section 7 a push fails only when an allocation fails: the push takes the next
outcome of `heap`; on success the fragment goes to the end of the stack, on
failure the stack is left as it was and CJOB_MEM_ERROR is reported. -/
def push_string (st : Stack) (job : CJob) (s : String) : CJobStatus × CJob :=
  match job.heap with
  | [] => (CJobStatus.CJOB_SUCCESS, { job with strings := job.strings.push st s })
  | true :: rest =>
      (CJobStatus.CJOB_SUCCESS, { job with strings := job.strings.push st s, heap := rest })
  | false :: rest => (CJobStatus.CJOB_MEM_ERROR, { job with heap := rest })

/-- Modelled from the spec: add_header_string applied to a formatted string. -/
def add_header_string (job : CJob) (s : String) : CJobStatus × CJob :=
  push_string Stack.header job s

/-- Modelled from the spec: add_public_function applied to a formatted string. -/
def add_public_function (job : CJob) (s : String) : CJobStatus × CJob :=
  push_string Stack.pub job s

/-- Modelled from the spec: add_private_function applied to a formatted string. -/
def add_private_function (job : CJob) (s : String) : CJobStatus × CJob :=
  push_string Stack.priv job s

/-- An emitter `CJobStatus f(CJob *job)`: the status returned and the job left
behind. -/
abbrev Emitter := CJob → CJobStatus × CJob

/-- Falling through with nothing pushed; at the end of a function it is
`return CJOB_SUCCESS;`. -/
def proceed : Emitter := fun job => (CJobStatus.CJOB_SUCCESS, job)

/-- Sequencing with the early return of the C code,
`if ((result = a(job)) != CJOB_SUCCESS) return result;` followed by `b`. -/
def and_then (a b : Emitter) : Emitter := fun job =>
  match a job with
  | (CJobStatus.CJOB_SUCCESS, job1) => b job1
  | (result, job1) => (result, job1)

/-- A `for` loop over an array whose body may return from the function. -/
def for_each {α : Type} (body : α → Emitter) : List α → Emitter
  | [] => proceed
  | x :: xs => and_then (body x) (for_each body xs)

/-- The statement CJOB_FMT_HEADER_STRING of cgen.h, the format already applied
to its arguments: any status but success of the push makes the enclosing
function return CJOB_MEM_ERROR. -/
def CJOB_FMT_HEADER_STRING (s : String) : Emitter := fun job =>
  match add_header_string job s with
  | (CJobStatus.CJOB_SUCCESS, job1) => (CJobStatus.CJOB_SUCCESS, job1)
  | (_, job1) => (CJobStatus.CJOB_MEM_ERROR, job1)

/-- The statement CJOB_FMT_PUB_FUNCTION of cgen.h. -/
def CJOB_FMT_PUB_FUNCTION (s : String) : Emitter := fun job =>
  match add_public_function job s with
  | (CJobStatus.CJOB_SUCCESS, job1) => (CJobStatus.CJOB_SUCCESS, job1)
  | (_, job1) => (CJobStatus.CJOB_MEM_ERROR, job1)

/-- The statement CJOB_FMT_PRIV_FUNCTION of cgen.h. -/
def CJOB_FMT_PRIV_FUNCTION (s : String) : Emitter := fun job =>
  match add_private_function job s with
  | (CJobStatus.CJOB_SUCCESS, job1) => (CJobStatus.CJOB_SUCCESS, job1)
  | (_, job1) => (CJobStatus.CJOB_MEM_ERROR, job1)

/-- Modelled from the spec: scalar_type_name, declared in cgen.h and defined
outside the sources at hand; the table of section 4.3 gives the emitted type
name of each tag. -/
def scalar_type_name : ScalarTag → String
  | ScalarTag.SCALAR_UINT8 => "haris_uint8_t"
  | ScalarTag.SCALAR_INT8 => "haris_int8_t"
  | ScalarTag.SCALAR_UINT16 => "haris_uint16_t"
  | ScalarTag.SCALAR_INT16 => "haris_int16_t"
  | ScalarTag.SCALAR_UINT32 => "haris_uint32_t"
  | ScalarTag.SCALAR_INT32 => "haris_int32_t"
  | ScalarTag.SCALAR_UINT64 => "haris_uint64_t"
  | ScalarTag.SCALAR_INT64 => "haris_int64_t"
  | ScalarTag.SCALAR_FLOAT32 => "haris_float32"
  | ScalarTag.SCALAR_FLOAT64 => "haris_float64"
  | ScalarTag.SCALAR_BOOL => "unsigned char"
  | ScalarTag.SCALAR_ENUM => "haris_uint8_t"

/-- Modelled from the spec: sizeof_scalar, declared in cgen.h and defined
outside the sources at hand; the table of section 4.3 gives the size in bytes
of each tag. -/
def sizeof_scalar : ScalarTag → Nat
  | ScalarTag.SCALAR_UINT8 => 1
  | ScalarTag.SCALAR_INT8 => 1
  | ScalarTag.SCALAR_UINT16 => 2
  | ScalarTag.SCALAR_INT16 => 2
  | ScalarTag.SCALAR_UINT32 => 4
  | ScalarTag.SCALAR_INT32 => 4
  | ScalarTag.SCALAR_UINT64 => 8
  | ScalarTag.SCALAR_INT64 => 8
  | ScalarTag.SCALAR_FLOAT32 => 4
  | ScalarTag.SCALAR_FLOAT64 => 8
  | ScalarTag.SCALAR_BOOL => 1
  | ScalarTag.SCALAR_ENUM => 1

/-! ## The fixed fragments of cgenh.c and cgenc_file.c -/

/-- The includes pushed first by write_header_boilerplate (cgenh.c line 35). -/
def boilerplate_includes : String :=
  "#include <stdio.h>\n#include <stdlib.h>\n#include <stddef.h>\n#include <string.h>\n\n"

/-- The explanatory comment pushed second by write_header_boilerplate (cgenh.c line 40). -/
def boilerplate_integer_note : String :=
  "/* In order to generate C code, the utility library needs exact-precision\n   unsigned and signed integers. In particular, in order to ensure that we don\x27t\n   overflow the native integer containers when parsing Haris messages, we need\n   to be certain about the minimum size of our integers. Haris defines the\n   typedefs\n   haris_intN_t\n   and\n   haris_uintN_t\n   for N in [8, 16, 32, 64]. The intN types must be signed, and the uintN types\n   must be unsigned. Each type must have at least N bits (that is, haris_int8_t\n   must have at least 8 bits and must be signed). If your system includes \n   stdint.h (which it will if you have a standard-conforming C99 compiler), then\n   the typedef\x27s automatically generated by the code generator should be \n   sufficient, and you should be able to include the generated files in your \n   project without changing them. If you do not have stdint.h, then you\x27ll have\n   to manually modify the following 8 typedef\x27s yourself (though that shouldn\x27t\n   take more than a minute to do). Make sure to remove the #include directive \n   if you do not have stdint.h.\n\n   These type definitions trade time for space; that is, they use the fastest\n   possible types with those sizes rather than the smallest. This means that\n   the in-memory representation of a structure might be larger than is \n   technically necessary to store the number. If you wish to use less space\n   in-memory in exchange for a potentially longer running time, use the\n   [u]int_leastN_t types rather than the [u]int_fastN_t types.\n*/\n"

/-- The haris integer and float typedefs, HarisStatus and the reader and writer callback types (cgenh.c line 66). -/
def boilerplate_typedefs : String :=
  "#include <stdint.h>\n\ntypedef uint_fast8_t    haris_uint8_t;\ntypedef int_fast8_t     haris_int8_t;\ntypedef uint_fast16_t   haris_uint16_t;\ntypedef int_fast16_t    haris_int16_t;\ntypedef uint_fast32_t   haris_uint32_t;\ntypedef int_fast32_t    haris_int32_t;\ntypedef uint_fast64_t   haris_uint64_t;\ntypedef int_fast64_t    haris_int64_t;\n\ntypedef float           haris_float32;\ntypedef double          haris_float64;\n\ntypedef enum \x7b\n  HARIS_SUCCESS, HARIS_STRUCTURE_ERROR, HARIS_DEPTH_ERROR, HARIS_SIZE_ERROR,\n  HARIS_INPUT_ERROR, HARIS_MEM_ERROR\n\x7d HarisStatus;\n\ntypedef HarisStatus (*HarisStreamReader)(void *, haris_uint32_t, \n                                         const unsigned char **);\n\ntypedef HarisStatus (*HarisStreamWriter)(void *, const unsigned char *, \n                                         haris_uint32_t);\n\n"

/-- The limits-and-hooks fragment pushed first by write_header_macros (cgenh.c line 112). -/
def limits_and_hooks : String :=
  "/* Changeable size limits for error-checking. You can freely modify these if\n   you would like your Haris client to be able to process larger or deeper\n   messages. \n*/\n\n#define HARIS_DEPTH_LIMIT 64\n#define HARIS_MESSAGE_SIZE_LIMIT 1000000000\n\n/* \"Magic numbers\" for use by float-reading and -writing functions; do not \n   modify\n*/\n\n#define HARIS_FLOAT32_SIGBITS 23\n#define HARIS_FLOAT32_BIAS    127\n#define HARIS_FLOAT64_SIGBITS 52\n#define HARIS_FLOAT64_BIAS    1023\n\n/* The _init_ deallocation factor. If you initialize a list to have length\n   N, but the list is already allocated to have length A, then the list\n   will be reallocated to have length N if and only if N/A is less than\n   the deallocation factor. The deallocation factor must be between 0.0 and\n   1.0; lower values will waste more memory but will not interface with the\n   memory allocator as much, and higher values will waste less memory but\n   will have to reallocate more.\n*/\n\n#define HARIS_DEALLOC_FACTOR 0.6\n\n/* The drop-in memory management functions. If you want, you can use a\n   custom memory allocator, rather than just using the standard library\x27s.\n   A custom allocator needs to implement a function that works like malloc\n   (HARIS_MALLOC), a function that works like realloc (HARIS_REALLOC), \n   and a function that works like free (HARIS_FREE).\n*/\n\n#define HARIS_MALLOC(n) malloc(n)\n#define HARIS_REALLOC(p, n) realloc((p), (n))\n#define HARIS_FREE(p) free(p)\n\n#define HARIS_ASSERT(cond, err) if (!(cond)) return HARIS_ ## err ## _ERROR\n\n"

/-- The HarisScalarType declaration (cgenh.c line 209). -/
def reflective_scalar_type : String :=
  "typedef enum \x7b\n  HARIS_SCALAR_UINT8, HARIS_SCALAR_INT8, HARIS_SCALAR_UINT16,\n  HARIS_SCALAR_INT16, HARIS_SCALAR_UINT32, HARIS_SCALAR_INT32,\n  HARIS_SCALAR_UINT64, HARIS_SCALAR_INT64, HARIS_SCALAR_FLOAT32,\n  HARIS_SCALAR_FLOAT64, HARIS_SCALAR_BLANK\n\x7d HarisScalarType;\n\n"

/-- The HarisChildType declaration (cgenh.c line 216). -/
def reflective_child_type : String :=
  "typedef enum \x7b\n  HARIS_CHILD_TEXT, HARIS_CHILD_SCALAR_LIST, HARIS_CHILD_STRUCT_LIST,\n  HARIS_CHILD_STRUCT\n\x7d HarisChildType;\n\n"

/-- The HarisListInfo declaration (cgenh.c line 221). -/
def reflective_list_info : String :=
  "typedef struct \x7b\n  void *         ptr;\n  haris_uint32_t len;\n  haris_uint32_t alloc;\n  char           null;\n\x7d HarisListInfo;\n\n"

/-- The HarisSubstructInfo declaration (cgenh.c line 228). -/
def reflective_substruct_info : String :=
  "typedef struct \x7b\n  void *ptr;\n  char null;\n\x7d HarisSubstructInfo;\n\n"

/-- The forward declaration of HarisStructureInfo (cgenh.c line 233). -/
def reflective_forward : String :=
  "typedef struct HarisStructureInfo_ HarisStructureInfo;\n\n"

/-- The HarisScalar declaration (cgenh.c line 235). -/
def reflective_scalar : String :=
  "typedef struct \x7b\n  size_t offset;\n  HarisScalarType type;\n\x7d HarisScalar;\n\n"

/-- The HarisChild declaration (cgenh.c line 240). -/
def reflective_child : String :=
  "typedef struct \x7b\n  size_t offset;\n  int nullable;\n  HarisScalarType scalar_element;\n  const HarisStructureInfo *struct_element;\n  HarisChildType child_type;\n\x7d HarisChild;\n\n"

/-- The definition of struct HarisStructureInfo_ (cgenh.c line 248). -/
def reflective_structure_info : String :=
  "struct HarisStructureInfo_ \x7b\n  int num_scalars;\n  const HarisScalar *scalars;\n  int num_children;\n  const HarisChild *children;\n  int body_size;\n  size_t size_of;\n\x7d;\n\n"

/-- The HarisFileStream record pushed by write_file_structures (cgenc_file.c line 36). -/
def file_stream_record : String :=
  "typedef struct \x7b\n  FILE *file;\n  haris_uint32_t curr;\n  unsigned char buffer[256];\n\x7d HarisFileStream;\n\n"

/-- The text of the generated reader adapter (cgenc_file.c line 47). -/
def read_from_file_stream_text : String :=
  "static HarisStatus read_from_file_stream(void *_stream,\n                                         haris_uint32_t count,\n                                         const unsigned char **dest)\n\x7b\n  HarisFileStream *stream = (HarisFileStream*)_stream;\n  HARIS_ASSERT(count + stream->curr <= HARIS_MESSAGE_SIZE_LIMIT, SIZE);\n  HARIS_ASSERT(count <= 256, SIZE);\n  HARIS_ASSERT(fread(stream->buffer, 1, count, stream->file) == count,\n               INPUT);\n  *dest = stream->buffer;\n  stream->curr = count;\n  return HARIS_SUCCESS;\n\x7d\n\n"

/-- The text of the generated writer adapter (cgenc_file.c line 61). -/
def write_to_file_stream_text : String :=
  "static HarisStatus write_to_file_stream(void *_stream,\n                                        const unsigned char *src,\n                                        haris_uint32_t count)\n\x7b\n  HarisFileStream *stream = (HarisFileStream*)_stream;\n  HARIS_ASSERT(fwrite(src, 1, count, stream->file) == count, INPUT);\n  stream->curr += count;\n  return HARIS_SUCCESS;\n\x7d\n\n"

/-- The text of the generated _public_to_file (cgenc_file.c line 71). -/
def public_to_file_text : String :=
  "static HarisStatus _public_to_file(void *ptr,\n                                   const HarisStructureInfo *info,\n                                   FILE *f,\n                                   haris_uint32_t *out_sz)\n\x7b\n  HarisStatus result;\n  HarisFileStream file_stream;\n  haris_uint32_t encoded_size = haris_lib_size(ptr, info, 0, &result);\n  if (encoded_size == 0) return result;\n  HARIS_ASSERT(encoded_size <= HARIS_MESSAGE_SIZE_LIMIT, SIZE);\n  file_stream.file = f;\n  file_stream.curr = 0;\n  if ((result = _haris_to_stream(ptr, info, &file_stream,\n                                 write_to_file_stream)) != HARIS_SUCCESS)\n    return result;\n  if (out_sz) *out_sz = file_stream.curr;\n  return HARIS_SUCCESS;\n\x7d\n\n"

/-- The text of the generated _public_from_file (cgenc_file.c line 90). -/
def public_from_file_text : String :=
  "static HarisStatus _public_from_file(void *ptr,\n                                     const HarisStructureInfo *info,\n                                     FILE *f,\n                                     haris_uint32_t *out_sz)\n\x7b\n  HarisStatus result;\n  HarisFileStream file_stream;\n  file_stream.file = f;\n  file_stream.curr = 0;\n  if ((result = _haris_from_stream(ptr, info, &file_stream,\n                                   read_from_file_stream, 0)) != HARIS_SUCCESS)\n    return result;\n  if (out_sz) *out_sz = file_stream.curr;\n  return HARIS_SUCCESS;\n\x7d\n\n"

/-! ## The header emitter (cgenh.c) -/

/-- The boilerplate section of the header. -/
def write_header_boilerplate : Emitter :=
  and_then (CJOB_FMT_HEADER_STRING boilerplate_includes)
  (and_then (CJOB_FMT_HEADER_STRING boilerplate_integer_note)
  (and_then (CJOB_FMT_HEADER_STRING boilerplate_typedefs)
  proceed))

/-- The body of the loop over the children in write_header_macros (cgenh.c
lines 153 to 188): the accessor macros of one child. -/
def header_macros_child (schema : ParsedSchema) (pfx strct_name : String)
    (child : ChildField) : Emitter :=
  let child_name := child.name
  and_then
    (if child.nullable then
      and_then
        (CJOB_FMT_HEADER_STRING
          ("#define " ++ pfx ++ strct_name ++ "_null_" ++ child_name ++ "(X) ((int)((X)->_" ++ child_name ++ "_info.null))\n"))
        (CJOB_FMT_HEADER_STRING
          ("#define " ++ pfx ++ strct_name ++ "_nullify_" ++ child_name ++ "(X) ((X)->_" ++ child_name ++ "_info.null = 1)\n"))
    else proceed)
  (and_then
    (if child.tag ≠ ChildTag.CHILD_STRUCT then
      CJOB_FMT_HEADER_STRING
        ("#define " ++ pfx ++ strct_name ++ "_len_" ++ child_name ++ "(X) ((haris_uint32_t)((X)->_" ++ child_name ++ "_info.len))\n")
    else proceed)
  (and_then
    (CJOB_FMT_HEADER_STRING ("#define " ++ pfx ++ strct_name ++ "_get_" ++ child_name ++ "(X) "))
  (and_then
    (match child.type with
     | ChildType.text => CJOB_FMT_HEADER_STRING "((char*)"
     | ChildType.scalar_list elem =>
         CJOB_FMT_HEADER_STRING ("((" ++ scalar_type_name elem.tag ++ "*)")
     | ChildType.struct_list target =>
         CJOB_FMT_HEADER_STRING ("((" ++ pfx ++ schema.struct_name target ++ "*)")
     | ChildType.strct target =>
         CJOB_FMT_HEADER_STRING ("((" ++ pfx ++ schema.struct_name target ++ "*)"))
    (CJOB_FMT_HEADER_STRING ("((X)->_" ++ child_name ++ "_info.ptr))\n\n")))))

/-- The loop over the values of one enumeration in write_header_macros (cgenh.c
lines 194 to 197), from the index `j` on. -/
def header_macros_values (pfx enm_name : String) : Nat → List String → Emitter
  | _, [] => proceed
  | j, v :: vs =>
      and_then
        (CJOB_FMT_HEADER_STRING ("#define " ++ pfx ++ enm_name ++ "_" ++ v ++ " " ++ toString j ++ "\n"))
        (header_macros_values pfx enm_name (j + 1) vs)

/-- The body of the loop over the enumerations in write_header_macros (cgenh.c
lines 192 to 198). -/
def header_macros_enum (pfx : String) (enm : ParsedEnum) : Emitter :=
  and_then (CJOB_FMT_HEADER_STRING ("/* enum " ++ enm.name ++ " */\n"))
  (and_then (header_macros_values pfx enm.name 0 enm.values)
  (CJOB_FMT_HEADER_STRING "\n"))

/-- The limits, the accessor macros of every child of every structure, and the
value macros of every enumeration. -/
def write_header_macros : Emitter := fun job =>
  let pfx := job.pfx
  (and_then (CJOB_FMT_HEADER_STRING limits_and_hooks)
  (and_then
    (for_each
      (fun strct => for_each (header_macros_child job.schema pfx strct.name) strct.children)
      job.schema.structs)
  (and_then (for_each (header_macros_enum pfx) job.schema.enums)
  proceed))) job

/-- The generic structures that capture the makeup of the defined structures. -/
def write_reflective_structures : Emitter :=
  and_then (CJOB_FMT_HEADER_STRING reflective_scalar_type)
  (and_then (CJOB_FMT_HEADER_STRING reflective_child_type)
  (and_then (CJOB_FMT_HEADER_STRING reflective_list_info)
  (and_then (CJOB_FMT_HEADER_STRING reflective_substruct_info)
  (and_then (CJOB_FMT_HEADER_STRING reflective_forward)
  (and_then (CJOB_FMT_HEADER_STRING reflective_scalar)
  (and_then (CJOB_FMT_HEADER_STRING reflective_child)
  (and_then (CJOB_FMT_HEADER_STRING reflective_structure_info)
  proceed)))))))

/-- Write a child field to the output file. -/
def write_child_field (child : ChildField) : Emitter :=
  let child_name := child.name
  and_then
    (match child.tag with
     | ChildTag.CHILD_TEXT | ChildTag.CHILD_SCALAR_LIST | ChildTag.CHILD_STRUCT_LIST =>
         CJOB_FMT_HEADER_STRING ("  HarisListInfo _" ++ child_name ++ "_info;\n")
     | ChildTag.CHILD_STRUCT =>
         CJOB_FMT_HEADER_STRING ("  HarisSubstructInfo _" ++ child_name ++ "_info;\n"))
    proceed

/-- The table `scalars_by_size` of write_structure_definition. -/
def scalars_by_size : List ScalarTag :=
  [ScalarTag.SCALAR_UINT64, ScalarTag.SCALAR_INT64, ScalarTag.SCALAR_FLOAT64,
   ScalarTag.SCALAR_UINT32, ScalarTag.SCALAR_INT32, ScalarTag.SCALAR_FLOAT32,
   ScalarTag.SCALAR_UINT16, ScalarTag.SCALAR_INT16, ScalarTag.SCALAR_BOOL,
   ScalarTag.SCALAR_ENUM, ScalarTag.SCALAR_UINT8, ScalarTag.SCALAR_INT8]

/-- The record declaration of one structure: the opening line, one field per
child, the scalar fields found by one pass over the scalars for every entry of
`scalars_by_size`, the closing line. -/
def write_structure_definition (strct : ParsedStruct) : Emitter := fun job =>
  let pfx := job.pfx
  let name := strct.name
  (and_then (CJOB_FMT_HEADER_STRING "typedef struct \x7b\n")
  (and_then (for_each write_child_field strct.children)
  (and_then
    (for_each
      (fun tag =>
        for_each
          (fun (sc : ScalarField) =>
            if sc.type.tag = tag then
              CJOB_FMT_HEADER_STRING ("  " ++ scalar_type_name sc.type.tag ++ " " ++ sc.name ++ ";\n")
            else proceed)
          strct.scalars)
      scalars_by_size)
  (and_then (CJOB_FMT_HEADER_STRING ("\x7d " ++ pfx ++ name ++ ";\n\n"))
  proceed)))) job

/-- The reflective structures, then the record declaration of every structure
of the schema. -/
def write_header_structures : Emitter := fun job =>
  (and_then write_reflective_structures
  (and_then (for_each write_structure_definition job.schema.structs)
  proceed)) job

/-- The public entry point of the header emitter. -/
def write_header_file : Emitter :=
  and_then write_header_boilerplate
  (and_then write_header_macros
  (and_then write_header_structures
  proceed))

/-! ## The file protocol emitter (cgenc_file.c) -/

/-- The state record of the file protocol, pushed to the header. -/
def write_file_structures : Emitter :=
  and_then (CJOB_FMT_HEADER_STRING file_stream_record) proceed

/-- The four private functions of the file protocol. -/
def write_static_file_funcs : Emitter :=
  and_then (CJOB_FMT_PRIV_FUNCTION read_from_file_stream_text)
  (and_then (CJOB_FMT_PRIV_FUNCTION write_to_file_stream_text)
  (and_then (CJOB_FMT_PRIV_FUNCTION public_to_file_text)
  (and_then (CJOB_FMT_PRIV_FUNCTION public_from_file_text)
  proceed)))

/-- The two public functions of the file protocol for one structure. -/
def write_public_file_funcs (strct : ParsedStruct) : Emitter := fun job =>
  let pfx := job.pfx
  let name := strct.name
  (and_then
    (CJOB_FMT_PUB_FUNCTION
      ("HarisStatus " ++ pfx ++ name ++ "_to_file(" ++ pfx ++ name ++ " *strct, FILE *f, \n                          haris_uint32_t *out_sz)\n\x7b\n  return _public_to_file(strct, &haris_lib_structures[" ++ toString strct.schema_index ++ "],\n                         f, out_sz);\n\x7d\n\n"))
  (and_then
    (CJOB_FMT_PUB_FUNCTION
      ("HarisStatus " ++ pfx ++ name ++ "_from_file(" ++ pfx ++ name ++ " *strct, FILE *f,\n                            haris_uint32_t *out_sz)\n\x7b\n  return _public_from_file(strct, &haris_lib_structures[" ++ toString strct.schema_index ++ "],\n                           f, out_sz);\n\x7d\n\n"))
  proceed)) job

/-- The public entry point of the file protocol emitter. -/
def write_file_protocol_funcs : Emitter := fun job =>
  let schema := job.schema
  (and_then write_file_structures
  (and_then write_static_file_funcs
  (and_then (for_each write_public_file_funcs schema.structs)
  proceed))) job

/-! ## The generated file protocol functions

The private functions that write_static_file_funcs pushes are C text. The
definitions below are that text as functions: `haris_uint32_t` values are
natural numbers below `2 ^ w`, where `w` is the width of `uint_fast32_t` on the
platform, and the arithmetic on them is taken modulo `2 ^ w`. -/

/-- The status codes of the generated library (HarisStatus of the boilerplate). -/
inductive HarisStatus
  | HARIS_SUCCESS | HARIS_STRUCTURE_ERROR | HARIS_DEPTH_ERROR | HARIS_SIZE_ERROR
  | HARIS_INPUT_ERROR | HARIS_MEM_ERROR
  deriving DecidableEq, Repr

/-- The line `#define HARIS_MESSAGE_SIZE_LIMIT 1000000000` of the limits
fragment. -/
def HARIS_MESSAGE_SIZE_LIMIT : Nat := 1000000000

/-- A stdio stream: the bytes still to be read, the bytes written so far, and
the number of bytes the device still accepts. -/
structure FILE where
  input : List Nat
  output : List Nat
  room : Nat
  deriving DecidableEq, Repr

/-- The call `fread(buffer, 1, count, file)` of the C library: as many bytes as
the stream still has, at most `count`, go to the start of the buffer; the
result is their number, the buffer and the stream after the call. -/
def fread (buffer : List Nat) (count : Nat) (file : FILE) : Nat × List Nat × FILE :=
  let got := file.input.take count
  (got.length, got ++ buffer.drop got.length, { file with input := file.input.drop count })

/-- The call `fwrite(src, 1, count, file)` of the C library: as many bytes as
the device accepts, at most `count`, are written; the result is their number
and the stream after the call. -/
def fwrite (src : List Nat) (count : Nat) (file : FILE) : Nat × FILE :=
  let n := min count file.room
  (n, { file with output := file.output ++ src.take n, room := file.room - n })

/-- The record HarisFileStream that write_file_structures declares. -/
structure HarisFileStream where
  file : FILE
  curr : Nat
  buffer : List Nat
  deriving DecidableEq, Repr

/-- What a `const unsigned char *` of the reader protocol points to. -/
inductive BytePtr
  | null
  | stream_buffer
  | other (addr : Nat)
  deriving DecidableEq, Repr

/-- The generated reader adapter (cgenc_file.c lines 48 to 60). The result is
the status, the stream record after the call and the value of `*dest` after
the call. -/
def read_from_file_stream (w : Nat) (stream : HarisFileStream) (count : Nat)
    (dest : BytePtr) : HarisStatus × HarisFileStream × BytePtr :=
  if ¬ ((count + stream.curr) % 2 ^ w ≤ HARIS_MESSAGE_SIZE_LIMIT) then
    (HarisStatus.HARIS_SIZE_ERROR, stream, dest)
  else if ¬ (count ≤ 256) then
    (HarisStatus.HARIS_SIZE_ERROR, stream, dest)
  else
    match fread stream.buffer count stream.file with
    | (n, buffer, file) =>
      if ¬ (n = count) then
        (HarisStatus.HARIS_INPUT_ERROR, { stream with file := file, buffer := buffer }, dest)
      else
        (HarisStatus.HARIS_SUCCESS, { file := file, curr := count, buffer := buffer },
          BytePtr.stream_buffer)

/-- The generated writer adapter (cgenc_file.c lines 62 to 70). -/
def write_to_file_stream (w : Nat) (stream : HarisFileStream) (src : List Nat)
    (count : Nat) : HarisStatus × HarisFileStream :=
  match fwrite src count stream.file with
  | (n, file) =>
    if ¬ (n = count) then
      (HarisStatus.HARIS_INPUT_ERROR, { stream with file := file })
    else
      (HarisStatus.HARIS_SUCCESS,
        { stream with file := file, curr := (stream.curr + count) % 2 ^ w })

/-- The type of a reader callback on a file stream (HarisStreamReader). -/
abbrev HarisStreamReader :=
  HarisFileStream → Nat → BytePtr → HarisStatus × HarisFileStream × BytePtr

/-- The type of a writer callback on a file stream (HarisStreamWriter). -/
abbrev HarisStreamWriter :=
  HarisFileStream → List Nat → Nat → HarisStatus × HarisFileStream

/-- The generated _public_to_file (cgenc_file.c lines 72 to 89). The library
routines haris_lib_size and _haris_to_stream, whose bodies belong to the core
library, are parameters: `haris_lib_size ptr info 0` gives the size it returns
and the status it stores through its last argument, `_haris_to_stream` gives
its status and the stream record it leaves. `buffer0` is the indeterminate
content of the local record. A null `out_sz` is `none`. The result is the
status, the stdio stream after the call and the cell behind `out_sz`. -/
def _public_to_file {Msg Info : Type} (w : Nat)
    (haris_lib_size : Msg → Info → Nat → Nat × HarisStatus)
    (_haris_to_stream : Msg → Info → HarisFileStream → HarisStreamWriter →
      HarisStatus × HarisFileStream)
    (buffer0 : List Nat) (ptr : Msg) (info : Info) (f : FILE) (out_sz : Option Nat) :
    HarisStatus × FILE × Option Nat :=
  match haris_lib_size ptr info 0 with
  | (encoded_size, result) =>
    if encoded_size = 0 then (result, f, out_sz)
    else if ¬ (encoded_size ≤ HARIS_MESSAGE_SIZE_LIMIT) then
      (HarisStatus.HARIS_SIZE_ERROR, f, out_sz)
    else
      match _haris_to_stream ptr info { file := f, curr := 0, buffer := buffer0 }
          (write_to_file_stream w) with
      | (result, file_stream) =>
        if result ≠ HarisStatus.HARIS_SUCCESS then (result, file_stream.file, out_sz)
        else
          (HarisStatus.HARIS_SUCCESS, file_stream.file,
            match out_sz with
            | some _ => some file_stream.curr
            | none => none)

/-- The generated _public_from_file (cgenc_file.c lines 91 to 105), with the
library routine _haris_from_stream as a parameter. -/
def _public_from_file {Msg Info : Type} (w : Nat)
    (_haris_from_stream : Msg → Info → HarisFileStream → HarisStreamReader → Nat →
      HarisStatus × HarisFileStream)
    (buffer0 : List Nat) (ptr : Msg) (info : Info) (f : FILE) (out_sz : Option Nat) :
    HarisStatus × FILE × Option Nat :=
  match _haris_from_stream ptr info { file := f, curr := 0, buffer := buffer0 }
      (read_from_file_stream w) 0 with
  | (result, file_stream) =>
    if result ≠ HarisStatus.HARIS_SUCCESS then (result, file_stream.file, out_sz)
    else
      (HarisStatus.HARIS_SUCCESS, file_stream.file,
        match out_sz with
        | some _ => some file_stream.curr
        | none => none)

/-- A sequence of calls of the reader adapter on one stream record, one call
for each count: the statuses returned, in order, and the record left. -/
def read_calls (w : Nat) : HarisFileStream → List Nat → List HarisStatus × HarisFileStream
  | stream, [] => ([], stream)
  | stream, count :: counts =>
    match read_from_file_stream w stream count BytePtr.null with
    | (status, stream1, _) =>
      match read_calls w stream1 counts with
      | (statuses, stream2) => (status :: statuses, stream2)

/-- The counts of the calls that returned HARIS_SUCCESS, added up. -/
def successful_total : List Nat → List HarisStatus → Nat
  | count :: counts, status :: statuses =>
    (if status = HarisStatus.HARIS_SUCCESS then count else 0) + successful_total counts statuses
  | _, _ => 0

/-- A decoding routine in the place of _haris_from_stream that asks the
reader for the given counts in turn, returns the status of the first read that
fails, and HARIS_SUCCESS when every read succeeded. -/
def from_stream_reading (counts : List Nat) {Msg Info : Type} (_ptr : Msg) (_info : Info)
    (stream : HarisFileStream) (reader : HarisStreamReader) (_depth : Nat) :
    HarisStatus × HarisFileStream :=
  match counts with
  | [] => (HarisStatus.HARIS_SUCCESS, stream)
  | count :: rest =>
    match reader stream count BytePtr.null with
    | (HarisStatus.HARIS_SUCCESS, stream1, _) =>
        from_stream_reading rest _ptr _info stream1 reader _depth
    | (status, stream1, _) => (status, stream1)

/-! ## What the emitters push, as lists of fragments

The definitions of this section describe outputs; the theorems relate them to
the emitters above. -/

/-- No allocation of the heap fails. -/
def NoFailure (heap : List Bool) : Prop := ∀ b ∈ heap, b = true

instance (heap : List Bool) : Decidable (NoFailure heap) :=
  inferInstanceAs (Decidable (∀ b ∈ heap, b = true))

/-- The push statement on any of the five stacks. -/
def emit (st : Stack) (s : String) : Emitter := fun job =>
  match push_string st job s with
  | (CJobStatus.CJOB_SUCCESS, job1) => (CJobStatus.CJOB_SUCCESS, job1)
  | (_, job1) => (CJobStatus.CJOB_MEM_ERROR, job1)

/-- A sequence of push statements, each fragment with its stack. -/
def push_all (plan : List (Stack × String)) : Emitter :=
  for_each (fun p => emit p.1 p.2) plan

/-- The fragments `l`, each bound for the stack `st`. -/
def on_stack (st : Stack) (l : List String) : List (Stack × String) :=
  l.map (fun s => (st, s))

/-- The job after all the pushes of a plan have succeeded. -/
def CJob.pushed (job : CJob) (plan : List (Stack × String)) : CJob :=
  { job with
    strings := plan.foldl (fun acc p => acc.push p.1 p.2) job.strings
    heap := job.heap.drop plan.length }

/-- The macro name `<pfx><S>_null_<C>`. -/
def null_name (pfx S C : String) : String := pfx ++ S ++ "_null_" ++ C

/-- The macro name `<pfx><S>_nullify_<C>`. -/
def nullify_name (pfx S C : String) : String := pfx ++ S ++ "_nullify_" ++ C

/-- The macro name `<pfx><S>_len_<C>`. -/
def len_name (pfx S C : String) : String := pfx ++ S ++ "_len_" ++ C

/-- The macro name `<pfx><S>_get_<C>`. -/
def get_name (pfx S C : String) : String := pfx ++ S ++ "_get_" ++ C

/-- The pointer type `T` of the cast in the get macro of a child. -/
def get_cast_type (schema : ParsedSchema) (pfx : String) (child : ChildField) : String :=
  match child.type with
  | ChildType.text => "char"
  | ChildType.scalar_list elem => scalar_type_name elem.tag
  | ChildType.struct_list target => pfx ++ schema.struct_name target
  | ChildType.strct target => pfx ++ schema.struct_name target

/-- The three fragments of the get macro of a child. -/
def get_fragments (schema : ParsedSchema) (pfx S : String) (child : ChildField) :
    List String :=
  ["#define " ++ get_name pfx S child.name ++ "(X) ",
   "((" ++ get_cast_type schema pfx child ++ "*)",
   "((X)->_" ++ child.name ++ "_info.ptr))\n\n"]

/-- The fragments of the accessor macros of one child of the structure named
`S`, in the order of the pushes. -/
def child_macro_fragments (schema : ParsedSchema) (pfx S : String) (child : ChildField) :
    List String :=
  (if child.nullable then
    ["#define " ++ null_name pfx S child.name ++ "(X) ((int)((X)->_" ++ child.name ++ "_info.null))\n",
     "#define " ++ nullify_name pfx S child.name ++ "(X) ((X)->_" ++ child.name ++ "_info.null = 1)\n"]
   else []) ++
  (if child.tag ≠ ChildTag.CHILD_STRUCT then
    ["#define " ++ len_name pfx S child.name ++ "(X) ((haris_uint32_t)((X)->_" ++ child.name ++ "_info.len))\n"]
   else []) ++
  get_fragments schema pfx S child

/-- The accessor macro fragments of the children `cs` of the structure named `S`. -/
def children_macro_fragments (schema : ParsedSchema) (pfx S : String)
    (cs : List ChildField) : List String :=
  cs.flatMap (child_macro_fragments schema pfx S)

/-- The accessor macro fragments of the structures `ss`, in order. -/
def accessor_macro_fragments (schema : ParsedSchema) (pfx : String)
    (ss : List ParsedStruct) : List String :=
  ss.flatMap (fun S => children_macro_fragments schema pfx S.name S.children)

/-- The line of the value macro of the value `v` at the index `i` of the
enumeration named `E`, without its newline. -/
def enum_value_line (pfx E v : String) (i : Nat) : String :=
  "#define " ++ pfx ++ E ++ "_" ++ v ++ " " ++ toString i

/-- The value macro fragments of the values `vs`, numbered from `j` on. -/
def enum_value_fragments (pfx E : String) (j : Nat) (vs : List String) : List String :=
  (vs.enumFrom j).map (fun iv => enum_value_line pfx E iv.2 iv.1 ++ "\n")

/-- The fragments of one enumeration: its comment, one line for each value,
an empty line. -/
def enum_fragments (pfx : String) (enm : ParsedEnum) : List String :=
  ("/* enum " ++ enm.name ++ " */\n") ::
    (enum_value_fragments pfx enm.name 0 enm.values ++ ["\n"])

/-- The fragments of the enumerations `es`, in order. -/
def enum_macro_fragments (pfx : String) (es : List ParsedEnum) : List String :=
  es.flatMap (enum_fragments pfx)

/-- The characters that may continue an identifier of C. -/
def is_ident_char (c : Char) : Bool := c.isAlphanum || c == '_'

/-- The text `frag` starts with the text `head`, and `head` is not followed
there by a character that continues an identifier. -/
def starts_with_word : List Char → List Char → Bool
  | [], [] => true
  | [], c :: _ => !is_ident_char c
  | _ :: _, [] => false
  | a :: head, b :: frag => a == b && starts_with_word head frag

/-- The fragment is a #define of the macro named `name`: it reads `#define `,
then the name, and the name ends there. -/
def is_define_of (name frag : String) : Bool :=
  starts_with_word ("#define " ++ name).data frag.data

/-- The number of #defines of the macro named `name` among the fragments. -/
def count_defines (name : String) (frags : List String) : Nat :=
  frags.countP (is_define_of name)

/-- The rank of a scalar tag: its position in `scalars_by_size`. -/
def size_rank : ScalarTag → Nat
  | ScalarTag.SCALAR_UINT64 => 0
  | ScalarTag.SCALAR_INT64 => 1
  | ScalarTag.SCALAR_FLOAT64 => 2
  | ScalarTag.SCALAR_UINT32 => 3
  | ScalarTag.SCALAR_INT32 => 4
  | ScalarTag.SCALAR_FLOAT32 => 5
  | ScalarTag.SCALAR_UINT16 => 6
  | ScalarTag.SCALAR_INT16 => 7
  | ScalarTag.SCALAR_BOOL => 8
  | ScalarTag.SCALAR_ENUM => 9
  | ScalarTag.SCALAR_UINT8 => 10
  | ScalarTag.SCALAR_INT8 => 11

/-- The order of two scalar fields by the rank of their tags. -/
def rank_le (a b : ScalarField) : Prop := size_rank a.type.tag ≤ size_rank b.type.tag

instance : DecidableRel rank_le := fun a b =>
  inferInstanceAs (Decidable (size_rank a.type.tag ≤ size_rank b.type.tag))

instance : IsTotal ScalarField rank_le := ⟨fun _ _ => Nat.le_total _ _⟩

instance : IsTrans ScalarField rank_le := ⟨fun _ _ _ hab hbc => Nat.le_trans hab hbc⟩

/-- The line of a scalar field in a record declaration. -/
def scalar_field_line (sc : ScalarField) : String :=
  "  " ++ scalar_type_name sc.type.tag ++ " " ++ sc.name ++ ";\n"

/-- The line of a child field in a record declaration. -/
def child_field_line (child : ChildField) : String :=
  match child.tag with
  | ChildTag.CHILD_STRUCT => "  HarisSubstructInfo _" ++ child.name ++ "_info;\n"
  | _ => "  HarisListInfo _" ++ child.name ++ "_info;\n"

/-- The scalar fields in the order in which write_structure_definition visits
them: for every entry of `scalars_by_size` in turn, the fields of that tag in
declaration order. -/
def scalars_in_emitted_order (scalars : List ScalarField) : List ScalarField :=
  scalars_by_size.flatMap (fun tag => scalars.filter (fun sc => sc.type.tag = tag))

/-- The definition of `<pfx><S>_to_file` for the index `k`. -/
def to_file_definition (pfx S : String) (k : Int) : String :=
  "HarisStatus " ++ pfx ++ S ++ "_to_file(" ++ pfx ++ S ++ " *strct, FILE *f, \n                          haris_uint32_t *out_sz)\n\x7b\n  return _public_to_file(strct, &haris_lib_structures[" ++ toString k ++ "],\n                         f, out_sz);\n\x7d\n\n"

/-- The definition of `<pfx><S>_from_file` for the index `k`. -/
def from_file_definition (pfx S : String) (k : Int) : String :=
  "HarisStatus " ++ pfx ++ S ++ "_from_file(" ++ pfx ++ S ++ " *strct, FILE *f,\n                            haris_uint32_t *out_sz)\n\x7b\n  return _public_from_file(strct, &haris_lib_structures[" ++ toString k ++ "],\n                           f, out_sz);\n\x7d\n\n"

/-- The two public fragments of every structure of `ss`, in order. -/
def public_file_fragments (pfx : String) (ss : List ParsedStruct) : List String :=
  ss.flatMap (fun S =>
    [to_file_definition pfx S.name S.schema_index, from_file_definition pfx S.name S.schema_index])

/-- The fragments write_header_macros pushes, in order. -/
def header_macro_fragments (job : CJob) : List String :=
  limits_and_hooks ::
    (accessor_macro_fragments job.schema job.pfx job.schema.structs ++
      enum_macro_fragments job.pfx job.schema.enums)

/-- The fragments write_structure_definition pushes for a structure, in order. -/
def structure_definition_fragments (pfx : String) (strct : ParsedStruct) : List String :=
  ["typedef struct \x7b\n"] ++ strct.children.map child_field_line ++
    (scalars_in_emitted_order strct.scalars).map scalar_field_line ++
    ["\x7d " ++ pfx ++ strct.name ++ ";\n\n"]

/-- The pushes of write_file_protocol_funcs, each with its stack, in order. -/
def file_protocol_plan (job : CJob) : List (Stack × String) :=
  on_stack Stack.header [file_stream_record] ++
    (on_stack Stack.priv
        [read_from_file_stream_text, write_to_file_stream_text, public_to_file_text,
          public_from_file_text] ++
      on_stack Stack.pub (public_file_fragments job.pfx job.schema.structs))

/-- The offset of the field at position `k` of an emitted sequence: the sizes of
the fields emitted before it, added up. -/
def offset_at (fields : List ScalarField) (k : Nat) : Nat :=
  ((fields.take k).map (fun sc => sizeof_scalar sc.type.tag)).sum

/-- The total size of the scalar fields of a sequence. -/
def scalar_total (fields : List ScalarField) : Nat :=
  (fields.map (fun sc => sizeof_scalar sc.type.tag)).sum

/-- The three fragments of write_header_boilerplate, in order. -/
def boilerplate_fragments : List String :=
  [boilerplate_includes, boilerplate_integer_note, boilerplate_typedefs]

/-- The eight fragments of write_reflective_structures, in order. -/
def reflective_fragments : List String :=
  [reflective_scalar_type, reflective_child_type, reflective_list_info,
   reflective_substruct_info, reflective_forward, reflective_scalar, reflective_child,
   reflective_structure_info]

/-- The record declarations of the structures `ss`, in order. -/
def record_fragments (pfx : String) (ss : List ParsedStruct) : List String :=
  ss.flatMap (structure_definition_fragments pfx)

/-- The fragments write_header_file pushes, in order. -/
def header_file_fragments (job : CJob) : List String :=
  boilerplate_fragments ++
    (header_macro_fragments job ++
      (reflective_fragments ++ record_fragments job.pfx job.schema.structs))

/-- The job left by a sequence of pushes whose push number `k` (from 0) is the
first to fail: the fragments before it are on their stacks, and the heap has
given `k + 1` outcomes. -/
def CJob.failed_at (job : CJob) (plan : List (Stack × String)) (k : Nat) : CJob :=
  { job.pushed (plan.take k) with heap := job.heap.drop (k + 1) }

/-- The string is made of characters of identifiers only. -/
def is_identifier (s : String) : Prop := ∀ c ∈ s.data, is_ident_char c = true

instance (s : String) : Decidable (is_identifier s) := by
  unfold is_identifier
  infer_instance

/-- The string holds no underscore. -/
def no_underscore (s : String) : Prop := '_' ∉ s.data

instance (s : String) : Decidable (no_underscore s) := by
  unfold no_underscore
  infer_instance

/-- The names of the accessor macros of one child of the structure named `S`,
in the order of their #defines. -/
def child_macro_names (pfx S : String) (child : ChildField) : List String :=
  (if child.nullable then
    [null_name pfx S child.name, nullify_name pfx S child.name] else []) ++
  (if child.tag ≠ ChildTag.CHILD_STRUCT then [len_name pfx S child.name] else []) ++
  [get_name pfx S child.name]

/-- The name `<pfx><E>_<v>` of the macro of a value of the enumeration named `E`. -/
def enum_value_name (pfx E v : String) : String := pfx ++ E ++ "_" ++ v

/-- The names of the accessor macros of every child of every structure, then
the names of the value macros of every enumeration, in the order of their
#defines. -/
def macro_names (job : CJob) : List String :=
  job.schema.structs.flatMap
      (fun S => S.children.flatMap (child_macro_names job.pfx S.name)) ++
    job.schema.enums.flatMap (fun E => E.values.map (enum_value_name job.pfx E.name))

/-! ## Scenarios -/

/-- Five empty stacks. -/
def no_strings : CJobStrings := ⟨[], [], [], [], []⟩

/-- A job on a schema with empty stacks and a heap that never fails. -/
def fresh_job (schema : ParsedSchema) (pfx : String) : CJob :=
  { schema := schema, pfx := pfx, output := "out", protocols := ⟨false, true, false⟩,
    strings := no_strings, heap := [] }

/-- A scalar field that is not an enumeration. -/
def plain_scalar (name : String) (tag : ScalarTag) : ScalarField :=
  { name := name, offset := 0, type := ⟨tag, none⟩ }

/-- Scenario A: `Foo` with the scalars `a:uint8, b:uint64, c:uint16, d:int8`. -/
def Foo : ParsedStruct :=
  { name := "Foo", meta := ⟨0⟩, schema_index := 0, offset := 0,
    scalars := [plain_scalar "a" ScalarTag.SCALAR_UINT8, plain_scalar "b" ScalarTag.SCALAR_UINT64,
      plain_scalar "c" ScalarTag.SCALAR_UINT16, plain_scalar "d" ScalarTag.SCALAR_INT8],
    children := [] }

/-- The nullable child `payload: Foo` of scenario B; `Foo` stands first in the
schema. -/
def payload : ChildField :=
  { name := "payload", nullable := true, meta := ⟨false⟩, type := ChildType.strct 0 }

/-- Scenario B: `Bar` with the nullable child `payload: Foo`. -/
def Bar : ParsedStruct :=
  { name := "Bar", meta := ⟨0⟩, schema_index := 1, offset := 0, scalars := [],
    children := [payload] }

/-- The child `body: Text` of scenario C, not nullable. -/
def body : ChildField :=
  { name := "body", nullable := false, meta := ⟨false⟩, type := ChildType.text }

/-- Scenario C: `Msg` with the child `body: Text`. -/
def Msg : ParsedStruct :=
  { name := "Msg", meta := ⟨0⟩, schema_index := 2, offset := 0, scalars := [],
    children := [body] }

/-- Scenario D: the enumeration `Color`. -/
def Color : ParsedEnum := { name := "Color", values := ["RED", "GREEN", "BLUE"] }

/-- The job of scenarios A, B and C: the structures `Foo`, `Bar` and `Msg`, no
prefix. -/
def scenario_job : CJob := fresh_job ⟨[Foo, Bar, Msg], []⟩ ""

/-- The job of scenario D: the enumeration `Color` under the prefix `app_`. -/
def color_job : CJob := fresh_job ⟨[], [Color]⟩ "app_"

/-- A text child of the given name. -/
def text_child (name : String) (nullable : Bool) : ChildField :=
  { name := name, nullable := nullable, meta := ⟨false⟩, type := ChildType.text }

/-- A structure without scalars. -/
def struct_of_children (name : String) (index : Int) (children : List ChildField) :
    ParsedStruct :=
  { name := name, meta := ⟨0⟩, schema_index := index, offset := 0, scalars := [],
    children := children }

/-- Two structures with distinct names whose nullable children `b_null_c` of
`A` and `c` of `A_null_b` share the null macro name `app_A_null_b_null_c`. -/
def null_clash_job : CJob :=
  fresh_job
    ⟨[struct_of_children "A" 0 [text_child "b_null_c" true],
      struct_of_children "A_null_b" 1 [text_child "c" true]], []⟩ "app_"

/-- Two structures with distinct names whose text children `b_len_c` of `A`
and `c` of `A_len_b` share the len macro name `app_A_len_b_len_c`. -/
def len_clash_job : CJob :=
  fresh_job
    ⟨[struct_of_children "A" 0 [text_child "b_len_c" false],
      struct_of_children "A_len_b" 1 [text_child "c" false]], []⟩ "app_"

/-- Two structures with distinct names whose text children `b_get_c` of `A`
and `c` of `A_get_b` share the get macro name `app_A_get_b_get_c`. -/
def get_clash_job : CJob :=
  fresh_job
    ⟨[struct_of_children "A" 0 [text_child "b_get_c" false],
      struct_of_children "A_get_b" 1 [text_child "c" false]], []⟩ "app_"

/-- A file of `256 * n` zero bytes. -/
def long_file (n : Nat) : FILE :=
  { input := List.replicate (256 * n) 0, output := [], room := 0 }

/-- A stream record on `long_file n`, initialised with `curr = 0` as
_public_from_file does. -/
def long_stream (n : Nat) : HarisFileStream :=
  { file := long_file n, curr := 0, buffer := List.replicate 256 0 }

/-- A file of ten bytes to read. -/
def ten_byte_file : FILE := { input := [1, 2, 3, 4, 5, 6, 7, 8, 9, 10], output := [], room := 0 }

/-- A file open for writing that accepts sixteen more bytes. -/
def output_file : FILE := { input := [], output := [], room := 16 }

/-- An encoding routine in the place of _haris_to_stream that hands three
bytes to the writer. -/
def to_stream_writing {Msg Info : Type} (_ptr : Msg) (_info : Info) (stream : HarisFileStream)
    (writer : HarisStreamWriter) : HarisStatus × HarisFileStream :=
  writer stream [7, 8, 9] 3

/-- A job on the two structures `Foo` and `Bar` under the prefix `app_`. -/
def two_struct_job : CJob := fresh_job ⟨[Foo, Bar], []⟩ "app_"

/-- A structure with one child of each tag and one scalar. -/
def Mixed : ParsedStruct :=
  { name := "Mixed", meta := ⟨0⟩, schema_index := 0, offset := 0,
    scalars := [plain_scalar "a" ScalarTag.SCALAR_UINT8],
    children :=
      [{ name := "t", nullable := false, meta := ⟨false⟩, type := ChildType.text },
       { name := "s", nullable := true, meta := ⟨false⟩, type := ChildType.strct 0 },
       { name := "l", nullable := false, meta := ⟨false⟩,
         type := ChildType.scalar_list ⟨ScalarTag.SCALAR_UINT16, none⟩ },
       { name := "m", nullable := false, meta := ⟨false⟩, type := ChildType.struct_list 0 }] }

/-- A job on the structure `Mixed`, no prefix. -/
def mixed_job : CJob := fresh_job ⟨[Mixed], []⟩ ""

/-- The structure `Pair` with the scalars declared `a:uint8, b:uint8`. -/
def Pair_ab : ParsedStruct :=
  { name := "Pair", meta := ⟨0⟩, schema_index := 0, offset := 0,
    scalars := [plain_scalar "a" ScalarTag.SCALAR_UINT8, plain_scalar "b" ScalarTag.SCALAR_UINT8],
    children := [] }

/-- The structure `Pair` with the same scalars declared `b:uint8, a:uint8`. -/
def Pair_ba : ParsedStruct :=
  { name := "Pair", meta := ⟨0⟩, schema_index := 0, offset := 0,
    scalars := [plain_scalar "b" ScalarTag.SCALAR_UINT8, plain_scalar "a" ScalarTag.SCALAR_UINT8],
    children := [] }

/-- The structure `Foo` of scenario A with its scalars declared in the order
`d, c, b, a`. -/
def Foo_reversed : ParsedStruct :=
  { name := "Foo", meta := ⟨0⟩, schema_index := 0, offset := 0,
    scalars := [plain_scalar "d" ScalarTag.SCALAR_INT8, plain_scalar "c" ScalarTag.SCALAR_UINT16,
      plain_scalar "b" ScalarTag.SCALAR_UINT64, plain_scalar "a" ScalarTag.SCALAR_UINT8],
    children := [] }

/-- The job of scenarios A, B and C on a heap whose fifth allocation fails. -/
def fifth_fails_job : CJob := { scenario_job with heap := [true, true, true, true, false] }

/-- The job on `Foo` and `Bar` on a heap whose third allocation fails. -/
def third_fails_job : CJob := { two_struct_job with heap := [true, true, false, true] }

/-- A job on the structures `Foo` and `Bar` and the enumeration `Color` under
the prefix `app_`. -/
def header_job : CJob := fresh_job ⟨[Foo, Bar], [Color]⟩ "app_"

/-- Structures and an enumeration with pairwise distinct names, and distinct
child and value names inside each, whose macro names clash: the get macro of
the child `b_get_c` of `A` and of the child `c` of `A_get_b`, and the len macro
of the child `b_get_c` of `A` and the macro of the value `b_get_c` of the
enumeration `A_len`. -/
def name_clash_job : CJob :=
  fresh_job
    ⟨[struct_of_children "A" 0 [text_child "b_get_c" false],
      struct_of_children "A_get_b" 1 [text_child "c" false]],
     [{ name := "A_len", values := ["b_get_c"] }]⟩ "app_"

/-! ## The emitters as sequences of pushes -/

theorem and_then_proceed (a : Emitter) : and_then a proceed = a := by
  funext job
  unfold and_then proceed
  rcases h : a job with ⟨st, j⟩
  cases st <;> rfl

theorem proceed_and_then (a : Emitter) : and_then proceed a = a := rfl

theorem and_then_assoc (a b c : Emitter) :
    and_then (and_then a b) c = and_then a (and_then b c) := by
  funext job
  unfold and_then
  rcases h : a job with ⟨st, j⟩
  cases st <;> rfl

theorem push_all_nil : push_all [] = proceed := rfl

theorem push_all_cons (p : Stack × String) (plan : List (Stack × String)) :
    push_all (p :: plan) = and_then (emit p.1 p.2) (push_all plan) := rfl

theorem push_all_append (p q : List (Stack × String)) :
    push_all (p ++ q) = and_then (push_all p) (push_all q) := by
  induction p with
  | nil => rfl
  | cons x p ih => rw [List.cons_append, push_all_cons, push_all_cons, ih, and_then_assoc]

theorem for_each_push_all {α : Type} (body : α → Emitter) (g : α → List (Stack × String))
    (h : ∀ x, body x = push_all (g x)) (l : List α) :
    for_each body l = push_all (l.flatMap g) := by
  induction l with
  | nil => rfl
  | cons x l ih =>
    rw [List.flatMap_cons, push_all_append, ← h x, ← ih]
    rfl

theorem emit_eq_push_all (st : Stack) (s : String) : emit st s = push_all [(st, s)] := by
  rw [push_all_cons, push_all_nil, and_then_proceed]

theorem on_stack_append (st : Stack) (a b : List String) :
    on_stack st (a ++ b) = on_stack st a ++ on_stack st b := by
  simp [on_stack]

theorem on_stack_flatMap {α : Type} (st : Stack) (g : α → List String) (l : List α) :
    on_stack st (l.flatMap g) = l.flatMap (fun x => on_stack st (g x)) := by
  induction l with
  | nil => rfl
  | cons x l ih => simp [List.flatMap_cons, on_stack_append, ih]

theorem header_string_eq (s : String) :
    CJOB_FMT_HEADER_STRING s = push_all (on_stack Stack.header [s]) :=
  emit_eq_push_all Stack.header s

theorem pub_function_eq (s : String) :
    CJOB_FMT_PUB_FUNCTION s = push_all (on_stack Stack.pub [s]) :=
  emit_eq_push_all Stack.pub s

theorem priv_function_eq (s : String) :
    CJOB_FMT_PRIV_FUNCTION s = push_all (on_stack Stack.priv [s]) :=
  emit_eq_push_all Stack.priv s

/-- With no failing allocation, a sequence of pushes succeeds and leaves the
job with every fragment pushed. -/
theorem push_all_run (plan : List (Stack × String)) (job : CJob) (h : NoFailure job.heap) :
    push_all plan job = (CJobStatus.CJOB_SUCCESS, job.pushed plan) := by
  induction plan generalizing job with
  | nil =>
    cases job
    simp [push_all, for_each, proceed, CJob.pushed]
  | cons p plan ih =>
    obtain ⟨schema, pfx, output, protocols, strings, heap⟩ := job
    cases heap with
    | nil =>
      have := ih ⟨schema, pfx, output, protocols, strings.push p.1 p.2, []⟩ h
      simp only [push_all_cons, and_then, emit, push_string, this]
      simp [CJob.pushed]
    | cons b rest =>
      have hb : b = true := h b (List.mem_cons_self _ _)
      subst hb
      have hrest : NoFailure rest := fun c hc => h c (List.mem_cons_of_mem _ hc)
      have := ih ⟨schema, pfx, output, protocols, strings.push p.1 p.2, rest⟩ hrest
      simp only [push_all_cons, and_then, emit, push_string, this]
      simp [CJob.pushed]

/-- A sequence of pushes that returns CJOB_SUCCESS has pushed every fragment. -/
theorem push_all_success (plan : List (Stack × String)) (job : CJob)
    (hs : (push_all plan job).1 = CJobStatus.CJOB_SUCCESS) :
    (push_all plan job).2 = job.pushed plan := by
  induction plan generalizing job with
  | nil =>
    cases job
    simp [push_all, for_each, proceed, CJob.pushed]
  | cons p plan ih =>
    obtain ⟨schema, pfx, output, protocols, strings, heap⟩ := job
    rcases heap with _ | ⟨b, rest⟩
    · have hs1 : (push_all plan ⟨schema, pfx, output, protocols, strings.push p.1 p.2, []⟩).1
          = CJobStatus.CJOB_SUCCESS := hs
      have := ih _ hs1
      simp only [push_all_cons, and_then, emit, push_string, this]
      simp [CJob.pushed]
    · cases b
      · exact absurd hs (by simp [push_all_cons, and_then, emit, push_string])
      · have hs1 : (push_all plan ⟨schema, pfx, output, protocols, strings.push p.1 p.2, rest⟩).1
            = CJobStatus.CJOB_SUCCESS := hs
        have := ih _ hs1
        simp only [push_all_cons, and_then, emit, push_string, this]
        simp [CJob.pushed]

theorem stack_foldl_push (st : Stack) (plan : List (Stack × String)) (strings : CJobStrings) :
    (plan.foldl (fun acc p => acc.push p.1 p.2) strings).stack st =
      strings.stack st ++ (plan.filter (fun p => p.1 = st)).map Prod.snd := by
  induction plan generalizing strings with
  | nil => simp
  | cons p plan ih =>
    obtain ⟨st1, s⟩ := p
    rw [List.foldl_cons, ih]
    cases st <;> cases st1 <;> simp [CJobStrings.push, CJobStrings.stack]

/-- The fragments of a stack after a plan has been pushed. -/
theorem pushed_stack (job : CJob) (plan : List (Stack × String)) (st : Stack) :
    (job.pushed plan).strings.stack st =
      job.strings.stack st ++ (plan.filter (fun p => p.1 = st)).map Prod.snd :=
  stack_foldl_push st plan job.strings

theorem filter_on_stack_same (st : Stack) (l : List String) :
    ((on_stack st l).filter (fun p => p.1 = st)).map Prod.snd = l := by
  induction l with
  | nil => rfl
  | cons s l ih => simpa [on_stack] using ih

theorem filter_on_stack_other (st st1 : Stack) (h : st1 ≠ st) (l : List String) :
    ((on_stack st1 l).filter (fun p => p.1 = st)).map Prod.snd = [] := by
  induction l with
  | nil => rfl
  | cons s l ih => simp [on_stack, h]

theorem flatMap_ite_singleton {α β : Type} (p : α → Prop) [DecidablePred p] (f : α → β)
    (l : List α) :
    l.flatMap (fun x => if p x then [f x] else []) = (l.filter (fun x => p x)).map f := by
  induction l with
  | nil => rfl
  | cons x l ih =>
    by_cases hx : p x <;> simp [List.flatMap_cons, List.filter_cons, hx, ih]

theorem map_flatMap_list {α β γ : Type} (f : β → γ) (g : α → List β) (l : List α) :
    (l.flatMap g).map f = l.flatMap (fun x => (g x).map f) := by
  induction l with
  | nil => rfl
  | cons x l ih => simp [List.flatMap_cons, ih]

theorem flatMap_singleton_map {α β : Type} (f : α → β) (l : List α) :
    l.flatMap (fun x => [f x]) = l.map f := by
  induction l with
  | nil => rfl
  | cons x l ih => simp [List.flatMap_cons, ih]

/-- The accessor macros of one child, as a sequence of pushes. -/
theorem header_macros_child_eq (schema : ParsedSchema) (pfx S : String) (child : ChildField) :
    header_macros_child schema pfx S child =
      push_all (on_stack Stack.header (child_macro_fragments schema pfx S child)) := by
  obtain ⟨name, nullable, info, type⟩ := child
  cases nullable <;> cases type <;>
    simp [header_macros_child, child_macro_fragments, get_fragments, get_cast_type,
      ChildField.tag, header_string_eq, on_stack, push_all_cons, push_all_nil,
      and_then_proceed, proceed_and_then, and_then_assoc, null_name, nullify_name,
      len_name, get_name, String.append_assoc]

theorem header_macros_values_eq (pfx E : String) (j : Nat) (vs : List String) :
    header_macros_values pfx E j vs =
      push_all (on_stack Stack.header (enum_value_fragments pfx E j vs)) := by
  induction vs generalizing j with
  | nil => rfl
  | cons v vs ih =>
    simp only [header_macros_values, ih, header_string_eq, ← push_all_append]
    simp [enum_value_fragments, enum_value_line, on_stack, List.enumFrom_cons,
      String.append_assoc]

theorem header_macros_enum_eq (pfx : String) (enm : ParsedEnum) :
    header_macros_enum pfx enm = push_all (on_stack Stack.header (enum_fragments pfx enm)) := by
  simp only [header_macros_enum, header_macros_values_eq, header_string_eq, ← push_all_append,
    ← on_stack_append]
  rfl

/-- The emitter write_header_macros is the sequence of the pushes of
`header_macro_fragments`, whatever the outcomes of the allocations. -/
theorem write_header_macros_eq (job : CJob) :
    write_header_macros job =
      push_all (on_stack Stack.header (header_macro_fragments job)) job := by
  have h1 : ∀ strct : ParsedStruct,
      for_each (header_macros_child job.schema job.pfx strct.name) strct.children =
        push_all (on_stack Stack.header
          (children_macro_fragments job.schema job.pfx strct.name strct.children)) := by
    intro strct
    rw [for_each_push_all _ _ (header_macros_child_eq job.schema job.pfx strct.name),
      children_macro_fragments, on_stack_flatMap]
  have h2 := for_each_push_all _ _ h1 job.schema.structs
  have h3 := for_each_push_all _ _ (header_macros_enum_eq job.pfx) job.schema.enums
  simp only [write_header_macros]
  rw [h2, h3, and_then_proceed, header_string_eq, ← push_all_append, ← push_all_append,
    ← on_stack_flatMap, ← on_stack_flatMap, ← on_stack_append, ← on_stack_append]
  rfl

/-- With no failing allocation a sequence of pushes returns CJOB_SUCCESS. -/
theorem push_all_succeeds (plan : List (Stack × String)) (job : CJob)
    (h : NoFailure job.heap) : (push_all plan job).1 = CJobStatus.CJOB_SUCCESS := by
  rw [push_all_run plan job h]

/-- When the pushes of header fragments return CJOB_SUCCESS, the header stack
has grown by exactly these fragments. -/
theorem push_header_success (l : List String) (job : CJob)
    (hs : (push_all (on_stack Stack.header l) job).1 = CJobStatus.CJOB_SUCCESS) :
    (push_all (on_stack Stack.header l) job).2.strings.header_strings =
      job.strings.header_strings ++ l := by
  rw [push_all_success _ job hs]
  have := pushed_stack job (on_stack Stack.header l) Stack.header
  rw [filter_on_stack_same] at this
  exact this

theorem write_child_field_eq (child : ChildField) :
    write_child_field child = push_all (on_stack Stack.header [child_field_line child]) := by
  obtain ⟨name, nullable, info, type⟩ := child
  cases type <;>
    simp [write_child_field, child_field_line, ChildField.tag, header_string_eq,
      and_then_proceed]

/-- The emitter write_structure_definition is the sequence of the pushes of
`structure_definition_fragments`, whatever the outcomes of the allocations. -/
theorem write_structure_definition_eq (strct : ParsedStruct) (job : CJob) :
    write_structure_definition strct job =
      push_all (on_stack Stack.header (structure_definition_fragments job.pfx strct)) job := by
  have h1 := for_each_push_all _ _ write_child_field_eq strct.children
  have h2 : ∀ tag : ScalarTag,
      for_each
          (fun (sc : ScalarField) =>
            if sc.type.tag = tag then
              CJOB_FMT_HEADER_STRING ("  " ++ scalar_type_name sc.type.tag ++ " " ++ sc.name ++ ";\n")
            else proceed)
          strct.scalars =
        push_all (on_stack Stack.header
          ((strct.scalars.filter (fun sc => sc.type.tag = tag)).map scalar_field_line)) := by
    intro tag
    rw [for_each_push_all _
      (fun sc => on_stack Stack.header (if sc.type.tag = tag then [scalar_field_line sc] else []))]
    · rw [← on_stack_flatMap, flatMap_ite_singleton]
    · intro sc
      by_cases hsc : sc.type.tag = tag
      · simp [hsc, header_string_eq, scalar_field_line]
      · simp [hsc, on_stack, push_all_nil]
  have h3 := for_each_push_all _ _ h2 scalars_by_size
  simp only [write_structure_definition]
  rw [h1, h3, and_then_proceed, header_string_eq, header_string_eq, ← push_all_append,
    ← push_all_append, ← push_all_append, ← on_stack_flatMap, ← on_stack_flatMap,
    ← on_stack_append, ← on_stack_append, ← on_stack_append, ← map_flatMap_list]
  simp [structure_definition_fragments, scalars_in_emitted_order, flatMap_singleton_map]

/-! ## The order of the scalar fields -/

theorem size_rank_injective (s t : ScalarTag) (h : size_rank s = size_rank t) : s = t := by
  cases s <;> cases t <;> first | rfl | (exact absurd h (by decide))

theorem sizeof_scalar_antitone (s t : ScalarTag) (h : size_rank s ≤ size_rank t) :
    sizeof_scalar t ≤ sizeof_scalar s := by
  cases s <;> cases t <;> first | (exact absurd h (by decide)) | decide

theorem scalars_by_size_sorted :
    scalars_by_size.Pairwise (fun s t => size_rank s < size_rank t) := by
  decide

theorem mem_scalars_by_size (t : ScalarTag) : t ∈ scalars_by_size := by
  cases t <;> decide

/-- The fields of the tags `ts`, tag by tag, each group in declaration order. -/
theorem mem_grouped (ts : List ScalarTag) (l : List ScalarField) (x : ScalarField) :
    x ∈ ts.flatMap (fun tag => l.filter (fun sc => sc.type.tag = tag)) ↔
      x ∈ l ∧ x.type.tag ∈ ts := by
  simp only [List.mem_flatMap, List.mem_filter, decide_eq_true_eq]
  constructor
  · rintro ⟨t, ht, hx, rfl⟩
    exact ⟨hx, ht⟩
  · rintro ⟨hx, ht⟩
    exact ⟨_, ht, hx, rfl⟩

theorem grouped_cons_of_not_mem (ts : List ScalarTag) (l : List ScalarField) (a : ScalarField)
    (h : a.type.tag ∉ ts) :
    ts.flatMap (fun tag => (a :: l).filter (fun sc => sc.type.tag = tag)) =
      ts.flatMap (fun tag => l.filter (fun sc => sc.type.tag = tag)) := by
  induction ts with
  | nil => rfl
  | cons t ts ih =>
    have ht : ¬ a.type.tag = t := fun e => h (e ▸ List.mem_cons_self _ _)
    have hts : a.type.tag ∉ ts := fun e => h (List.mem_cons_of_mem _ e)
    rw [List.flatMap_cons, List.flatMap_cons, ih hts]
    congr 1
    simp [List.filter_cons, ht]

theorem orderedInsert_of_forall_le (a : ScalarField) (l : List ScalarField)
    (h : ∀ x ∈ l, rank_le a x) : List.orderedInsert rank_le a l = a :: l := by
  cases l with
  | nil => rfl
  | cons b l => simp [List.orderedInsert, h b (List.mem_cons_self _ _)]

theorem orderedInsert_append_of_forall_lt (a : ScalarField) (l r : List ScalarField)
    (h : ∀ x ∈ l, ¬ rank_le a x) :
    List.orderedInsert rank_le a (l ++ r) = l ++ List.orderedInsert rank_le a r := by
  induction l with
  | nil => rfl
  | cons b l ih =>
    have hb : ¬ rank_le a b := h b (List.mem_cons_self _ _)
    have hl : ∀ x ∈ l, ¬ rank_le a x := fun x hx => h x (List.mem_cons_of_mem _ hx)
    simp [List.orderedInsert, hb, ih hl]

theorem grouped_cons_of_mem (ts : List ScalarTag) (l : List ScalarField) (a : ScalarField)
    (hs : ts.Pairwise (fun s t => size_rank s < size_rank t)) (h : a.type.tag ∈ ts) :
    ts.flatMap (fun tag => (a :: l).filter (fun sc => sc.type.tag = tag)) =
      List.orderedInsert rank_le a
        (ts.flatMap (fun tag => l.filter (fun sc => sc.type.tag = tag))) := by
  induction ts with
  | nil => cases h
  | cons t ts ih =>
    rw [List.pairwise_cons] at hs
    obtain ⟨ht, hts⟩ := hs
    rw [List.flatMap_cons, List.flatMap_cons]
    by_cases hat : a.type.tag = t
    · have hnot : a.type.tag ∉ ts := fun hm => by
        have := ht _ hm
        rw [hat] at this
        exact Nat.lt_irrefl _ this
      rw [grouped_cons_of_not_mem ts l a hnot, orderedInsert_of_forall_le]
      · simp [List.filter_cons, hat]
      · intro x hx
        rcases List.mem_append.mp hx with hx | hx
        · have hxt : x.type.tag = t := by simpa using (List.mem_filter.mp hx).2
          show size_rank a.type.tag ≤ size_rank x.type.tag
          rw [hat, hxt]
        · have hxt := ((mem_grouped ts l x).mp hx).2
          show size_rank a.type.tag ≤ size_rank x.type.tag
          rw [hat]
          exact Nat.le_of_lt (ht _ hxt)
    · have hin : a.type.tag ∈ ts := by
        rcases List.mem_cons.mp h with e | e
        · exact absurd e hat
        · exact e
      rw [orderedInsert_append_of_forall_lt, ← ih hts hin]
      · congr 1
        simp [List.filter_cons, hat]
      · intro x hx hle
        have hxt : x.type.tag = t := by simpa using (List.mem_filter.mp hx).2
        have hlt := ht _ hin
        have hle1 : size_rank a.type.tag ≤ size_rank x.type.tag := hle
        rw [hxt] at hle1
        exact Nat.lt_irrefl _ (Nat.lt_of_lt_of_le hlt hle1)

/-- The order in which write_structure_definition visits the scalar fields is
the insertion sort of the declaration order by rank. -/
theorem scalars_in_emitted_order_eq_sort (l : List ScalarField) :
    scalars_in_emitted_order l = List.insertionSort rank_le l := by
  induction l with
  | nil => decide
  | cons a l ih =>
    rw [List.insertionSort, ← ih]
    exact grouped_cons_of_mem scalars_by_size l a scalars_by_size_sorted
      (mem_scalars_by_size _)

/-- The fields of one tag keep their declaration order. -/
theorem filter_grouped (ts : List ScalarTag) (l : List ScalarField) (tag : ScalarTag)
    (hs : ts.Nodup) :
    (ts.flatMap (fun t => l.filter (fun sc => sc.type.tag = t))).filter
        (fun sc => sc.type.tag = tag) =
      if tag ∈ ts then l.filter (fun sc => sc.type.tag = tag) else [] := by
  induction ts with
  | nil => rfl
  | cons t ts ih =>
    rw [List.nodup_cons] at hs
    obtain ⟨ht, hts⟩ := hs
    rw [List.flatMap_cons, List.filter_append, ih hts, List.filter_filter]
    by_cases e : tag = t
    · subst e
      simp [ht]
    · have hnil : List.filter (fun a => decide (a.type.tag = tag) && decide (a.type.tag = t)) l
          = [] := by
        rw [List.filter_eq_nil_iff]
        intro a _ ha
        simp only [Bool.and_eq_true, decide_eq_true_eq] at ha
        exact e (ha.1.symm.trans ha.2)
      simp [hnil, e]

theorem scalars_by_size_nodup : scalars_by_size.Nodup := by decide

theorem filter_scalars_in_emitted_order (l : List ScalarField) (tag : ScalarTag) :
    (scalars_in_emitted_order l).filter (fun sc => sc.type.tag = tag) =
      l.filter (fun sc => sc.type.tag = tag) := by
  unfold scalars_in_emitted_order
  rw [filter_grouped _ _ _ scalars_by_size_nodup, if_pos (mem_scalars_by_size tag)]

/-! ## Counting the #defines of a macro name -/

theorem starts_with_word_append (l a b : List Char) :
    starts_with_word (l ++ a) (l ++ b) = starts_with_word a b := by
  induction l with
  | nil => rfl
  | cons c l ih => simp [starts_with_word, ih]

theorem starts_with_word_self_append (l b : List Char) :
    starts_with_word l (l ++ b) = starts_with_word [] b := by
  have := starts_with_word_append l [] b
  rwa [List.append_nil] at this

/-- The accessor macros of one child hold one #define of its null macro when
the child is nullable, and none when it is not. -/
theorem count_null_child (schema : ParsedSchema) (pfx S : String) (child : ChildField) :
    count_defines (null_name pfx S child.name) (child_macro_fragments schema pfx S child) =
      if child.nullable then 1 else 0 := by
  obtain ⟨name, nullable, info, type⟩ := child
  cases nullable <;> cases type <;>
    simp [count_defines, child_macro_fragments, get_fragments, ChildField.tag,
      List.countP_cons, is_define_of, null_name, nullify_name, len_name, get_name,
      String.data_append, List.append_assoc, starts_with_word_append,
      starts_with_word_self_append, starts_with_word, is_ident_char]

/-- The accessor macros of one child hold one #define of its nullify macro
when the child is nullable, and none when it is not. -/
theorem count_nullify_child (schema : ParsedSchema) (pfx S : String) (child : ChildField) :
    count_defines (nullify_name pfx S child.name) (child_macro_fragments schema pfx S child) =
      if child.nullable then 1 else 0 := by
  obtain ⟨name, nullable, info, type⟩ := child
  cases nullable <;> cases type <;>
    simp [count_defines, child_macro_fragments, get_fragments, ChildField.tag,
      List.countP_cons, is_define_of, null_name, nullify_name, len_name, get_name,
      String.data_append, List.append_assoc, starts_with_word_append,
      starts_with_word_self_append, starts_with_word, is_ident_char]

/-- The accessor macros of one child hold one #define of its len macro when
the child is not a plain structure, and none when it is. -/
theorem count_len_child (schema : ParsedSchema) (pfx S : String) (child : ChildField) :
    count_defines (len_name pfx S child.name) (child_macro_fragments schema pfx S child) =
      if child.tag ≠ ChildTag.CHILD_STRUCT then 1 else 0 := by
  obtain ⟨name, nullable, info, type⟩ := child
  cases nullable <;> cases type <;>
    simp [count_defines, child_macro_fragments, get_fragments, ChildField.tag,
      List.countP_cons, is_define_of, null_name, nullify_name, len_name, get_name,
      String.data_append, List.append_assoc, starts_with_word_append,
      starts_with_word_self_append, starts_with_word, is_ident_char]

/-- The accessor macros of one child hold one #define of its get macro. -/
theorem count_get_child (schema : ParsedSchema) (pfx S : String) (child : ChildField) :
    count_defines (get_name pfx S child.name) (child_macro_fragments schema pfx S child) = 1 := by
  obtain ⟨name, nullable, info, type⟩ := child
  cases nullable <;> cases type <;>
    simp [count_defines, child_macro_fragments, get_fragments, ChildField.tag,
      List.countP_cons, is_define_of, null_name, nullify_name, len_name, get_name,
      String.data_append, List.append_assoc, starts_with_word_append,
      starts_with_word_self_append, starts_with_word, is_ident_char]

/-- The limits fragment opens with a comment: it is the #define of no macro. -/
theorem limits_head : ∃ tail, limits_and_hooks.data = '/' :: tail := ⟨_, rfl⟩

theorem limits_defines_nothing (name : String) :
    is_define_of name limits_and_hooks = false := by
  obtain ⟨tail, ht⟩ := limits_head
  unfold is_define_of
  rw [ht]
  simp [String.data_append, starts_with_word]

theorem count_defines_append (name : String) (a b : List String) :
    count_defines name (a ++ b) = count_defines name a + count_defines name b :=
  List.countP_append _ a b

theorem count_defines_limits (name : String) (l : List String) :
    count_defines name (limits_and_hooks :: l) = count_defines name l := by
  simp [count_defines, List.countP_cons, limits_defines_nothing]

/-- The fragments of write_header_macros around the accessor macros of one
child. -/
theorem header_macro_fragments_split (job : CJob) (ss1 ss2 : List ParsedStruct)
    (S : ParsedStruct) (cs1 cs2 : List ChildField) (C : ChildField)
    (hS : job.schema.structs = ss1 ++ S :: ss2) (hC : S.children = cs1 ++ C :: cs2) :
    header_macro_fragments job =
      limits_and_hooks ::
        ((accessor_macro_fragments job.schema job.pfx ss1 ++
            children_macro_fragments job.schema job.pfx S.name cs1) ++
          child_macro_fragments job.schema job.pfx S.name C ++
          (children_macro_fragments job.schema job.pfx S.name cs2 ++
            accessor_macro_fragments job.schema job.pfx ss2 ++
            enum_macro_fragments job.pfx job.schema.enums)) := by
  simp [header_macro_fragments, accessor_macro_fragments, children_macro_fragments, hS, hC,
    List.flatMap_append, List.flatMap_cons, List.append_assoc]

/-- With no failing allocation write_header_macros returns CJOB_SUCCESS, and
when it returns CJOB_SUCCESS the header stack has grown by exactly
`header_macro_fragments`. -/
theorem write_header_macros_run (job : CJob) :
    (NoFailure job.heap → (write_header_macros job).1 = CJobStatus.CJOB_SUCCESS) ∧
    ((write_header_macros job).1 = CJobStatus.CJOB_SUCCESS →
      (write_header_macros job).2.strings.header_strings =
        job.strings.header_strings ++ header_macro_fragments job) := by
  rw [write_header_macros_eq]
  exact ⟨push_all_succeeds _ job, push_header_success _ job⟩

/-- When the loop body of write_header_macros for one child returns
CJOB_SUCCESS, the header stack has grown by exactly the accessor macros of
that child. -/
theorem header_macros_child_success (schema : ParsedSchema) (pfx S : String)
    (child : ChildField) (j : CJob)
    (hs : (header_macros_child schema pfx S child j).1 = CJobStatus.CJOB_SUCCESS) :
    (header_macros_child schema pfx S child j).2.strings.header_strings =
      j.strings.header_strings ++ child_macro_fragments schema pfx S child := by
  rw [header_macros_child_eq] at hs ⊢
  exact push_header_success _ j hs

/-! ## The claims on the header emitter -/

/-- C1: for every structure, write_structure_definition succeeds when no
allocation fails, and when it succeeds it has pushed the opening line, the
child fields, the scalar fields and the closing line, where the scalar fields
are the structure's scalars arranged as the stable sort of the declaration
order by the rank of the tag in `scalars_by_size` (the insertion sort by
`size_rank`: a permutation of the scalars, sorted by rank, in which the fields
of one tag keep their declaration order); `size_rank` is the position in the
table, the sizes by rank are 8,8,8,4,4,4,2,2,1,1,1,1, and the sizes never
increase along the emitted sequence. -/
theorem C1_scalar_fields_stable_sort (job : CJob) (strct : ParsedStruct) :
    (NoFailure job.heap →
      (write_structure_definition strct job).1 = CJobStatus.CJOB_SUCCESS) ∧
    ((write_structure_definition strct job).1 = CJobStatus.CJOB_SUCCESS →
      (write_structure_definition strct job).2.strings.header_strings =
        job.strings.header_strings ++
          (["typedef struct \x7b\n"] ++ strct.children.map child_field_line ++
            (List.insertionSort rank_le strct.scalars).map
              (fun sc => "  " ++ scalar_type_name sc.type.tag ++ " " ++ sc.name ++ ";\n") ++
            ["\x7d " ++ job.pfx ++ strct.name ++ ";\n\n"])) ∧
    (List.insertionSort rank_le strct.scalars).Perm strct.scalars ∧
    (List.insertionSort rank_le strct.scalars).Sorted rank_le ∧
    (∀ tag, (List.insertionSort rank_le strct.scalars).filter (fun sc => sc.type.tag = tag) =
      strct.scalars.filter (fun sc => sc.type.tag = tag)) ∧
    (∀ tag, scalars_by_size[size_rank tag]? = some tag) ∧
    scalars_by_size.map sizeof_scalar = [8, 8, 8, 4, 4, 4, 2, 2, 1, 1, 1, 1] ∧
    (List.insertionSort rank_le strct.scalars).Sorted
      (fun a b => sizeof_scalar b.type.tag ≤ sizeof_scalar a.type.tag) := by
  refine ⟨?_, ?_, List.perm_insertionSort _ _, List.sorted_insertionSort _ _, ?_, ?_, ?_, ?_⟩
  · intro h
    rw [write_structure_definition_eq]
    exact push_all_succeeds _ job h
  · intro hs
    rw [write_structure_definition_eq] at hs ⊢
    rw [push_header_success _ job hs, structure_definition_fragments,
      scalars_in_emitted_order_eq_sort]
    rfl
  · intro tag
    rw [← scalars_in_emitted_order_eq_sort, filter_scalars_in_emitted_order]
  · intro tag
    cases tag <;> decide
  · decide
  · exact (List.sorted_insertionSort rank_le strct.scalars).imp
      (fun {a b} hab => sizeof_scalar_antitone a.type.tag b.type.tag hab)

/-- C1, scenario A: the scalars declared `a:uint8, b:uint64, c:uint16, d:int8`
are emitted in the order `b, c, a, d`. -/
theorem C1_scalar_fields_stable_sort_witness :
    NoFailure scenario_job.heap ∧
    (write_structure_definition Foo scenario_job).1 = CJobStatus.CJOB_SUCCESS ∧
    (write_structure_definition Foo scenario_job).2.strings.header_strings =
      ["typedef struct \x7b\n", "  haris_uint64_t b;\n", "  haris_uint16_t c;\n",
       "  haris_uint8_t a;\n", "  haris_int8_t d;\n", "\x7d Foo;\n\n"] :=
  ⟨by decide, (C1_scalar_fields_stable_sort scenario_job Foo).1 (by decide), by
    rw [(C1_scalar_fields_stable_sort scenario_job Foo).2.1
      ((C1_scalar_fields_stable_sort scenario_job Foo).1 (by decide))]
    decide⟩

/-- C2, as amended: write_header_macros succeeds when no allocation fails, and
when it succeeds it has appended the limits fragment, the fragments `before`,
the fragments `own` that its loop body appends for the child `C` of the
structure `S`, and the fragments `after` (`before` and `after` are the
fragments of the other children and of the enumerations). The fragments `own`
hold exactly one #define of `<pfx><S>_null_<C>` and exactly one of
`<pfx><S>_nullify_<C>` when `C` is nullable, and none of either when it is not;
the same counts hold over all the appended fragments whenever `before` and
`after` hold no #define of that name. -/
theorem C2_null_and_nullify_macros (job : CJob)
    (ss1 ss2 : List ParsedStruct) (S : ParsedStruct) (cs1 cs2 : List ChildField)
    (C : ChildField) (hS : job.schema.structs = ss1 ++ S :: ss2)
    (hC : S.children = cs1 ++ C :: cs2) :
    ∃ before own after : List String,
      before = accessor_macro_fragments job.schema job.pfx ss1 ++
        children_macro_fragments job.schema job.pfx S.name cs1 ∧
      own = child_macro_fragments job.schema job.pfx S.name C ∧
      (∀ j : CJob,
        (header_macros_child job.schema job.pfx S.name C j).1 = CJobStatus.CJOB_SUCCESS →
        (header_macros_child job.schema job.pfx S.name C j).2.strings.header_strings =
          j.strings.header_strings ++ own) ∧
      after = children_macro_fragments job.schema job.pfx S.name cs2 ++
        accessor_macro_fragments job.schema job.pfx ss2 ++
        enum_macro_fragments job.pfx job.schema.enums ∧
      (NoFailure job.heap → (write_header_macros job).1 = CJobStatus.CJOB_SUCCESS) ∧
      ((write_header_macros job).1 = CJobStatus.CJOB_SUCCESS →
        (write_header_macros job).2.strings.header_strings =
          job.strings.header_strings ++ limits_and_hooks :: (before ++ own ++ after)) ∧
      count_defines (job.pfx ++ S.name ++ "_null_" ++ C.name) own
        = (if C.nullable then 1 else 0) ∧
      count_defines (job.pfx ++ S.name ++ "_nullify_" ++ C.name) own
        = (if C.nullable then 1 else 0) ∧
      (count_defines (job.pfx ++ S.name ++ "_null_" ++ C.name) (before ++ after) = 0 →
        count_defines (job.pfx ++ S.name ++ "_null_" ++ C.name)
          (limits_and_hooks :: (before ++ own ++ after)) = (if C.nullable then 1 else 0)) ∧
      (count_defines (job.pfx ++ S.name ++ "_nullify_" ++ C.name) (before ++ after) = 0 →
        count_defines (job.pfx ++ S.name ++ "_nullify_" ++ C.name)
          (limits_and_hooks :: (before ++ own ++ after)) = (if C.nullable then 1 else 0)) := by
  have hrun := write_header_macros_run job
  rw [header_macro_fragments_split job ss1 ss2 S cs1 cs2 C hS hC] at hrun
  have c1 := count_null_child job.schema job.pfx S.name C
  have c2 := count_nullify_child job.schema job.pfx S.name C
  rw [null_name] at c1
  rw [nullify_name] at c2
  refine ⟨_, _, _, rfl, rfl,
    header_macros_child_success job.schema job.pfx S.name C, rfl, hrun.1, hrun.2, c1, c2,
    ?_, ?_⟩
  · intro h0
    rw [count_defines_append] at h0
    rw [count_defines_limits, count_defines_append, count_defines_append, c1]
    omega
  · intro h0
    rw [count_defines_append] at h0
    rw [count_defines_limits, count_defines_append, count_defines_append, c2]
    omega

/-- C2, scenario B: `Bar` with the nullable child `payload` yields one #define
of `Bar_null_payload` and one of `Bar_nullify_payload`. -/
theorem C2_null_and_nullify_macros_witness :
    NoFailure scenario_job.heap ∧
    scenario_job.schema.structs = [Foo] ++ Bar :: [Msg] ∧
    Bar.children = [] ++ payload :: [] ∧
    count_defines "Bar_null_payload"
      (write_header_macros scenario_job).2.strings.header_strings = 1 ∧
    count_defines "Bar_nullify_payload"
      (write_header_macros scenario_job).2.strings.header_strings = 1 := by
  obtain ⟨before, own, after, hb, -, -, ha, hok, hs, -, -, g1, g2⟩ :=
    C2_null_and_nullify_macros scenario_job [Foo] [Msg] Bar [] [] payload rfl rfl
  have e1 : scenario_job.pfx ++ Bar.name ++ "_null_" ++ payload.name = "Bar_null_payload" := by
    decide
  have e2 : scenario_job.pfx ++ Bar.name ++ "_nullify_" ++ payload.name
      = "Bar_nullify_payload" := by decide
  rw [e1] at g1
  rw [e2] at g2
  refine ⟨by decide, rfl, rfl, ?_, ?_⟩
  · rw [hs (hok (by decide))]
    exact g1 (by subst hb ha; decide)
  · rw [hs (hok (by decide))]
    exact g2 (by subst hb ha; decide)

/-- C2 fails as stated: for the structures `A` with the nullable child
`b_null_c` and `A_null_b` with the nullable child `c`, under the prefix `app_`,
the appended fragments hold two #defines of the macro `app_A_null_b_null_c`,
the null macro of either child. -/
theorem C2_null_name_defined_twice :
    NoFailure null_clash_job.heap ∧
    (write_header_macros null_clash_job).1 = CJobStatus.CJOB_SUCCESS ∧
    (write_header_macros null_clash_job).2.strings.header_strings.drop 1 =
      ["#define app_A_null_b_null_c(X) ((int)((X)->_b_null_c_info.null))\n",
       "#define app_A_nullify_b_null_c(X) ((X)->_b_null_c_info.null = 1)\n",
       "#define app_A_len_b_null_c(X) ((haris_uint32_t)((X)->_b_null_c_info.len))\n",
       "#define app_A_get_b_null_c(X) ", "((char*)", "((X)->_b_null_c_info.ptr))\n\n",
       "#define app_A_null_b_null_c(X) ((int)((X)->_c_info.null))\n",
       "#define app_A_null_b_nullify_c(X) ((X)->_c_info.null = 1)\n",
       "#define app_A_null_b_len_c(X) ((haris_uint32_t)((X)->_c_info.len))\n",
       "#define app_A_null_b_get_c(X) ", "((char*)", "((X)->_c_info.ptr))\n\n"] ∧
    "app_" ++ "A" ++ "_null_" ++ "b_null_c" = "app_A_null_b_null_c" ∧
    "app_" ++ "A_null_b" ++ "_null_" ++ "c" = "app_A_null_b_null_c" ∧
    count_defines "app_A_null_b_null_c"
      ((write_header_macros null_clash_job).2.strings.header_strings.drop 1) = 2 ∧
    count_defines "app_A_null_b_null_c"
      ((write_header_macros null_clash_job).2.strings.header_strings.drop 1) ≠ 1 := by
  have hok := (write_header_macros_run null_clash_job).1 (by decide)
  have hrun := (write_header_macros_run null_clash_job).2 hok
  refine ⟨by decide, hok, ?_, by decide, by decide, ?_, ?_⟩
  · rw [hrun]
    decide
  · rw [hrun]
    decide
  · rw [hrun]
    decide


/-- C3, as amended: write_header_macros succeeds when no allocation fails, and
when it succeeds it has appended the limits fragment, the fragments `before`,
the fragments `own` that its loop body appends for the child `C` of the
structure `S`, and the fragments `after` (`before` and `after` are the
fragments of the other children and of the enumerations). The fragments `own`
hold exactly one #define of `<pfx><S>_len_<C>` when the tag of `C` is text,
scalar-list or struct-list, and none when it is struct; the same counts hold
over all the appended fragments whenever `before` and `after` hold no #define
of that name. -/
theorem C3_len_macro_count (job : CJob)
    (ss1 ss2 : List ParsedStruct) (S : ParsedStruct) (cs1 cs2 : List ChildField)
    (C : ChildField) (hS : job.schema.structs = ss1 ++ S :: ss2)
    (hC : S.children = cs1 ++ C :: cs2) :
    ∃ before own after : List String,
      before = accessor_macro_fragments job.schema job.pfx ss1 ++
        children_macro_fragments job.schema job.pfx S.name cs1 ∧
      own = child_macro_fragments job.schema job.pfx S.name C ∧
      (∀ j : CJob,
        (header_macros_child job.schema job.pfx S.name C j).1 = CJobStatus.CJOB_SUCCESS →
        (header_macros_child job.schema job.pfx S.name C j).2.strings.header_strings =
          j.strings.header_strings ++ own) ∧
      after = children_macro_fragments job.schema job.pfx S.name cs2 ++
        accessor_macro_fragments job.schema job.pfx ss2 ++
        enum_macro_fragments job.pfx job.schema.enums ∧
      (NoFailure job.heap → (write_header_macros job).1 = CJobStatus.CJOB_SUCCESS) ∧
      ((write_header_macros job).1 = CJobStatus.CJOB_SUCCESS →
        (write_header_macros job).2.strings.header_strings =
          job.strings.header_strings ++ limits_and_hooks :: (before ++ own ++ after)) ∧
      (C.tag = ChildTag.CHILD_TEXT ∨ C.tag = ChildTag.CHILD_SCALAR_LIST ∨
          C.tag = ChildTag.CHILD_STRUCT_LIST →
        count_defines (job.pfx ++ S.name ++ "_len_" ++ C.name) own = 1) ∧
      (C.tag = ChildTag.CHILD_STRUCT →
        count_defines (job.pfx ++ S.name ++ "_len_" ++ C.name) own = 0) ∧
      (count_defines (job.pfx ++ S.name ++ "_len_" ++ C.name) (before ++ after) = 0 →
        (C.tag = ChildTag.CHILD_TEXT ∨ C.tag = ChildTag.CHILD_SCALAR_LIST ∨
            C.tag = ChildTag.CHILD_STRUCT_LIST →
          count_defines (job.pfx ++ S.name ++ "_len_" ++ C.name)
            (limits_and_hooks :: (before ++ own ++ after)) = 1) ∧
        (C.tag = ChildTag.CHILD_STRUCT →
          count_defines (job.pfx ++ S.name ++ "_len_" ++ C.name)
            (limits_and_hooks :: (before ++ own ++ after)) = 0)) := by
  have hrun := write_header_macros_run job
  rw [header_macro_fragments_split job ss1 ss2 S cs1 cs2 C hS hC] at hrun
  have c1 := count_len_child job.schema job.pfx S.name C
  rw [len_name] at c1
  have hlist : C.tag = ChildTag.CHILD_TEXT ∨ C.tag = ChildTag.CHILD_SCALAR_LIST ∨
      C.tag = ChildTag.CHILD_STRUCT_LIST → C.tag ≠ ChildTag.CHILD_STRUCT := by
    rintro (e | e | e) <;> rw [e] <;> decide
  refine ⟨_, _, _, rfl, rfl,
    header_macros_child_success job.schema job.pfx S.name C, rfl, hrun.1, hrun.2, ?_, ?_, ?_⟩
  · intro ht
    rw [c1, if_pos (hlist ht)]
  · intro ht
    rw [c1, if_neg (fun hne => hne ht)]
  · intro h0
    rw [count_defines_append] at h0
    constructor
    · intro ht
      rw [count_defines_limits, count_defines_append, count_defines_append, c1,
        if_pos (hlist ht)]
      omega
    · intro ht
      rw [count_defines_limits, count_defines_append, count_defines_append, c1,
        if_neg (fun hne => hne ht)]
      omega

/-- C3, scenarios C and B: `Msg` with the text child `body` yields one #define
of `Msg_len_body`; `Bar` with the struct child `payload` yields no #define of
`Bar_len_payload`. -/
theorem C3_len_macro_count_witness :
    NoFailure scenario_job.heap ∧
    scenario_job.schema.structs = [Foo, Bar] ++ Msg :: [] ∧
    Msg.children = [] ++ body :: [] ∧
    body.tag = ChildTag.CHILD_TEXT ∧
    count_defines "Msg_len_body"
      (write_header_macros scenario_job).2.strings.header_strings = 1 ∧
    scenario_job.schema.structs = [Foo] ++ Bar :: [Msg] ∧
    Bar.children = [] ++ payload :: [] ∧
    payload.tag = ChildTag.CHILD_STRUCT ∧
    count_defines "Bar_len_payload"
      (write_header_macros scenario_job).2.strings.header_strings = 0 := by
  obtain ⟨before, own, after, hb, -, -, ha, hok, hs, -, -, g⟩ :=
    C3_len_macro_count scenario_job [Foo, Bar] [] Msg [] [] body rfl rfl
  obtain ⟨before1, own1, after1, hb1, -, -, ha1, -, hs1, -, -, g1⟩ :=
    C3_len_macro_count scenario_job [Foo] [Msg] Bar [] [] payload rfl rfl
  have e : scenario_job.pfx ++ Msg.name ++ "_len_" ++ body.name = "Msg_len_body" := by decide
  have e1 : scenario_job.pfx ++ Bar.name ++ "_len_" ++ payload.name = "Bar_len_payload" := by
    decide
  rw [e] at g
  rw [e1] at g1
  refine ⟨by decide, rfl, rfl, rfl, ?_, rfl, rfl, rfl, ?_⟩
  · rw [hs (hok (by decide))]
    exact (g (by subst hb ha; decide)).1 (Or.inl rfl)
  · rw [hs1 (hok (by decide))]
    exact (g1 (by subst hb1 ha1; decide)).2 rfl

/-- C3 fails as stated: for the structures `A` with the text child `b_len_c`
and `A_len_b` with the text child `c`, under the prefix `app_`, the appended
fragments hold two #defines of the macro `app_A_len_b_len_c`, the len macro of
either child. -/
theorem C3_len_name_defined_twice :
    NoFailure len_clash_job.heap ∧
    (write_header_macros len_clash_job).1 = CJobStatus.CJOB_SUCCESS ∧
    (write_header_macros len_clash_job).2.strings.header_strings.drop 1 =
      ["#define app_A_len_b_len_c(X) ((haris_uint32_t)((X)->_b_len_c_info.len))\n",
       "#define app_A_get_b_len_c(X) ", "((char*)", "((X)->_b_len_c_info.ptr))\n\n",
       "#define app_A_len_b_len_c(X) ((haris_uint32_t)((X)->_c_info.len))\n",
       "#define app_A_len_b_get_c(X) ", "((char*)", "((X)->_c_info.ptr))\n\n"] ∧
    "app_" ++ "A" ++ "_len_" ++ "b_len_c" = "app_A_len_b_len_c" ∧
    "app_" ++ "A_len_b" ++ "_len_" ++ "c" = "app_A_len_b_len_c" ∧
    count_defines "app_A_len_b_len_c"
      ((write_header_macros len_clash_job).2.strings.header_strings.drop 1) = 2 ∧
    count_defines "app_A_len_b_len_c"
      ((write_header_macros len_clash_job).2.strings.header_strings.drop 1) ≠ 1 := by
  have hok := (write_header_macros_run len_clash_job).1 (by decide)
  have hrun := (write_header_macros_run len_clash_job).2 hok
  refine ⟨by decide, hok, ?_, by decide, by decide, ?_, ?_⟩
  · rw [hrun]
    decide
  · rw [hrun]
    decide
  · rw [hrun]
    decide

theorem get_fragments_concat (schema : ParsedSchema) (pfx S : String) (child : ChildField) :
    ("#define " ++ get_name pfx S child.name ++ "(X) ") ++
        ("((" ++ get_cast_type schema pfx child ++ "*)") ++
        ("((X)->_" ++ child.name ++ "_info.ptr))\n\n") =
      "#define " ++ pfx ++ S ++ "_get_" ++ child.name ++ "(X) ((" ++
        get_cast_type schema pfx child ++ "*)((X)->_" ++ child.name ++ "_info.ptr))" ++ "\n\n" := by
  apply String.ext
  simp [get_name, String.data_append, List.append_assoc]

theorem defines_get_head (pfx S C : String) :
    is_define_of (pfx ++ S ++ "_get_" ++ C) ("#define " ++ get_name pfx S C ++ "(X) ") = true := by
  simp [is_define_of, get_name, String.data_append, List.append_assoc,
    starts_with_word_append, starts_with_word_self_append, starts_with_word, is_ident_char]

/-- C4, as amended: write_header_macros succeeds when no allocation fails, and
when it succeeds it has appended the limits fragment, the fragments `before`,
the fragments that its loop body appends for the child `C` of the structure
`S`, and the fragments `after` (`before` and `after` are the fragments of the
other children and of the enumerations). The fragments of `C` end with three
consecutive fragments `g1`, `g2`, `g3` whose concatenation is the line
`#define <pfx><S>_get_<C>(X) ((<T>*)((X)->_<C>_info.ptr))`, closed by a newline
and an empty line, where `T` is `char` for a text child, the scalar type name
of the element tag for a scalar-list child, and `<pfx>` with the name of the
target structure for a struct child and for a struct-list child; `g1` is the
one #define of `<pfx><S>_get_<C>` among the fragments of `C`, and it is the one
such #define among all the appended fragments whenever `before` and `after`
hold no #define of that name. -/
theorem C4_get_macro_line (job : CJob)
    (ss1 ss2 : List ParsedStruct) (S : ParsedStruct) (cs1 cs2 : List ChildField)
    (C : ChildField) (hS : job.schema.structs = ss1 ++ S :: ss2)
    (hC : S.children = cs1 ++ C :: cs2) :
    ∃ (before front after : List String) (g1 g2 g3 T : String),
      before = accessor_macro_fragments job.schema job.pfx ss1 ++
        children_macro_fragments job.schema job.pfx S.name cs1 ∧
      (∀ j : CJob,
        (header_macros_child job.schema job.pfx S.name C j).1 = CJobStatus.CJOB_SUCCESS →
        (header_macros_child job.schema job.pfx S.name C j).2.strings.header_strings =
          j.strings.header_strings ++ (front ++ [g1, g2, g3])) ∧
      after = children_macro_fragments job.schema job.pfx S.name cs2 ++
        accessor_macro_fragments job.schema job.pfx ss2 ++
        enum_macro_fragments job.pfx job.schema.enums ∧
      T = (match C.type with
           | ChildType.text => "char"
           | ChildType.scalar_list elem => scalar_type_name elem.tag
           | ChildType.struct_list target => job.pfx ++ job.schema.struct_name target
           | ChildType.strct target => job.pfx ++ job.schema.struct_name target) ∧
      (NoFailure job.heap → (write_header_macros job).1 = CJobStatus.CJOB_SUCCESS) ∧
      ((write_header_macros job).1 = CJobStatus.CJOB_SUCCESS →
        (write_header_macros job).2.strings.header_strings =
          job.strings.header_strings ++
            limits_and_hooks :: (before ++ (front ++ [g1, g2, g3]) ++ after)) ∧
      g1 ++ g2 ++ g3 =
        "#define " ++ job.pfx ++ S.name ++ "_get_" ++ C.name ++ "(X) ((" ++ T ++
          "*)((X)->_" ++ C.name ++ "_info.ptr))" ++ "\n\n" ∧
      is_define_of (job.pfx ++ S.name ++ "_get_" ++ C.name) g1 = true ∧
      count_defines (job.pfx ++ S.name ++ "_get_" ++ C.name) (front ++ [g1, g2, g3]) = 1 ∧
      (count_defines (job.pfx ++ S.name ++ "_get_" ++ C.name) (before ++ after) = 0 →
        count_defines (job.pfx ++ S.name ++ "_get_" ++ C.name)
          (limits_and_hooks :: (before ++ (front ++ [g1, g2, g3]) ++ after)) = 1) := by
  have hrun := write_header_macros_run job
  rw [header_macro_fragments_split job ss1 ss2 S cs1 cs2 C hS hC] at hrun
  have c1 := count_get_child job.schema job.pfx S.name C
  rw [get_name] at c1
  have hown : child_macro_fragments job.schema job.pfx S.name C =
      ((if C.nullable then
          ["#define " ++ null_name job.pfx S.name C.name ++ "(X) ((int)((X)->_" ++ C.name ++ "_info.null))\n",
           "#define " ++ nullify_name job.pfx S.name C.name ++ "(X) ((X)->_" ++ C.name ++ "_info.null = 1)\n"]
         else []) ++
        (if C.tag ≠ ChildTag.CHILD_STRUCT then
          ["#define " ++ len_name job.pfx S.name C.name ++ "(X) ((haris_uint32_t)((X)->_" ++ C.name ++ "_info.len))\n"]
         else [])) ++
      ["#define " ++ get_name job.pfx S.name C.name ++ "(X) ",
       "((" ++ get_cast_type job.schema job.pfx C ++ "*)",
       "((X)->_" ++ C.name ++ "_info.ptr))\n\n"] := rfl
  rw [hown] at hrun c1
  have hbody := header_macros_child_success job.schema job.pfx S.name C
  rw [hown] at hbody
  refine ⟨_, _, _, _, _, _, get_cast_type job.schema job.pfx C, rfl, hbody, rfl, ?_, hrun.1,
    hrun.2, get_fragments_concat job.schema job.pfx S.name C,
    defines_get_head job.pfx S.name C.name, c1, ?_⟩
  · unfold get_cast_type
    rfl
  · intro h0
    rw [count_defines_append] at h0
    rw [count_defines_limits, count_defines_append, count_defines_append, c1]
    omega

/-- C4, scenario C: the get macro of the text child `body` of `Msg` is the one
#define of `Msg_get_body`, and its three consecutive fragments read
`#define Msg_get_body(X) ((char*)((X)->_body_info.ptr))`. -/
theorem C4_get_macro_line_witness :
    NoFailure scenario_job.heap ∧
    scenario_job.schema.structs = [Foo, Bar] ++ Msg :: [] ∧
    Msg.children = [] ++ body :: [] ∧
    ∃ (front back : List String) (g1 g2 g3 : String),
      (write_header_macros scenario_job).2.strings.header_strings =
        front ++ [g1, g2, g3] ++ back ∧
      g1 ++ g2 ++ g3 = "#define Msg_get_body(X) ((char*)((X)->_body_info.ptr))" ++ "\n\n" ∧
      is_define_of "Msg_get_body" g1 = true ∧
      count_defines "Msg_get_body"
        (write_header_macros scenario_job).2.strings.header_strings = 1 := by
  obtain ⟨before, front, after, g1, g2, g3, T, hb, -, ha, hT, hok, hs, hcat, hd, -, hg⟩ :=
    C4_get_macro_line scenario_job [Foo, Bar] [] Msg [] [] body rfl rfl
  have e : scenario_job.pfx ++ Msg.name ++ "_get_" ++ body.name = "Msg_get_body" := by decide
  have e1 : "#define " ++ scenario_job.pfx ++ Msg.name ++ "_get_" ++ body.name ++ "(X) ((" ++
      "char" ++ "*)((X)->_" ++ body.name ++ "_info.ptr))" ++ "\n\n" =
      "#define Msg_get_body(X) ((char*)((X)->_body_info.ptr))" ++ "\n\n" := by decide
  have hT1 : T = "char" := hT
  rw [e] at hd hg
  rw [hT1, e1] at hcat
  refine ⟨by decide, rfl, rfl, limits_and_hooks :: (before ++ front), after, g1, g2, g3, ?_,
    hcat, hd, ?_⟩
  · rw [hs (hok (by decide))]
    simp [scenario_job, fresh_job, no_strings]
  · rw [hs (hok (by decide))]
    exact hg (by subst hb ha; decide)

/-- C4 fails as stated: for the structures `A` with the text child `b_get_c`
and `A_get_b` with the text child `c`, under the prefix `app_`, the appended
fragments hold two macros `app_A_get_b_get_c(X)`, the get macro of either
child. -/
theorem C4_get_name_defined_twice :
    NoFailure get_clash_job.heap ∧
    (write_header_macros get_clash_job).1 = CJobStatus.CJOB_SUCCESS ∧
    (write_header_macros get_clash_job).2.strings.header_strings.drop 1 =
      ["#define app_A_len_b_get_c(X) ((haris_uint32_t)((X)->_b_get_c_info.len))\n",
       "#define app_A_get_b_get_c(X) ", "((char*)", "((X)->_b_get_c_info.ptr))\n\n",
       "#define app_A_get_b_len_c(X) ((haris_uint32_t)((X)->_c_info.len))\n",
       "#define app_A_get_b_get_c(X) ", "((char*)", "((X)->_c_info.ptr))\n\n"] ∧
    "app_" ++ "A" ++ "_get_" ++ "b_get_c" = "app_A_get_b_get_c" ∧
    "app_" ++ "A_get_b" ++ "_get_" ++ "c" = "app_A_get_b_get_c" ∧
    count_defines "app_A_get_b_get_c"
      ((write_header_macros get_clash_job).2.strings.header_strings.drop 1) = 2 ∧
    count_defines "app_A_get_b_get_c"
      ((write_header_macros get_clash_job).2.strings.header_strings.drop 1) ≠ 1 := by
  have hok := (write_header_macros_run get_clash_job).1 (by decide)
  have hrun := (write_header_macros_run get_clash_job).2 hok
  refine ⟨by decide, hok, ?_, by decide, by decide, ?_, ?_⟩
  · rw [hrun]
    decide
  · rw [hrun]
    decide
  · rw [hrun]
    decide

/-- C5: write_header_macros succeeds when no allocation fails, and when it
succeeds it has appended, after the limits fragment and the accessor macros,
for every enumeration in schema order its comment, then for every index `i`
below its number of values, in increasing `i`, exactly the line
`#define <pfx><E>_<values[i]> <i>` with `i` in decimal and a newline, then an
empty line. -/
theorem C5_enum_value_macros (job : CJob) :
    (NoFailure job.heap → (write_header_macros job).1 = CJobStatus.CJOB_SUCCESS) ∧
    ((write_header_macros job).1 = CJobStatus.CJOB_SUCCESS →
      (write_header_macros job).2.strings.header_strings =
        job.strings.header_strings ++
          limits_and_hooks ::
            (accessor_macro_fragments job.schema job.pfx job.schema.structs ++
              job.schema.enums.flatMap (fun E =>
                ("/* enum " ++ E.name ++ " */\n") ::
                  (E.values.enum.map (fun iv =>
                      "#define " ++ job.pfx ++ E.name ++ "_" ++ iv.2 ++ " " ++ toString iv.1 ++ "\n") ++
                    ["\n"])))) ∧
    (∀ E ∈ job.schema.enums,
      (E.values.enum.map (fun iv =>
          "#define " ++ job.pfx ++ E.name ++ "_" ++ iv.2 ++ " " ++ toString iv.1 ++ "\n")).length =
        E.values.length ∧
      ∀ (i : Nat) (hi : i < E.values.length),
        (E.values.enum.map (fun iv =>
            "#define " ++ job.pfx ++ E.name ++ "_" ++ iv.2 ++ " " ++ toString iv.1 ++ "\n"))[i]? =
          some ("#define " ++ job.pfx ++ E.name ++ "_" ++ E.values[i] ++ " " ++ toString i ++ "\n")) := by
  have hrun := write_header_macros_run job
  refine ⟨hrun.1, ?_, ?_⟩
  · intro hs
    rw [hrun.2 hs]
    rfl
  · intro E _
    refine ⟨by simp, ?_⟩
    intro i hi
    simp [List.getElem?_enum, List.getElem?_eq_getElem hi]

/-- C5, scenario D: the enumeration `Color` with the values `RED, GREEN, BLUE`
under the prefix `app_` yields the lines `#define app_Color_RED 0`,
`#define app_Color_GREEN 1` and `#define app_Color_BLUE 2`. -/
theorem C5_enum_value_macros_witness :
    NoFailure color_job.heap ∧
    (write_header_macros color_job).1 = CJobStatus.CJOB_SUCCESS ∧
    (write_header_macros color_job).2.strings.header_strings.drop 1 =
      ["/* enum Color */\n", "#define app_Color_RED 0\n", "#define app_Color_GREEN 1\n",
       "#define app_Color_BLUE 2\n", "\n"] ∧
    (Color.values.enum.map (fun iv =>
        "#define " ++ color_job.pfx ++ Color.name ++ "_" ++ iv.2 ++ " " ++ toString iv.1 ++ "\n"))[2]? =
      some ("#define " ++ color_job.pfx ++ Color.name ++ "_" ++ Color.values[2] ++ " " ++
        toString 2 ++ "\n") :=
  ⟨by decide, (C5_enum_value_macros color_job).1 (by decide), by
    rw [(C5_enum_value_macros color_job).2.1 ((C5_enum_value_macros color_job).1 (by decide))]
    decide,
   ((C5_enum_value_macros color_job).2.2 Color (by decide)).2 2 (by decide)⟩

/-! ## The claims on the generated file protocol functions -/

/-- C6: every call of the generated read_from_file_stream with a count above
256 returns HARIS_SIZE_ERROR, whatever `stream->curr` and the width of
`haris_uint32_t` are, and leaves the stream record (its file, its buffer and
`curr`) and `*dest` as they were: nothing is read. -/
theorem C6_oversized_read_rejected (w : Nat) (stream : HarisFileStream) (count : Nat)
    (dest : BytePtr) (h : 256 < count) :
    read_from_file_stream w stream count dest =
      (HarisStatus.HARIS_SIZE_ERROR, stream, dest) := by
  unfold read_from_file_stream
  by_cases h1 : (count + stream.curr) % 2 ^ w ≤ HARIS_MESSAGE_SIZE_LIMIT
  · have h2 : ¬ count ≤ 256 := Nat.not_le.mpr h
    simp [h1, h2]
  · simp [h1]

/-- C6 at a count whose sum with `curr` wraps around in 32 bits and so passes
the first check: the second check rejects it. -/
theorem C6_oversized_read_rejected_witness :
    256 < 4294967295 ∧
    (4294967295 + 256) % 2 ^ 32 ≤ HARIS_MESSAGE_SIZE_LIMIT ∧
    read_from_file_stream 32 { file := ten_byte_file, curr := 256, buffer := [] } 4294967295
        BytePtr.null =
      (HarisStatus.HARIS_SIZE_ERROR, { file := ten_byte_file, curr := 256, buffer := [] },
        BytePtr.null) :=
  ⟨by decide, by decide, C6_oversized_read_rejected 32 _ 4294967295 BytePtr.null (by decide)⟩

theorem read_calls_replicate (w n : Nat) (stream : HarisFileStream)
    (hcurr : stream.curr ≤ 256) (hin : stream.file.input = List.replicate (256 * n) 0) :
    (read_calls w stream (List.replicate n 256)).1 =
      List.replicate n HarisStatus.HARIS_SUCCESS := by
  induction n generalizing stream with
  | zero => rfl
  | succ n ih =>
    have h1 : (256 + stream.curr) % 2 ^ w ≤ HARIS_MESSAGE_SIZE_LIMIT := by
      have := Nat.mod_le (256 + stream.curr) (2 ^ w)
      unfold HARIS_MESSAGE_SIZE_LIMIT
      omega
    have hlen : (List.take 256 stream.file.input).length = 256 := by
      rw [hin, List.length_take, List.length_replicate]
      omega
    have hdrop : List.drop 256 stream.file.input = List.replicate (256 * n) 0 := by
      have e : 256 * (n + 1) - 256 = 256 * n := by omega
      rw [hin, List.drop_replicate, e]
    have hstep := ih
      { file := { stream.file with input := List.drop 256 stream.file.input }, curr := 256,
        buffer := List.take 256 stream.file.input ++
          List.drop (List.take 256 stream.file.input).length stream.buffer }
      (Nat.le_refl _) hdrop
    rw [List.replicate_succ, List.replicate_succ]
    simp only [read_calls, read_from_file_stream, fread, h1, hlen, not_true_eq_false,
      if_false, Nat.le_refl]
    rw [hlen] at hstep
    rw [hstep]

theorem successful_total_replicate (n count : Nat) :
    successful_total (List.replicate n count) (List.replicate n HarisStatus.HARIS_SUCCESS) =
      count * n := by
  induction n with
  | zero => rfl
  | succ n ih =>
    rw [List.replicate_succ, List.replicate_succ, successful_total, ih, if_pos rfl]
    rw [Nat.mul_succ, Nat.add_comm]

/-- C7 fails on the code: on a stream initialised with `curr = 0` over a file
of 1000000256 bytes, each of 3906251 calls of the generated
read_from_file_stream with the count 256 returns HARIS_SUCCESS, whatever the
width of `haris_uint32_t`, so the counts of the successful calls add up to
1000000256, above HARIS_MESSAGE_SIZE_LIMIT. -/
theorem C7_successful_reads_pass_the_limit (w : Nat) :
    (long_stream 3906251).curr = 0 ∧
    (read_calls w (long_stream 3906251) (List.replicate 3906251 256)).1 =
      List.replicate 3906251 HarisStatus.HARIS_SUCCESS ∧
    successful_total (List.replicate 3906251 256)
        (read_calls w (long_stream 3906251) (List.replicate 3906251 256)).1 = 1000000256 ∧
    HARIS_MESSAGE_SIZE_LIMIT < 1000000256 := by
  have hr := read_calls_replicate w 3906251 (long_stream 3906251) (Nat.zero_le _) rfl
  refine ⟨rfl, hr, ?_, by decide⟩
  rw [hr, successful_total_replicate]

/-- C8 fails on the code: when _haris_from_stream makes two successful reads
of 4 and of 6 bytes, the generated _public_from_file returns HARIS_SUCCESS and
stores 6, the count of the last read, in `*out_sz`; the message read has 10
bytes. -/
theorem C8_out_sz_is_the_last_count :
    _public_from_file 32 (from_stream_reading [4, 6]) (List.replicate 256 0) () ()
        ten_byte_file (some 0) =
      (HarisStatus.HARIS_SUCCESS, { input := [], output := [], room := 0 }, some 6) ∧
    (read_calls 32 { file := ten_byte_file, curr := 0, buffer := List.replicate 256 0 }
        [4, 6]).1 = [HarisStatus.HARIS_SUCCESS, HarisStatus.HARIS_SUCCESS] ∧
    4 + 6 ≠ 6 := by
  decide

/-- C9: when haris_lib_size returns a value above HARIS_MESSAGE_SIZE_LIMIT the
generated _public_to_file returns HARIS_SIZE_ERROR, and when it returns 0 the
generated _public_to_file returns the status haris_lib_size reported; in both
cases, whatever _haris_to_stream would do, the file is left as it was and the
cell behind `out_sz` keeps its value: _haris_to_stream and
write_to_file_stream are not invoked. -/
theorem C9_size_checked_before_writing {Msg Info : Type} (w : Nat)
    (haris_lib_size : Msg → Info → Nat → Nat × HarisStatus)
    (_haris_to_stream : Msg → Info → HarisFileStream → HarisStreamWriter →
      HarisStatus × HarisFileStream)
    (buffer0 : List Nat) (ptr : Msg) (info : Info) (f : FILE) (out_sz : Option Nat) :
    (HARIS_MESSAGE_SIZE_LIMIT < (haris_lib_size ptr info 0).1 →
      _public_to_file w haris_lib_size _haris_to_stream buffer0 ptr info f out_sz =
        (HarisStatus.HARIS_SIZE_ERROR, f, out_sz)) ∧
    ((haris_lib_size ptr info 0).1 = 0 →
      _public_to_file w haris_lib_size _haris_to_stream buffer0 ptr info f out_sz =
        ((haris_lib_size ptr info 0).2, f, out_sz)) := by
  unfold _public_to_file
  rcases hsz : haris_lib_size ptr info 0 with ⟨encoded_size, result⟩
  constructor
  · intro h
    have h0 : encoded_size ≠ 0 := by
      intro e
      rw [e] at h
      exact Nat.not_lt_zero _ h
    have h1 : ¬ encoded_size ≤ HARIS_MESSAGE_SIZE_LIMIT := Nat.not_le.mpr h
    simp [h0, h1]
  · intro h
    have h0 : encoded_size = 0 := h
    simp [h0]

/-- C9 at a size of 1000000001 and at a size of 0 reported with
HARIS_DEPTH_ERROR, with an encoding routine that would write three bytes: the
file and the cell behind `out_sz` are untouched. -/
theorem C9_size_checked_before_writing_witness :
    _public_to_file 32 (fun (_ : Unit) (_ : Unit) _ => (1000000001, HarisStatus.HARIS_SUCCESS))
        to_stream_writing [] () () output_file (some 5) =
      (HarisStatus.HARIS_SIZE_ERROR, output_file, some 5) ∧
    _public_to_file 32 (fun (_ : Unit) (_ : Unit) _ => (0, HarisStatus.HARIS_DEPTH_ERROR))
        to_stream_writing [] () () output_file (some 5) =
      (HarisStatus.HARIS_DEPTH_ERROR, output_file, some 5) ∧
    _public_to_file 32 (fun (_ : Unit) (_ : Unit) _ => (3, HarisStatus.HARIS_SUCCESS))
        to_stream_writing [] () () output_file (some 5) =
      (HarisStatus.HARIS_SUCCESS, { input := [], output := [7, 8, 9], room := 13 }, some 3) :=
  ⟨(C9_size_checked_before_writing 32
      (fun (_ : Unit) (_ : Unit) _ => (1000000001, HarisStatus.HARIS_SUCCESS))
      to_stream_writing [] () () output_file (some 5)).1 (by decide),
   (C9_size_checked_before_writing 32
      (fun (_ : Unit) (_ : Unit) _ => (0, HarisStatus.HARIS_DEPTH_ERROR))
      to_stream_writing [] () () output_file (some 5)).2 rfl,
   by decide⟩

/-! ## The claims on the file protocol emitter -/

theorem write_public_file_funcs_eq (strct : ParsedStruct) (job : CJob) :
    write_public_file_funcs strct job =
      push_all (on_stack Stack.pub
        [to_file_definition job.pfx strct.name strct.schema_index,
         from_file_definition job.pfx strct.name strct.schema_index]) job := by
  simp only [write_public_file_funcs, pub_function_eq, and_then_proceed, ← push_all_append]
  rfl

/-- Pushes leave the schema and the prefix of the job as they were. -/
theorem push_all_frame (plan : List (Stack × String)) (job : CJob) :
    (push_all plan job).2.schema = job.schema ∧ (push_all plan job).2.pfx = job.pfx := by
  induction plan generalizing job with
  | nil => exact ⟨rfl, rfl⟩
  | cons p plan ih =>
    obtain ⟨schema, pfx, output, protocols, strings, heap⟩ := job
    rw [push_all_cons]
    rcases heap with _ | ⟨b, rest⟩
    · exact ih _
    · cases b
      · exact ⟨rfl, rfl⟩
      · exact ih _

/-- A loop whose body is, on every job, a sequence of pushes fixed by the
schema and the prefix is the sequence of all these pushes. -/
theorem for_each_push_all_job {α : Type} (body : α → Emitter)
    (g : ParsedSchema → String → α → List (Stack × String))
    (hbody : ∀ x job, body x job = push_all (g job.schema job.pfx x) job)
    (l : List α) (job : CJob) :
    for_each body l job = push_all (l.flatMap (g job.schema job.pfx)) job := by
  induction l generalizing job with
  | nil => rfl
  | cons x l ih =>
    rw [List.flatMap_cons, push_all_append]
    show and_then (body x) (for_each body l) job = _
    unfold and_then
    rw [hbody x job]
    have hframe := push_all_frame (g job.schema job.pfx x) job
    rcases hrun : push_all (g job.schema job.pfx x) job with ⟨st, job1⟩
    rw [hrun] at hframe
    cases st
    · simp only
      rw [ih job1, hframe.1, hframe.2]
    all_goals rfl

/-- The emitter write_file_protocol_funcs is the sequence of the pushes of
`file_protocol_plan`, whatever the outcomes of the allocations. -/
theorem write_file_protocol_funcs_eq (job : CJob) :
    write_file_protocol_funcs job = push_all (file_protocol_plan job) job := by
  have h1 : write_file_structures = push_all (on_stack Stack.header [file_stream_record]) := by
    simp only [write_file_structures, header_string_eq, and_then_proceed]
  have h2 : write_static_file_funcs =
      push_all (on_stack Stack.priv
        [read_from_file_stream_text, write_to_file_stream_text, public_to_file_text,
          public_from_file_text]) := by
    simp only [write_static_file_funcs, priv_function_eq, and_then_proceed, ← push_all_append]
    rfl
  have h3 : ∀ job1 : CJob, job1.schema = job.schema → job1.pfx = job.pfx →
      for_each write_public_file_funcs job.schema.structs job1 =
        push_all (on_stack Stack.pub (public_file_fragments job.pfx job.schema.structs)) job1 := by
    intro job1 hs hp
    rw [for_each_push_all_job write_public_file_funcs
      (fun _ pfx S => on_stack Stack.pub
        [to_file_definition pfx S.name S.schema_index,
         from_file_definition pfx S.name S.schema_index])
      write_public_file_funcs_eq, hp, public_file_fragments, on_stack_flatMap]
  simp only [write_file_protocol_funcs, file_protocol_plan, push_all_append, h1, h2,
    and_then_proceed]
  unfold and_then
  have hf1 := push_all_frame (on_stack Stack.header [file_stream_record]) job
  rcases hr1 : push_all (on_stack Stack.header [file_stream_record]) job with ⟨st1, job1⟩
  rw [hr1] at hf1
  cases st1 <;> try rfl
  simp only
  have hf2 := push_all_frame (on_stack Stack.priv
        [read_from_file_stream_text, write_to_file_stream_text, public_to_file_text,
          public_from_file_text]) job1
  rcases hr2 : push_all (on_stack Stack.priv
        [read_from_file_stream_text, write_to_file_stream_text, public_to_file_text,
          public_from_file_text]) job1 with ⟨st2, job2⟩
  rw [hr2] at hf2
  cases st2 <;> try rfl
  simp only
  exact h3 job2 (hf2.1.trans hf1.1) (hf2.2.trans hf1.2)

theorem public_file_fragments_length (pfx : String) (ss : List ParsedStruct) :
    (public_file_fragments pfx ss).length = 2 * ss.length := by
  induction ss with
  | nil => rfl
  | cons S ss ih =>
    simp only [public_file_fragments, List.flatMap_cons, List.length_append, List.length_cons,
      List.length_nil] at ih ⊢
    omega

theorem public_file_fragments_getElem (pfx : String) (ss : List ParsedStruct) (i : Nat)
    (hi : i < ss.length) :
    (public_file_fragments pfx ss)[2 * i]? =
        some (to_file_definition pfx ss[i].name ss[i].schema_index) ∧
    (public_file_fragments pfx ss)[2 * i + 1]? =
        some (from_file_definition pfx ss[i].name ss[i].schema_index) := by
  induction ss generalizing i with
  | nil => cases hi
  | cons S ss ih =>
    cases i with
    | zero => simp [public_file_fragments, List.flatMap_cons]
    | succ i =>
      have hi1 : i < ss.length := Nat.lt_of_succ_lt_succ hi
      have e1 : 2 * (i + 1) = (2 * i) + 1 + 1 := by omega
      have e2 : 2 * (i + 1) + 1 = (2 * i + 1) + 1 + 1 := by omega
      have := ih i hi1
      simp only [public_file_fragments, List.flatMap_cons, List.cons_append, List.nil_append,
        e1, e2, List.getElem?_cons_succ, List.getElem_cons_succ] at this ⊢
      exact this

/-- C10: write_file_protocol_funcs succeeds when no allocation fails, and when
it succeeds it has appended to `public_functions` exactly two fragments for
each of the `N` structures, in schema order: first the definition of
`<pfx><S>_to_file`, which calls `_public_to_file` with
`&haris_lib_structures[k]`, then the definition of `<pfx><S>_from_file`, which
calls `_public_from_file` with the same index, `k` being the `schema_index` of
`S`; when every `schema_index` is the position of its structure, the `k` of the
structure at position `i` is `i`. -/
theorem C10_public_file_functions (job : CJob) :
    (NoFailure job.heap → (write_file_protocol_funcs job).1 = CJobStatus.CJOB_SUCCESS) ∧
    ((write_file_protocol_funcs job).1 = CJobStatus.CJOB_SUCCESS →
      (write_file_protocol_funcs job).2.strings.public_functions =
        job.strings.public_functions ++
          job.schema.structs.flatMap (fun S =>
            [to_file_definition job.pfx S.name S.schema_index,
             from_file_definition job.pfx S.name S.schema_index])) ∧
    (job.schema.structs.flatMap (fun S =>
          [to_file_definition job.pfx S.name S.schema_index,
           from_file_definition job.pfx S.name S.schema_index])).length =
      2 * job.schema.structs.length ∧
    (∀ (i : Nat) (hi : i < job.schema.structs.length),
      (job.schema.structs.flatMap (fun S =>
          [to_file_definition job.pfx S.name S.schema_index,
           from_file_definition job.pfx S.name S.schema_index]))[2 * i]? =
        some (to_file_definition job.pfx job.schema.structs[i].name
          job.schema.structs[i].schema_index) ∧
      (job.schema.structs.flatMap (fun S =>
          [to_file_definition job.pfx S.name S.schema_index,
           from_file_definition job.pfx S.name S.schema_index]))[2 * i + 1]? =
        some (from_file_definition job.pfx job.schema.structs[i].name
          job.schema.structs[i].schema_index)) ∧
    ((∀ (i : Nat) (hi : i < job.schema.structs.length),
        job.schema.structs[i].schema_index = (i : Int)) →
      ∀ (i : Nat) (hi : i < job.schema.structs.length),
        (job.schema.structs.flatMap (fun S =>
            [to_file_definition job.pfx S.name S.schema_index,
             from_file_definition job.pfx S.name S.schema_index]))[2 * i]? =
          some (to_file_definition job.pfx job.schema.structs[i].name (i : Int)) ∧
        (job.schema.structs.flatMap (fun S =>
            [to_file_definition job.pfx S.name S.schema_index,
             from_file_definition job.pfx S.name S.schema_index]))[2 * i + 1]? =
          some (from_file_definition job.pfx job.schema.structs[i].name (i : Int))) := by
  have hfilter : ((file_protocol_plan job).filter (fun p => p.1 = Stack.pub)).map Prod.snd =
      public_file_fragments job.pfx job.schema.structs := by
    unfold file_protocol_plan
    rw [List.filter_append, List.filter_append, List.map_append, List.map_append,
      filter_on_stack_other Stack.pub Stack.header (by decide),
      filter_on_stack_other Stack.pub Stack.priv (by decide), filter_on_stack_same]
    rfl
  refine ⟨?_, ?_, public_file_fragments_length _ _,
    public_file_fragments_getElem job.pfx job.schema.structs, ?_⟩
  · intro h
    rw [write_file_protocol_funcs_eq]
    exact push_all_succeeds _ job h
  · intro hs
    rw [write_file_protocol_funcs_eq] at hs ⊢
    have hstack := pushed_stack job (file_protocol_plan job) Stack.pub
    rw [← push_all_success _ job hs, hfilter] at hstack
    exact hstack
  · intro hidx i hi
    have := public_file_fragments_getElem job.pfx job.schema.structs i hi
    rw [hidx i hi] at this
    exact this

/-- C10 on the structures `Foo` and `Bar` under the prefix `app_`: four
fragments, the two of `Foo` with the index 0, then the two of `Bar` with the
index 1. -/
theorem C10_public_file_functions_witness :
    NoFailure two_struct_job.heap ∧
    (∀ (i : Nat) (hi : i < two_struct_job.schema.structs.length),
      two_struct_job.schema.structs[i].schema_index = (i : Int)) ∧
    (write_file_protocol_funcs two_struct_job).1 = CJobStatus.CJOB_SUCCESS ∧
    (write_file_protocol_funcs two_struct_job).2.strings.public_functions =
      [to_file_definition "app_" "Foo" 0, from_file_definition "app_" "Foo" 0,
       to_file_definition "app_" "Bar" 1, from_file_definition "app_" "Bar" 1] ∧
    (two_struct_job.schema.structs.flatMap (fun S =>
        [to_file_definition two_struct_job.pfx S.name S.schema_index,
         from_file_definition two_struct_job.pfx S.name S.schema_index]))[2 * 1 + 1]? =
      some (from_file_definition two_struct_job.pfx two_struct_job.schema.structs[1].name
        ((1 : Nat) : Int)) :=
  ⟨by decide, by decide, (C10_public_file_functions two_struct_job).1 (by decide), by
    rw [(C10_public_file_functions two_struct_job).2.1
      ((C10_public_file_functions two_struct_job).1 (by decide))]
    rfl,
   ((C10_public_file_functions two_struct_job).2.2.2.2 (by decide) 1 (by decide)).2⟩

/-! ## The claims on the record declarations -/

/-- When write_child_field returns CJOB_SUCCESS, the header stack has grown by
exactly the line of the child. -/
theorem write_child_field_success (child : ChildField) (j : CJob)
    (hs : (write_child_field child j).1 = CJobStatus.CJOB_SUCCESS) :
    (write_child_field child j).2.strings.header_strings =
      j.strings.header_strings ++ [child_field_line child] := by
  rw [write_child_field_eq] at hs ⊢
  exact push_header_success _ j hs

/-- C11: for every structure, write_structure_definition succeeds when no
allocation fails, and when it succeeds it has pushed the opening line
`typedef struct {`, then exactly one info field for each child in declaration
order (the line write_child_field pushes for it), then the scalar fields, then
the closing line `} <pfx><Struct>;`; the info field of a child is
`  HarisListInfo _<child>_info;` when its tag is text, scalar-list or
struct-list, and `  HarisSubstructInfo _<child>_info;` when its tag is struct. -/
theorem C11_child_info_fields (job : CJob) (strct : ParsedStruct) :
    (NoFailure job.heap →
      (write_structure_definition strct job).1 = CJobStatus.CJOB_SUCCESS) ∧
    ((write_structure_definition strct job).1 = CJobStatus.CJOB_SUCCESS →
      (write_structure_definition strct job).2.strings.header_strings =
        job.strings.header_strings ++
          (["typedef struct \x7b\n"] ++ strct.children.map child_field_line ++
            (List.insertionSort rank_le strct.scalars).map
              (fun sc => "  " ++ scalar_type_name sc.type.tag ++ " " ++ sc.name ++ ";\n") ++
            ["\x7d " ++ job.pfx ++ strct.name ++ ";\n\n"])) ∧
    (strct.children.map child_field_line).length = strct.children.length ∧
    (∀ (i : Nat) (hi : i < strct.children.length),
      (strct.children.map child_field_line)[i]? = some (child_field_line strct.children[i])) ∧
    (∀ (child : ChildField) (j : CJob),
      (write_child_field child j).1 = CJobStatus.CJOB_SUCCESS →
      (write_child_field child j).2.strings.header_strings =
        j.strings.header_strings ++ [child_field_line child]) ∧
    (∀ child : ChildField,
      (child.tag = ChildTag.CHILD_TEXT ∨ child.tag = ChildTag.CHILD_SCALAR_LIST ∨
          child.tag = ChildTag.CHILD_STRUCT_LIST →
        child_field_line child = "  HarisListInfo _" ++ child.name ++ "_info;" ++ "\n") ∧
      (child.tag = ChildTag.CHILD_STRUCT →
        child_field_line child = "  HarisSubstructInfo _" ++ child.name ++ "_info;" ++ "\n")) := by
  refine ⟨?_, ?_, by simp, ?_, write_child_field_success, ?_⟩
  · intro h
    rw [write_structure_definition_eq]
    exact push_all_succeeds _ job h
  · intro hs
    rw [write_structure_definition_eq] at hs ⊢
    rw [push_header_success _ job hs, structure_definition_fragments,
      scalars_in_emitted_order_eq_sort]
    rfl
  · intro i hi
    simp [List.getElem?_eq_getElem hi]
  · intro child
    obtain ⟨name, nullable, info, type⟩ := child
    constructor
    · intro ht
      cases type <;>
        simp [child_field_line, ChildField.tag, String.append_assoc] at ht ⊢
    · intro ht
      cases type <;>
        simp [child_field_line, ChildField.tag, String.append_assoc] at ht ⊢

/-- C11 on the structure `Mixed`, which has a text child `t`, a struct child
`s`, a scalar-list child `l`, a struct-list child `m` and one scalar `a`. -/
theorem C11_child_info_fields_witness :
    NoFailure mixed_job.heap ∧
    (write_structure_definition Mixed mixed_job).1 = CJobStatus.CJOB_SUCCESS ∧
    (write_structure_definition Mixed mixed_job).2.strings.header_strings =
      ["typedef struct \x7b\n", "  HarisListInfo _t_info;\n",
       "  HarisSubstructInfo _s_info;\n", "  HarisListInfo _l_info;\n",
       "  HarisListInfo _m_info;\n", "  haris_uint8_t a;\n", "\x7d Mixed;\n\n"] :=
  ⟨by decide, (C11_child_info_fields mixed_job Mixed).1 (by decide), by
    rw [(C11_child_info_fields mixed_job Mixed).2.1
      ((C11_child_info_fields mixed_job Mixed).1 (by decide))]
    decide⟩

/-! ## The layout under a permutation of the declarations -/

theorem map_tag_filter_tag (l : List ScalarField) (t : ScalarTag) :
    (l.filter (fun sc => sc.type.tag = t)).map (fun sc => sc.type.tag) =
      List.replicate (l.countP (fun sc => sc.type.tag = t)) t := by
  induction l with
  | nil => rfl
  | cons a l ih =>
    by_cases h : a.type.tag = t
    · simp [List.filter_cons, List.countP_cons, h, ih, List.replicate_succ]
    · simp [List.filter_cons, List.countP_cons, h, ih]

/-- The tags of the emitted sequence are fixed by how often each tag occurs. -/
theorem map_tag_emitted (l : List ScalarField) :
    (scalars_in_emitted_order l).map (fun sc => sc.type.tag) =
      scalars_by_size.flatMap
        (fun t => List.replicate (l.countP (fun sc => sc.type.tag = t)) t) := by
  unfold scalars_in_emitted_order
  rw [map_flatMap_list]
  congr 1
  funext t
  exact map_tag_filter_tag l t

theorem map_tag_emitted_perm (l1 l2 : List ScalarField) (h : l1.Perm l2) :
    (scalars_in_emitted_order l1).map (fun sc => sc.type.tag) =
      (scalars_in_emitted_order l2).map (fun sc => sc.type.tag) := by
  rw [map_tag_emitted, map_tag_emitted]
  congr 1
  funext t
  rw [h.countP_eq]

theorem offset_at_eq_of_tags (e1 e2 : List ScalarField)
    (h : e1.map (fun sc => sc.type.tag) = e2.map (fun sc => sc.type.tag)) (k : Nat) :
    offset_at e1 k = offset_at e2 k := by
  have h1 : ∀ e : List ScalarField,
      (e.take k).map (fun sc => sizeof_scalar sc.type.tag) =
        ((e.map (fun sc => sc.type.tag)).take k).map sizeof_scalar := by
    intro e
    rw [← List.map_take, List.map_map]
    rfl
  unfold offset_at
  rw [h1 e1, h1 e2, h]

theorem scalar_total_eq_of_tags (e1 e2 : List ScalarField)
    (h : e1.map (fun sc => sc.type.tag) = e2.map (fun sc => sc.type.tag)) :
    scalar_total e1 = scalar_total e2 := by
  have h1 : ∀ e : List ScalarField,
      e.map (fun sc => sizeof_scalar sc.type.tag) =
        (e.map (fun sc => sc.type.tag)).map sizeof_scalar := by
    intro e
    rw [List.map_map]
    rfl
  unfold scalar_total
  rw [h1 e1, h1 e2, h]

/-- Two declaration orders that agree on the fields of every tag are emitted
alike. -/
theorem emitted_eq_of_filters (l1 l2 : List ScalarField)
    (h : ∀ tag, l1.filter (fun sc => sc.type.tag = tag) =
      l2.filter (fun sc => sc.type.tag = tag)) :
    scalars_in_emitted_order l1 = scalars_in_emitted_order l2 := by
  unfold scalars_in_emitted_order
  congr 1
  funext tag
  exact h tag

theorem perm_length_le_one {α : Type} (a b : List α) (h : a.Perm b) (hl : a.length ≤ 1) :
    a = b := by
  match a, b, h.length_eq, hl with
  | [], [], _, _ => rfl
  | [x], [y], _, _ =>
    have := h.subset (List.mem_singleton_self x)
    rw [List.mem_singleton.mp this]
  | [], _ :: _, hlen, _ => cases hlen
  | [_], [], hlen, _ => cases hlen
  | [_], _ :: _ :: _, hlen, _ => simp at hlen
  | _ :: _ :: _, _, _, hl => simp at hl

theorem filter_tag_length_le_one (l : List ScalarField)
    (h : (l.map (fun sc => sc.type.tag)).Nodup) (tag : ScalarTag) :
    (l.filter (fun sc => sc.type.tag = tag)).length ≤ 1 := by
  induction l with
  | nil => simp
  | cons a l ih =>
    rw [List.map_cons, List.nodup_cons] at h
    by_cases ha : a.type.tag = tag
    · have hnone : l.filter (fun sc => sc.type.tag = tag) = [] := by
        rw [List.filter_eq_nil_iff]
        intro b hb hbt
        simp only [decide_eq_true_eq] at hbt
        exact h.1 (List.mem_map.mpr ⟨b, hb, hbt.trans ha.symm⟩)
      simp [List.filter_cons, ha, hnone]
    · simpa [List.filter_cons, ha] using ih h.2

theorem filters_eq_of_perm_nodup (l1 l2 : List ScalarField) (hp : l1.Perm l2)
    (h : (l1.map (fun sc => sc.type.tag)).Nodup) (tag : ScalarTag) :
    l1.filter (fun sc => sc.type.tag = tag) = l2.filter (fun sc => sc.type.tag = tag) :=
  perm_length_le_one _ _ (hp.filter _) (filter_tag_length_le_one l1 h tag)

/-- When write_structure_definition returns CJOB_SUCCESS, the header stack has
grown by the opening line, the child fields, the scalar fields in the order
of the insertion sort by rank, and the closing line. -/
theorem write_structure_definition_success (strct : ParsedStruct) (job : CJob)
    (hs : (write_structure_definition strct job).1 = CJobStatus.CJOB_SUCCESS) :
    (write_structure_definition strct job).2.strings.header_strings =
      job.strings.header_strings ++
        (["typedef struct \x7b\n"] ++ strct.children.map child_field_line ++
          (List.insertionSort rank_le strct.scalars).map
            (fun sc => "  " ++ scalar_type_name sc.type.tag ++ " " ++ sc.name ++ ";\n") ++
          ["\x7d " ++ job.pfx ++ strct.name ++ ";\n\n"]) := by
  rw [write_structure_definition_eq] at hs ⊢
  rw [push_header_success _ job hs, structure_definition_fragments,
    scalars_in_emitted_order_eq_sort]
  rfl

theorem write_structure_definition_congr (job : CJob) (s1 s2 : ParsedStruct)
    (hname : s1.name = s2.name) (hchildren : s1.children = s2.children)
    (he : scalars_in_emitted_order s1.scalars = scalars_in_emitted_order s2.scalars) :
    write_structure_definition s1 job = write_structure_definition s2 job := by
  rw [write_structure_definition_eq, write_structure_definition_eq,
    structure_definition_fragments, structure_definition_fragments, hname, hchildren, he]

/-- C12, as amended: take two structures with the same name and children whose
scalar declarations are permutations of each other, and let `e1` and `e2` be
the sequences of scalar fields write_structure_definition emits for them. For
every permutation, `e1` and `e2` hold the same fields with the same sequence of
tags and of emitted types, so the offset at every position (the sizes of the
fields emitted before it, added up) and the total scalar size are the same.
When the two declaration orders agree on the fields of each tag, and so
whenever no two fields share a tag, `e1` and `e2` are the same sequence and
write_structure_definition behaves alike on both structures. -/
theorem C12_layout_under_permutation (job : CJob) (s1 s2 : ParsedStruct)
    (hname : s1.name = s2.name) (hchildren : s1.children = s2.children)
    (hperm : s1.scalars.Perm s2.scalars) :
    ∃ e1 e2 : List ScalarField,
      e1 = List.insertionSort rank_le s1.scalars ∧
      e2 = List.insertionSort rank_le s2.scalars ∧
      ((write_structure_definition s1 job).1 = CJobStatus.CJOB_SUCCESS →
        (write_structure_definition s1 job).2.strings.header_strings =
          job.strings.header_strings ++
            (["typedef struct \x7b\n"] ++ s1.children.map child_field_line ++
              e1.map (fun sc => "  " ++ scalar_type_name sc.type.tag ++ " " ++ sc.name ++ ";\n") ++
              ["\x7d " ++ job.pfx ++ s1.name ++ ";\n\n"])) ∧
      ((write_structure_definition s2 job).1 = CJobStatus.CJOB_SUCCESS →
        (write_structure_definition s2 job).2.strings.header_strings =
          job.strings.header_strings ++
            (["typedef struct \x7b\n"] ++ s2.children.map child_field_line ++
              e2.map (fun sc => "  " ++ scalar_type_name sc.type.tag ++ " " ++ sc.name ++ ";\n") ++
              ["\x7d " ++ job.pfx ++ s2.name ++ ";\n\n"])) ∧
      e1.Perm e2 ∧
      e1.map (fun sc => sc.type.tag) = e2.map (fun sc => sc.type.tag) ∧
      e1.map (fun sc => scalar_type_name sc.type.tag) =
        e2.map (fun sc => scalar_type_name sc.type.tag) ∧
      (∀ k, offset_at e1 k = offset_at e2 k) ∧
      scalar_total e1 = scalar_total e2 ∧
      ((∀ tag, s1.scalars.filter (fun sc => sc.type.tag = tag) =
          s2.scalars.filter (fun sc => sc.type.tag = tag)) →
        e1 = e2 ∧ write_structure_definition s1 job = write_structure_definition s2 job) ∧
      ((s1.scalars.map (fun sc => sc.type.tag)).Nodup →
        e1 = e2 ∧ write_structure_definition s1 job = write_structure_definition s2 job) := by
  have htags := map_tag_emitted_perm s1.scalars s2.scalars hperm
  rw [scalars_in_emitted_order_eq_sort, scalars_in_emitted_order_eq_sort] at htags
  have htypes : (List.insertionSort rank_le s1.scalars).map
        (fun sc => scalar_type_name sc.type.tag) =
      (List.insertionSort rank_le s2.scalars).map (fun sc => scalar_type_name sc.type.tag) := by
    have h1 : ∀ e : List ScalarField,
        e.map (fun sc => scalar_type_name sc.type.tag) =
          (e.map (fun sc => sc.type.tag)).map scalar_type_name := by
      intro e
      rw [List.map_map]
      rfl
    rw [h1, h1, htags]
  have hsame : (∀ tag, s1.scalars.filter (fun sc => sc.type.tag = tag) =
        s2.scalars.filter (fun sc => sc.type.tag = tag)) →
      List.insertionSort rank_le s1.scalars = List.insertionSort rank_le s2.scalars ∧
        write_structure_definition s1 job = write_structure_definition s2 job := by
    intro hf
    have he := emitted_eq_of_filters s1.scalars s2.scalars hf
    refine ⟨?_, write_structure_definition_congr job s1 s2 hname hchildren he⟩
    rw [← scalars_in_emitted_order_eq_sort, ← scalars_in_emitted_order_eq_sort, he]
  refine ⟨_, _, rfl, rfl, write_structure_definition_success s1 job,
    write_structure_definition_success s2 job, ?_, htags, htypes,
    offset_at_eq_of_tags _ _ htags, scalar_total_eq_of_tags _ _ htags, hsame, ?_⟩
  · exact ((List.perm_insertionSort rank_le s1.scalars).trans hperm).trans
      (List.perm_insertionSort rank_le s2.scalars).symm
  · intro hnodup
    exact hsame (filters_eq_of_perm_nodup s1.scalars s2.scalars hperm hnodup)

/-- C12 on scenario A: declared `a, b, c, d` or `d, c, b, a`, the scalars of
`Foo`, which have four different tags, are emitted as `b, c, a, d`. -/
theorem C12_layout_under_permutation_witness :
    Foo.name = Foo_reversed.name ∧ Foo.children = Foo_reversed.children ∧
    Foo.scalars.Perm Foo_reversed.scalars ∧
    (Foo.scalars.map (fun sc => sc.type.tag)).Nodup ∧
    List.insertionSort rank_le Foo.scalars = List.insertionSort rank_le Foo_reversed.scalars ∧
    write_structure_definition Foo scenario_job =
      write_structure_definition Foo_reversed scenario_job ∧
    (List.insertionSort rank_le Foo_reversed.scalars).map (fun sc => sc.name) =
      ["b", "c", "a", "d"] := by
  obtain ⟨e1, e2, h1, h2, -, -, -, -, -, -, -, -, hnodup⟩ :=
    C12_layout_under_permutation scenario_job Foo Foo_reversed rfl rfl (by decide)
  subst h1 h2
  exact ⟨rfl, rfl, by decide, by decide, (hnodup (by decide)).1, (hnodup (by decide)).2,
    by decide⟩

/-- C12 fails as stated: the scalars `a:uint8, b:uint8` of `Pair` are emitted
as `a, b`, and the same scalars declared `b, a` are emitted as `b, a`, so the
field `a` moves from position 0 and offset 0 to position 1 and offset 1. -/
theorem C12_same_tag_fields_keep_declaration_order :
    Pair_ab.name = Pair_ba.name ∧ Pair_ab.children = Pair_ba.children ∧
    Pair_ab.scalars.Perm Pair_ba.scalars ∧
    (write_structure_definition Pair_ab scenario_job).1 = CJobStatus.CJOB_SUCCESS ∧
    (write_structure_definition Pair_ba scenario_job).1 = CJobStatus.CJOB_SUCCESS ∧
    (write_structure_definition Pair_ab scenario_job).2.strings.header_strings =
      ["typedef struct \x7b\n", "  haris_uint8_t a;\n", "  haris_uint8_t b;\n",
       "\x7d Pair;\n\n"] ∧
    (write_structure_definition Pair_ba scenario_job).2.strings.header_strings =
      ["typedef struct \x7b\n", "  haris_uint8_t b;\n", "  haris_uint8_t a;\n",
       "\x7d Pair;\n\n"] ∧
    (write_structure_definition Pair_ab scenario_job).2.strings.header_strings ≠
      (write_structure_definition Pair_ba scenario_job).2.strings.header_strings := by
  decide

/-! ## The header file as one sequence of pushes, and the first failing push -/

/-- Two emitters that are sequences of pushes fixed by the schema and the
prefix, run one after the other, are the sequence of all their pushes. -/
theorem and_then_push_all_job (a b : Emitter)
    (ga gb : ParsedSchema → String → List (Stack × String))
    (ha : ∀ job, a job = push_all (ga job.schema job.pfx) job)
    (hb : ∀ job, b job = push_all (gb job.schema job.pfx) job) (job : CJob) :
    and_then a b job = push_all (ga job.schema job.pfx ++ gb job.schema job.pfx) job := by
  rw [push_all_append]
  unfold and_then
  rw [ha job]
  have hframe := push_all_frame (ga job.schema job.pfx) job
  rcases hrun : push_all (ga job.schema job.pfx) job with ⟨st, job1⟩
  rw [hrun] at hframe
  cases st
  · simp only
    rw [hb job1, hframe.1, hframe.2]
  all_goals rfl

theorem write_header_boilerplate_eq :
    write_header_boilerplate = push_all (on_stack Stack.header boilerplate_fragments) := by
  simp only [write_header_boilerplate, header_string_eq, and_then_proceed, ← push_all_append]
  rfl

theorem write_reflective_structures_eq :
    write_reflective_structures = push_all (on_stack Stack.header reflective_fragments) := by
  simp only [write_reflective_structures, header_string_eq, and_then_proceed,
    ← push_all_append]
  rfl

theorem write_header_structures_eq (job : CJob) :
    write_header_structures job =
      push_all (on_stack Stack.header
        (reflective_fragments ++ record_fragments job.pfx job.schema.structs)) job := by
  have h1 : ∀ j : CJob, j.schema = job.schema →
      for_each write_structure_definition job.schema.structs j =
        push_all (on_stack Stack.header (record_fragments j.pfx job.schema.structs)) j := by
    intro j _
    rw [for_each_push_all_job write_structure_definition
      (fun _ pfx S => on_stack Stack.header (structure_definition_fragments pfx S))
      write_structure_definition_eq, record_fragments, on_stack_flatMap]
  simp only [write_header_structures, and_then_proceed, write_reflective_structures_eq]
  rw [on_stack_append, push_all_append]
  unfold and_then
  have hf := push_all_frame (on_stack Stack.header reflective_fragments) job
  rcases hr : push_all (on_stack Stack.header reflective_fragments) job with ⟨st, job1⟩
  rw [hr] at hf
  cases st <;> try rfl
  simp only
  rw [h1 job1 hf.1, hf.2]

/-- The emitter write_header_file is the sequence of the pushes of
`header_file_fragments`, whatever the outcomes of the allocations. -/
theorem write_header_file_eq (job : CJob) :
    write_header_file job =
      push_all (on_stack Stack.header (header_file_fragments job)) job := by
  have h23 := and_then_push_all_job write_header_macros write_header_structures
    (fun schema pfx => on_stack Stack.header
      (limits_and_hooks ::
        (accessor_macro_fragments schema pfx schema.structs ++
          enum_macro_fragments pfx schema.enums)))
    (fun schema pfx => on_stack Stack.header
      (reflective_fragments ++ record_fragments pfx schema.structs))
    write_header_macros_eq write_header_structures_eq
  have h123 := and_then_push_all_job write_header_boilerplate
    (and_then write_header_macros write_header_structures)
    (fun _ _ => on_stack Stack.header boilerplate_fragments)
    (fun schema pfx => on_stack Stack.header
        (limits_and_hooks ::
          (accessor_macro_fragments schema pfx schema.structs ++
            enum_macro_fragments pfx schema.enums)) ++
      on_stack Stack.header (reflective_fragments ++ record_fragments pfx schema.structs))
    (fun j => by rw [write_header_boilerplate_eq]) h23 job
  simp only [write_header_file, and_then_proceed]
  rw [h123, header_file_fragments, header_macro_fragments]
  simp only [on_stack_append]

/-- A sequence of pushes returns CJOB_SUCCESS exactly when none of the
allocations it asks for fails. -/
theorem push_all_success_iff (plan : List (Stack × String)) (job : CJob) :
    (push_all plan job).1 = CJobStatus.CJOB_SUCCESS ↔
      NoFailure (job.heap.take plan.length) := by
  induction plan generalizing job with
  | nil =>
    constructor
    · intro _ b hb
      simp at hb
    · intro _
      rfl
  | cons p plan ih =>
    obtain ⟨schema, pfx, output, protocols, strings, heap⟩ := job
    rcases heap with _ | ⟨b, rest⟩
    · have := ih ⟨schema, pfx, output, protocols, strings.push p.1 p.2, []⟩
      simp only [List.take_nil] at this ⊢
      exact this
    · cases b
      · constructor
        · intro hs
          exact absurd hs (by simp [push_all_cons, and_then, emit, push_string])
        · intro hn
          exact absurd (hn false (by simp)) (by decide)
      · have := ih ⟨schema, pfx, output, protocols, strings.push p.1 p.2, rest⟩
        constructor
        · intro hs
          have hn := this.mp hs
          intro c hc
          simp only [List.length_cons, List.take_succ_cons, List.mem_cons] at hc
          rcases hc with rfl | hc
          · rfl
          · exact hn c hc
        · intro hn
          apply this.mpr
          intro c hc
          apply hn c
          simp only [List.length_cons, List.take_succ_cons, List.mem_cons]
          exact Or.inr hc

/-- A sequence of pushes whose push number `k` is the first to fail returns
CJOB_MEM_ERROR with exactly the fragments before it pushed. -/
theorem push_all_first_failure (plan : List (Stack × String)) (job : CJob) (k : Nat)
    (hk : k < plan.length) (hfail : job.heap[k]? = some false)
    (hbefore : NoFailure (job.heap.take k)) :
    push_all plan job = (CJobStatus.CJOB_MEM_ERROR, job.failed_at plan k) := by
  induction plan generalizing job k with
  | nil => simp at hk
  | cons p plan ih =>
    obtain ⟨schema, pfx, output, protocols, strings, heap⟩ := job
    rcases heap with _ | ⟨b, rest⟩
    · simp at hfail
    · cases k with
      | zero =>
        simp only [List.getElem?_cons_zero, Option.some.injEq] at hfail
        subst hfail
        simp [push_all_cons, and_then, emit, push_string, CJob.failed_at, CJob.pushed]
      | succ k =>
        have hb : b = true := hbefore b (by simp)
        subst hb
        have hk1 : k < plan.length := Nat.lt_of_succ_lt_succ hk
        have hfail1 : rest[k]? = some false := by simpa using hfail
        have hbefore1 : NoFailure (rest.take k) := by
          intro c hc
          apply hbefore c
          simp only [List.take_succ_cons, List.mem_cons]
          exact Or.inr hc
        have := ih ⟨schema, pfx, output, protocols, strings.push p.1 p.2, rest⟩ k hk1 hfail1
          hbefore1
        simp only [push_all_cons, and_then, emit, push_string, this]
        simp [CJob.failed_at, CJob.pushed]

theorem on_stack_length (st : Stack) (l : List String) : (on_stack st l).length = l.length := by
  simp [on_stack]

theorem on_stack_take (st : Stack) (l : List String) (k : Nat) :
    (on_stack st l).take k = on_stack st (l.take k) := by
  simp [on_stack, List.map_take]

/-- The fragments of a stack in the job left by a first failure. -/
theorem failed_at_stack (job : CJob) (plan : List (Stack × String)) (k : Nat) (st : Stack) :
    (job.failed_at plan k).strings.stack st =
      job.strings.stack st ++ ((plan.take k).filter (fun p => p.1 = st)).map Prod.snd :=
  stack_foldl_push st (plan.take k) job.strings

/-! ## The claims on failure and on the order of the header -/

theorem and_then_of_failure (a b : Emitter) (job : CJob)
    (h : (a job).1 ≠ CJobStatus.CJOB_SUCCESS) : and_then a b job = a job := by
  unfold and_then
  rcases hr : a job with ⟨st, j⟩
  rw [hr] at h
  cases st
  · exact absurd rfl h
  all_goals rfl

theorem and_then_of_success (a b : Emitter) (job : CJob)
    (h : (a job).1 = CJobStatus.CJOB_SUCCESS) : and_then a b job = b (a job).2 := by
  unfold and_then
  rcases hr : a job with ⟨st, j⟩
  rw [hr] at h
  cases st
  · rfl
  all_goals exact absurd h (by simp)

/-- C13: write_header_file and write_file_protocol_funcs are each a sequence of
pushes (`n` of them when all succeed). Each returns CJOB_SUCCESS if and only if
none of the allocations of its `n` pushes fails. When push number `k` is the
first to fail, each returns CJOB_MEM_ERROR and leaves the job with exactly the
first `k` fragments pushed, so no later fragment is pushed. Stage by stage: a
stage that does not return CJOB_SUCCESS ends the function with its own result,
and the later stages (macros, reflective types and struct layouts; static and
public file functions) are not run. -/
theorem C13_first_failure_ends_the_emitter (job : CJob) :
    ((write_header_file job).1 = CJobStatus.CJOB_SUCCESS ↔
      NoFailure (job.heap.take (header_file_fragments job).length)) ∧
    (∀ k : Nat, k < (header_file_fragments job).length → job.heap[k]? = some false →
      NoFailure (job.heap.take k) →
      write_header_file job =
        (CJobStatus.CJOB_MEM_ERROR,
          job.failed_at (on_stack Stack.header (header_file_fragments job)) k) ∧
      (write_header_file job).2.strings.header_strings =
        job.strings.header_strings ++ (header_file_fragments job).take k) ∧
    ((write_header_boilerplate job).1 ≠ CJobStatus.CJOB_SUCCESS →
      write_header_file job = write_header_boilerplate job) ∧
    ((write_header_boilerplate job).1 = CJobStatus.CJOB_SUCCESS →
      (write_header_macros (write_header_boilerplate job).2).1 ≠ CJobStatus.CJOB_SUCCESS →
      write_header_file job = write_header_macros (write_header_boilerplate job).2) ∧
    ((write_file_protocol_funcs job).1 = CJobStatus.CJOB_SUCCESS ↔
      NoFailure (job.heap.take (file_protocol_plan job).length)) ∧
    (∀ k : Nat, k < (file_protocol_plan job).length → job.heap[k]? = some false →
      NoFailure (job.heap.take k) →
      write_file_protocol_funcs job =
        (CJobStatus.CJOB_MEM_ERROR, job.failed_at (file_protocol_plan job) k) ∧
      ∀ st : Stack,
        (write_file_protocol_funcs job).2.strings.stack st =
          job.strings.stack st ++
            (((file_protocol_plan job).take k).filter (fun p => p.1 = st)).map Prod.snd) ∧
    ((write_file_structures job).1 ≠ CJobStatus.CJOB_SUCCESS →
      write_file_protocol_funcs job = write_file_structures job) ∧
    ((write_file_structures job).1 = CJobStatus.CJOB_SUCCESS →
      (write_static_file_funcs (write_file_structures job).2).1 ≠ CJobStatus.CJOB_SUCCESS →
      write_file_protocol_funcs job = write_static_file_funcs (write_file_structures job).2) := by
  refine ⟨?_, ?_, ?_, ?_, ?_, ?_, ?_, ?_⟩
  · rw [write_header_file_eq, push_all_success_iff, on_stack_length]
  · intro k hk hfail hbefore
    have hrun := push_all_first_failure (on_stack Stack.header (header_file_fragments job)) job k
      (by rw [on_stack_length]; exact hk) hfail hbefore
    rw [← write_header_file_eq] at hrun
    refine ⟨hrun, ?_⟩
    rw [hrun]
    have := failed_at_stack job (on_stack Stack.header (header_file_fragments job)) k
      Stack.header
    rw [on_stack_take, filter_on_stack_same] at this
    exact this
  · intro h
    exact and_then_of_failure _ _ job h
  · intro h1 h2
    show and_then write_header_boilerplate _ job = _
    rw [and_then_of_success _ _ job h1]
    exact and_then_of_failure _ _ _ h2
  · rw [write_file_protocol_funcs_eq, push_all_success_iff]
  · intro k hk hfail hbefore
    have hrun := push_all_first_failure (file_protocol_plan job) job k hk hfail hbefore
    rw [← write_file_protocol_funcs_eq] at hrun
    refine ⟨hrun, ?_⟩
    intro st
    rw [hrun]
    exact failed_at_stack job (file_protocol_plan job) k st
  · intro h
    exact and_then_of_failure _ _ job h
  · intro h1 h2
    show and_then write_file_structures _ job = _
    rw [and_then_of_success _ _ job h1]
    exact and_then_of_failure _ _ _ h2

/-- C13 on a heap whose fifth allocation fails: write_header_file pushes the
three boilerplate fragments and the limits fragment, then returns
CJOB_MEM_ERROR before any accessor macro; on a heap whose third allocation
fails, write_file_protocol_funcs pushes the stream record and the reader
adapter, then returns CJOB_MEM_ERROR before the other private functions and
before any public function; with no failing allocation both succeed. -/
theorem C13_first_failure_ends_the_emitter_witness :
    (write_header_file fifth_fails_job).1 = CJobStatus.CJOB_MEM_ERROR ∧
    (write_header_file fifth_fails_job).2.strings.header_strings =
      [boilerplate_includes, boilerplate_integer_note, boilerplate_typedefs,
       limits_and_hooks] ∧
    (write_header_file scenario_job).1 = CJobStatus.CJOB_SUCCESS ∧
    (write_file_protocol_funcs third_fails_job).1 = CJobStatus.CJOB_MEM_ERROR ∧
    (write_file_protocol_funcs third_fails_job).2.strings.header_strings =
      [file_stream_record] ∧
    (write_file_protocol_funcs third_fails_job).2.strings.private_functions =
      [read_from_file_stream_text] ∧
    (write_file_protocol_funcs third_fails_job).2.strings.public_functions = [] ∧
    (write_file_protocol_funcs two_struct_job).1 = CJobStatus.CJOB_SUCCESS := by
  have h5 := (C13_first_failure_ends_the_emitter fifth_fails_job).2.1 4 (by decide) rfl
    (by decide)
  have h3 := (C13_first_failure_ends_the_emitter third_fails_job).2.2.2.2.2.1 2 (by decide) rfl
    (by decide)
  refine ⟨?_, ?_, ?_, ?_, ?_, ?_, ?_, ?_⟩
  · rw [h5.1]
  · rw [h5.2]
    rfl
  · exact (C13_first_failure_ends_the_emitter scenario_job).1.mpr (by decide)
  · rw [h3.1]
  · exact (h3.2 Stack.header).trans rfl
  · exact (h3.2 Stack.priv).trans rfl
  · exact (h3.2 Stack.pub).trans rfl
  · exact (C13_first_failure_ends_the_emitter two_struct_job).2.2.2.2.1.mpr (by decide)

set_option maxRecDepth 20000 in
theorem boilerplate_typedefs_head :
    ∃ tail, boilerplate_typedefs.data =
      ("#include <stdint.h>\n\ntypedef uint_fast8_t    haris_uint8_t;\ntypedef int_fast8_t     haris_int8_t;\ntypedef uint_fast16_t   haris_uint16_t;\ntypedef int_fast16_t    haris_int16_t;\ntypedef uint_fast32_t   haris_uint32_t;\ntypedef int_fast32_t    haris_int32_t;\ntypedef uint_fast64_t   haris_uint64_t;\ntypedef int_fast64_t    haris_int64_t;\n\ntypedef float           haris_float32;\ntypedef double          haris_float64;\n").data ++ tail :=
  ⟨_, rfl⟩

theorem reflective_structure_info_head :
    ∃ tail, reflective_structure_info.data =
      ("struct HarisStructureInfo_ \x7b\n").data ++ tail :=
  ⟨_, rfl⟩

set_option maxRecDepth 20000 in
theorem boilerplate_typedefs_parts :
    boilerplate_typedefs =
      "#include <stdint.h>\n\ntypedef uint_fast8_t    haris_uint8_t;\ntypedef int_fast8_t     haris_int8_t;\ntypedef uint_fast16_t   haris_uint16_t;\ntypedef int_fast16_t    haris_int16_t;\ntypedef uint_fast32_t   haris_uint32_t;\ntypedef int_fast32_t    haris_int32_t;\ntypedef uint_fast64_t   haris_uint64_t;\ntypedef int_fast64_t    haris_int64_t;\n\ntypedef float           haris_float32;\ntypedef double          haris_float64;\n\n" ++
      "typedef enum \x7b\n  HARIS_SUCCESS, HARIS_STRUCTURE_ERROR, HARIS_DEPTH_ERROR, HARIS_SIZE_ERROR,\n  HARIS_INPUT_ERROR, HARIS_MEM_ERROR\n\x7d HarisStatus;\n\n" ++
      "typedef HarisStatus (*HarisStreamReader)(void *, haris_uint32_t, \n                                         const unsigned char **);\n\n" ++
      "typedef HarisStatus (*HarisStreamWriter)(void *, const unsigned char *, \n                                         haris_uint32_t);\n\n" := by
  rfl

/-- C14: write_header_file succeeds when no allocation fails, and when it
succeeds the header stack has grown, in this order, by the three boilerplate
fragments (the includes, the note on the integer types, and the fragment of
the haris integer and float typedefs, HarisStatus and the reader and writer
callback types), the limits-and-hooks fragment, the accessor macros of every
child, the value macros of every enumeration, the eight reflective
declarations (HarisListInfo and HarisSubstructInfo third and fourth, struct
HarisStructureInfo_ last), and the record declaration of every structure in
schema order; every fixed fragment is given by its text. The third boilerplate
fragment is made of the typedefs, then HarisStatus, then the reader callback
type, then the writer callback type, so every record comes after the typedefs
and after the two info declarations. -/
theorem C14_header_sections_in_order (job : CJob) :
    (NoFailure job.heap → (write_header_file job).1 = CJobStatus.CJOB_SUCCESS) ∧
    ((write_header_file job).1 = CJobStatus.CJOB_SUCCESS →
      (write_header_file job).2.strings.header_strings =
        job.strings.header_strings ++
          ([
            "#include <stdio.h>\n#include <stdlib.h>\n#include <stddef.h>\n#include <string.h>\n\n",
            "/* In order to generate C code, the utility library needs exact-precision\n   unsigned and signed integers. In particular, in order to ensure that we don\x27t\n   overflow the native integer containers when parsing Haris messages, we need\n   to be certain about the minimum size of our integers. Haris defines the\n   typedefs\n   haris_intN_t\n   and\n   haris_uintN_t\n   for N in [8, 16, 32, 64]. The intN types must be signed, and the uintN types\n   must be unsigned. Each type must have at least N bits (that is, haris_int8_t\n   must have at least 8 bits and must be signed). If your system includes \n   stdint.h (which it will if you have a standard-conforming C99 compiler), then\n   the typedef\x27s automatically generated by the code generator should be \n   sufficient, and you should be able to include the generated files in your \n   project without changing them. If you do not have stdint.h, then you\x27ll have\n   to manually modify the following 8 typedef\x27s yourself (though that shouldn\x27t\n   take more than a minute to do). Make sure to remove the #include directive \n   if you do not have stdint.h.\n\n   These type definitions trade time for space; that is, they use the fastest\n   possible types with those sizes rather than the smallest. This means that\n   the in-memory representation of a structure might be larger than is \n   technically necessary to store the number. If you wish to use less space\n   in-memory in exchange for a potentially longer running time, use the\n   [u]int_leastN_t types rather than the [u]int_fastN_t types.\n*/\n",
            "#include <stdint.h>\n\ntypedef uint_fast8_t    haris_uint8_t;\ntypedef int_fast8_t     haris_int8_t;\ntypedef uint_fast16_t   haris_uint16_t;\ntypedef int_fast16_t    haris_int16_t;\ntypedef uint_fast32_t   haris_uint32_t;\ntypedef int_fast32_t    haris_int32_t;\ntypedef uint_fast64_t   haris_uint64_t;\ntypedef int_fast64_t    haris_int64_t;\n\ntypedef float           haris_float32;\ntypedef double          haris_float64;\n\ntypedef enum \x7b\n  HARIS_SUCCESS, HARIS_STRUCTURE_ERROR, HARIS_DEPTH_ERROR, HARIS_SIZE_ERROR,\n  HARIS_INPUT_ERROR, HARIS_MEM_ERROR\n\x7d HarisStatus;\n\ntypedef HarisStatus (*HarisStreamReader)(void *, haris_uint32_t, \n                                         const unsigned char **);\n\ntypedef HarisStatus (*HarisStreamWriter)(void *, const unsigned char *, \n                                         haris_uint32_t);\n\n"] ++
            (["/* Changeable size limits for error-checking. You can freely modify these if\n   you would like your Haris client to be able to process larger or deeper\n   messages. \n*/\n\n#define HARIS_DEPTH_LIMIT 64\n#define HARIS_MESSAGE_SIZE_LIMIT 1000000000\n\n/* \"Magic numbers\" for use by float-reading and -writing functions; do not \n   modify\n*/\n\n#define HARIS_FLOAT32_SIGBITS 23\n#define HARIS_FLOAT32_BIAS    127\n#define HARIS_FLOAT64_SIGBITS 52\n#define HARIS_FLOAT64_BIAS    1023\n\n/* The _init_ deallocation factor. If you initialize a list to have length\n   N, but the list is already allocated to have length A, then the list\n   will be reallocated to have length N if and only if N/A is less than\n   the deallocation factor. The deallocation factor must be between 0.0 and\n   1.0; lower values will waste more memory but will not interface with the\n   memory allocator as much, and higher values will waste less memory but\n   will have to reallocate more.\n*/\n\n#define HARIS_DEALLOC_FACTOR 0.6\n\n/* The drop-in memory management functions. If you want, you can use a\n   custom memory allocator, rather than just using the standard library\x27s.\n   A custom allocator needs to implement a function that works like malloc\n   (HARIS_MALLOC), a function that works like realloc (HARIS_REALLOC), \n   and a function that works like free (HARIS_FREE).\n*/\n\n#define HARIS_MALLOC(n) malloc(n)\n#define HARIS_REALLOC(p, n) realloc((p), (n))\n#define HARIS_FREE(p) free(p)\n\n#define HARIS_ASSERT(cond, err) if (!(cond)) return HARIS_ ## err ## _ERROR\n\n"] ++
              (accessor_macro_fragments job.schema job.pfx job.schema.structs ++
                (enum_macro_fragments job.pfx job.schema.enums ++
                  ([
                      "typedef enum \x7b\n  HARIS_SCALAR_UINT8, HARIS_SCALAR_INT8, HARIS_SCALAR_UINT16,\n  HARIS_SCALAR_INT16, HARIS_SCALAR_UINT32, HARIS_SCALAR_INT32,\n  HARIS_SCALAR_UINT64, HARIS_SCALAR_INT64, HARIS_SCALAR_FLOAT32,\n  HARIS_SCALAR_FLOAT64, HARIS_SCALAR_BLANK\n\x7d HarisScalarType;\n\n",
                      "typedef enum \x7b\n  HARIS_CHILD_TEXT, HARIS_CHILD_SCALAR_LIST, HARIS_CHILD_STRUCT_LIST,\n  HARIS_CHILD_STRUCT\n\x7d HarisChildType;\n\n",
                      "typedef struct \x7b\n  void *         ptr;\n  haris_uint32_t len;\n  haris_uint32_t alloc;\n  char           null;\n\x7d HarisListInfo;\n\n",
                      "typedef struct \x7b\n  void *ptr;\n  char null;\n\x7d HarisSubstructInfo;\n\n",
                      "typedef struct HarisStructureInfo_ HarisStructureInfo;\n\n",
                      "typedef struct \x7b\n  size_t offset;\n  HarisScalarType type;\n\x7d HarisScalar;\n\n",
                      "typedef struct \x7b\n  size_t offset;\n  int nullable;\n  HarisScalarType scalar_element;\n  const HarisStructureInfo *struct_element;\n  HarisChildType child_type;\n\x7d HarisChild;\n\n",
                      "struct HarisStructureInfo_ \x7b\n  int num_scalars;\n  const HarisScalar *scalars;\n  int num_children;\n  const HarisChild *children;\n  int body_size;\n  size_t size_of;\n\x7d;\n\n"] ++
                    job.schema.structs.flatMap (fun S =>
                      ["typedef struct \x7b\n"] ++ S.children.map child_field_line ++
                        (List.insertionSort rank_le S.scalars).map
                          (fun sc => "  " ++ scalar_type_name sc.type.tag ++ " " ++ sc.name ++ ";\n") ++
                        ["\x7d " ++ job.pfx ++ S.name ++ ";\n\n"]))))))) ∧
    (∃ tail, boilerplate_typedefs.data =
      ("#include <stdint.h>\n\ntypedef uint_fast8_t    haris_uint8_t;\ntypedef int_fast8_t     haris_int8_t;\ntypedef uint_fast16_t   haris_uint16_t;\ntypedef int_fast16_t    haris_int16_t;\ntypedef uint_fast32_t   haris_uint32_t;\ntypedef int_fast32_t    haris_int32_t;\ntypedef uint_fast64_t   haris_uint64_t;\ntypedef int_fast64_t    haris_int64_t;\n\ntypedef float           haris_float32;\ntypedef double          haris_float64;\n").data ++ tail) ∧
    reflective_list_info =
      "typedef struct \x7b\n  void *         ptr;\n  haris_uint32_t len;\n  haris_uint32_t alloc;\n  char           null;\n\x7d HarisListInfo;\n\n" ∧
    reflective_substruct_info =
      "typedef struct \x7b\n  void *ptr;\n  char null;\n\x7d HarisSubstructInfo;\n\n" ∧
    (∃ tail, reflective_structure_info.data =
      ("struct HarisStructureInfo_ \x7b\n").data ++ tail) ∧
    "#include <stdint.h>\n\ntypedef uint_fast8_t    haris_uint8_t;\ntypedef int_fast8_t     haris_int8_t;\ntypedef uint_fast16_t   haris_uint16_t;\ntypedef int_fast16_t    haris_int16_t;\ntypedef uint_fast32_t   haris_uint32_t;\ntypedef int_fast32_t    haris_int32_t;\ntypedef uint_fast64_t   haris_uint64_t;\ntypedef int_fast64_t    haris_int64_t;\n\ntypedef float           haris_float32;\ntypedef double          haris_float64;\n\ntypedef enum \x7b\n  HARIS_SUCCESS, HARIS_STRUCTURE_ERROR, HARIS_DEPTH_ERROR, HARIS_SIZE_ERROR,\n  HARIS_INPUT_ERROR, HARIS_MEM_ERROR\n\x7d HarisStatus;\n\ntypedef HarisStatus (*HarisStreamReader)(void *, haris_uint32_t, \n                                         const unsigned char **);\n\ntypedef HarisStatus (*HarisStreamWriter)(void *, const unsigned char *, \n                                         haris_uint32_t);\n\n" =
      "#include <stdint.h>\n\ntypedef uint_fast8_t    haris_uint8_t;\ntypedef int_fast8_t     haris_int8_t;\ntypedef uint_fast16_t   haris_uint16_t;\ntypedef int_fast16_t    haris_int16_t;\ntypedef uint_fast32_t   haris_uint32_t;\ntypedef int_fast32_t    haris_int32_t;\ntypedef uint_fast64_t   haris_uint64_t;\ntypedef int_fast64_t    haris_int64_t;\n\ntypedef float           haris_float32;\ntypedef double          haris_float64;\n\n" ++
      "typedef enum \x7b\n  HARIS_SUCCESS, HARIS_STRUCTURE_ERROR, HARIS_DEPTH_ERROR, HARIS_SIZE_ERROR,\n  HARIS_INPUT_ERROR, HARIS_MEM_ERROR\n\x7d HarisStatus;\n\n" ++
      "typedef HarisStatus (*HarisStreamReader)(void *, haris_uint32_t, \n                                         const unsigned char **);\n\n" ++
      "typedef HarisStatus (*HarisStreamWriter)(void *, const unsigned char *, \n                                         haris_uint32_t);\n\n" := by
  refine ⟨?_, ?_, boilerplate_typedefs_head, rfl, rfl, reflective_structure_info_head,
    boilerplate_typedefs_parts⟩
  · intro h
    rw [write_header_file_eq]
    exact push_all_succeeds _ job h
  · intro hs
    rw [write_header_file_eq] at hs ⊢
    rw [push_header_success _ job hs]
    have hrec : record_fragments job.pfx job.schema.structs =
        job.schema.structs.flatMap (fun S =>
          ["typedef struct \x7b\n"] ++ S.children.map child_field_line ++
            (List.insertionSort rank_le S.scalars).map
              (fun sc => "  " ++ scalar_type_name sc.type.tag ++ " " ++ sc.name ++ ";\n") ++
            ["\x7d " ++ job.pfx ++ S.name ++ ";\n\n"]) := by
      unfold record_fragments
      congr 1
      funext S
      rw [structure_definition_fragments, scalars_in_emitted_order_eq_sort]
      rfl
    rw [header_file_fragments, hrec]
    change _ = job.strings.header_strings ++
      ([boilerplate_includes, boilerplate_integer_note, boilerplate_typedefs] ++
        ([limits_and_hooks] ++
          (accessor_macro_fragments job.schema job.pfx job.schema.structs ++
            (enum_macro_fragments job.pfx job.schema.enums ++
              ([reflective_scalar_type, reflective_child_type, reflective_list_info,
                  reflective_substruct_info, reflective_forward, reflective_scalar,
                  reflective_child, reflective_structure_info] ++
                job.schema.structs.flatMap (fun S =>
                  ["typedef struct \x7b\n"] ++ S.children.map child_field_line ++
                    (List.insertionSort rank_le S.scalars).map
                      (fun sc => "  " ++ scalar_type_name sc.type.tag ++ " " ++ sc.name ++ ";\n") ++
                    ["\x7d " ++ job.pfx ++ S.name ++ ";\n\n"]))))))
    simp only [header_macro_fragments, boilerplate_fragments, reflective_fragments,
      List.append_assoc, List.cons_append, List.nil_append, List.singleton_append]

/-- C14 on the structures `Foo` and `Bar` and the enumeration `Color` under the
prefix `app_`: the whole header stack, section after section. -/
theorem C14_header_sections_in_order_witness :
    NoFailure header_job.heap ∧
    (write_header_file header_job).1 = CJobStatus.CJOB_SUCCESS ∧
    (write_header_file header_job).2.strings.header_strings =
      [boilerplate_includes, boilerplate_integer_note, boilerplate_typedefs,
       limits_and_hooks,
       "#define app_Bar_null_payload(X) ((int)((X)->_payload_info.null))\n",
       "#define app_Bar_nullify_payload(X) ((X)->_payload_info.null = 1)\n",
       "#define app_Bar_get_payload(X) ", "((app_Foo*)", "((X)->_payload_info.ptr))\n\n",
       "/* enum Color */\n", "#define app_Color_RED 0\n", "#define app_Color_GREEN 1\n",
       "#define app_Color_BLUE 2\n", "\n",
       reflective_scalar_type, reflective_child_type, reflective_list_info,
       reflective_substruct_info, reflective_forward, reflective_scalar, reflective_child,
       reflective_structure_info,
       "typedef struct \x7b\n", "  haris_uint64_t b;\n", "  haris_uint16_t c;\n",
       "  haris_uint8_t a;\n", "  haris_int8_t d;\n", "\x7d app_Foo;\n\n",
       "typedef struct \x7b\n", "  HarisSubstructInfo _payload_info;\n", "\x7d app_Bar;\n\n"] :=
  ⟨by decide, (C14_header_sections_in_order header_job).1 (by decide), by
    rw [(C14_header_sections_in_order header_job).2.1
      ((C14_header_sections_in_order header_job).1 (by decide))]
    rfl⟩

/-! ## The names the #define lines define -/

/-- A text that starts with the word `n` where it starts with an identifier
`N` that ends there: the identifier characters that open `n` are `N`. -/
theorem takeWhile_of_starts_with_word (N r n : List Char)
    (hN : ∀ c ∈ N, is_ident_char c = true)
    (hr : ∀ c ∈ r.head?, is_ident_char c = false)
    (h : starts_with_word n (N ++ r) = true) :
    n.takeWhile is_ident_char = N := by
  induction N generalizing n with
  | nil =>
    cases n with
    | nil => rfl
    | cons a n =>
      cases r with
      | nil => simp [starts_with_word] at h
      | cons c r =>
        simp only [List.nil_append, starts_with_word, Bool.and_eq_true, beq_iff_eq] at h
        have hc : is_ident_char c = false := hr c (by simp)
        rw [← h.1] at hc
        simp [List.takeWhile_cons, hc]
  | cons x N ih =>
    have hx : is_ident_char x = true := hN x (List.mem_cons_self _ _)
    cases n with
    | nil => simp [starts_with_word, hx] at h
    | cons a n =>
      simp only [List.cons_append, starts_with_word, Bool.and_eq_true, beq_iff_eq] at h
      have := ih n (fun c hc => hN c (List.mem_cons_of_mem _ hc)) h.2
      rw [h.1]
      simp [List.takeWhile_cons, hx, this]

/-- A #define line of the identifier `name` is a #define of `n` only when the
identifier characters that open `n` are `name`. -/
theorem name_of_is_define_of (name frag n : String) (body : List Char)
    (hfrag : frag.data = "#define ".data ++ (name.data ++ body))
    (hname : is_identifier name)
    (hbody : ∀ c ∈ body.head?, is_ident_char c = false)
    (h : is_define_of n frag = true) :
    String.mk (n.data.takeWhile is_ident_char) = name := by
  unfold is_define_of at h
  rw [String.data_append, hfrag, starts_with_word_append] at h
  have := takeWhile_of_starts_with_word name.data body n.data hname hbody h
  rw [this]

theorem countP_define_lines_le {α : Type} (n : String) (line name : α → String) (l : List α)
    (h : ∀ x ∈ l, is_define_of n (line x) = true →
      String.mk (n.data.takeWhile is_ident_char) = name x) :
    (l.map line).countP (is_define_of n) ≤
      (l.map name).count (String.mk (n.data.takeWhile is_ident_char)) := by
  generalize String.mk (n.data.takeWhile is_ident_char) = N at *
  induction l with
  | nil => simp
  | cons x l ih =>
    have ih1 := ih (fun q hq => h q (List.mem_cons_of_mem _ hq))
    have hx := h x (List.mem_cons_self _ _)
    rw [List.map_cons, List.map_cons, List.countP_cons, List.count_cons]
    by_cases hd : is_define_of n (line x) = true
    · have := hx hd
      rw [if_pos hd, ← this, beq_self_eq_true, if_pos rfl]
      omega
    · rw [if_neg hd]
      omega

theorem countP_flatMap_le_count_flatMap {α : Type} (p : String → Bool) (a : String)
    (f g : α → List String) (l : List α)
    (h : ∀ x ∈ l, (f x).countP p ≤ (g x).count a) :
    (l.flatMap f).countP p ≤ (l.flatMap g).count a := by
  induction l with
  | nil => simp
  | cons x l ih =>
    have h1 := h x (List.mem_cons_self _ _)
    have h2 := ih (fun y hy => h y (List.mem_cons_of_mem _ hy))
    rw [List.flatMap_cons, List.flatMap_cons, List.countP_append, List.count_append]
    omega

theorem countP_define_cons_le (n N line name : String) (rest names : List String)
    (h : is_define_of n line = true → N = name)
    (ih : rest.countP (is_define_of n) ≤ names.count N) :
    (line :: rest).countP (is_define_of n) ≤ (name :: names).count N := by
  rw [List.countP_cons, List.count_cons]
  by_cases hd : is_define_of n line = true
  · rw [if_pos hd, ← h hd, beq_self_eq_true, if_pos rfl]
    omega
  · rw [if_neg hd]
    omega

theorem countP_define_skip_le (n N frag : String) (rest names : List String)
    (h : is_define_of n frag = false)
    (ih : rest.countP (is_define_of n) ≤ names.count N) :
    (frag :: rest).countP (is_define_of n) ≤ names.count N := by
  rw [List.countP_cons, h]
  simpa using ih

/-- A fragment that opens with a parenthesis is no #define. -/
theorem paren_defines_nothing (n frag : String) (rest : List Char)
    (h : frag.data = '(' :: rest) : is_define_of n frag = false := by
  unfold is_define_of
  rw [h]
  simp [String.data_append, starts_with_word]

theorem is_identifier_append (a b : String) :
    is_identifier (a ++ b) ↔ is_identifier a ∧ is_identifier b := by
  simp only [is_identifier, String.data_append, List.mem_append]
  constructor
  · intro h
    exact ⟨fun c hc => h c (Or.inl hc), fun c hc => h c (Or.inr hc)⟩
  · rintro ⟨ha, hb⟩ c (hc | hc)
    · exact ha c hc
    · exact hb c hc

/-- The fragments of one child define no more than the names of the macros
of the child. -/
theorem count_defines_child_le (schema : ParsedSchema) (pfx S n : String) (child : ChildField)
    (hpfx : is_identifier pfx) (hS : is_identifier S) (hC : is_identifier child.name) :
    count_defines n (child_macro_fragments schema pfx S child) ≤
      (child_macro_names pfx S child).count (String.mk (n.data.takeWhile is_ident_char)) := by
  have key : ∀ (k frag : String) (rest : List Char), is_identifier k →
      frag.data = "#define ".data ++ ((pfx ++ S ++ k ++ child.name).data ++ '(' :: rest) →
      is_define_of n frag = true →
      String.mk (n.data.takeWhile is_ident_char) = pfx ++ S ++ k ++ child.name := by
    intro k frag rest hk hfrag h
    refine name_of_is_define_of _ _ n _ hfrag ?_ ?_ h
    · simp only [is_identifier_append]
      exact ⟨⟨⟨hpfx, hS⟩, hk⟩, hC⟩
    · simp [is_ident_char]
  have hnull := key "_null_" ("#define " ++ null_name pfx S child.name ++ "(X) ((int)((X)->_" ++
      child.name ++ "_info.null))\n") ("X) ((int)((X)->_".data ++ (child.name.data ++
      "_info.null))\n".data)) (by unfold is_identifier; decide)
      (by simp [String.data_append, null_name, List.append_assoc])
  have hnullify := key "_nullify_" ("#define " ++ nullify_name pfx S child.name ++
      "(X) ((X)->_" ++ child.name ++ "_info.null = 1)\n") ("X) ((X)->_".data ++
      (child.name.data ++ "_info.null = 1)\n".data)) (by unfold is_identifier; decide)
      (by simp [String.data_append, nullify_name, List.append_assoc])
  have hlen := key "_len_" ("#define " ++ len_name pfx S child.name ++
      "(X) ((haris_uint32_t)((X)->_" ++ child.name ++ "_info.len))\n")
      ("X) ((haris_uint32_t)((X)->_".data ++ (child.name.data ++ "_info.len))\n".data))
      (by unfold is_identifier; decide)
      (by simp [String.data_append, len_name, List.append_assoc])
  have hget := key "_get_" ("#define " ++ get_name pfx S child.name ++ "(X) ") "X) ".data
      (by unfold is_identifier; decide)
      (by simp [String.data_append, get_name, List.append_assoc])
  have hcast := paren_defines_nothing n ("((" ++ get_cast_type schema pfx child ++ "*)")
      ("(".data ++ ((get_cast_type schema pfx child).data ++ "*)".data))
      (by simp [String.data_append, List.append_assoc])
  have htail := paren_defines_nothing n ("((X)->_" ++ child.name ++ "_info.ptr))\n\n")
      ("(X)->_".data ++ (child.name.data ++ "_info.ptr))\n\n".data))
      (by simp [String.data_append, List.append_assoc])
  have hend := countP_define_cons_le n _ _ _ _ [] hget
    (countP_define_skip_le n _ _ _ [] hcast (countP_define_skip_le n _ _ [] [] htail (by simp)))
  unfold count_defines child_macro_fragments child_macro_names get_fragments
  by_cases h1 : child.nullable = true <;> by_cases h2 : child.tag ≠ ChildTag.CHILD_STRUCT
  · simp only [h1, h2, if_true, List.cons_append, List.nil_append, ne_eq, not_false_eq_true]
    exact countP_define_cons_le n _ _ _ _ _ hnull
      (countP_define_cons_le n _ _ _ _ _ hnullify (countP_define_cons_le n _ _ _ _ _ hlen hend))
  · simp only [h1, h2, if_true, if_false, List.cons_append, List.nil_append]
    exact countP_define_cons_le n _ _ _ _ _ hnull
      (countP_define_cons_le n _ _ _ _ _ hnullify hend)
  · simp only [h1, h2, if_true, if_false, List.cons_append, List.nil_append, ne_eq,
      not_false_eq_true]
    exact countP_define_cons_le n _ _ _ _ _ hlen hend
  · simp only [h1, h2, if_false, List.cons_append, List.nil_append]
    exact hend

/-- A fragment that does not open with a hash sign is no #define. -/
theorem no_hash_defines_nothing (n frag : String) (c : Char) (rest : List Char)
    (h : frag.data = c :: rest) (hc : c ≠ '#') : is_define_of n frag = false := by
  unfold is_define_of
  rw [h]
  have : ('#' == c) = false := by
    rw [beq_eq_false_iff_ne]
    exact fun e => hc e.symm
  simp [String.data_append, starts_with_word, this]

/-- The fragments of one enumeration define no more than the names of the
macros of its values. -/
theorem count_defines_enum_le (pfx n : String) (enm : ParsedEnum)
    (hpfx : is_identifier pfx) (hE : is_identifier enm.name)
    (hv : ∀ v ∈ enm.values, is_identifier v) :
    count_defines n (enum_fragments pfx enm) ≤
      (enm.values.map (enum_value_name pfx enm.name)).count
        (String.mk (n.data.takeWhile is_ident_char)) := by
  have hcomment : is_define_of n ("/* enum " ++ enm.name ++ " */\n") = false :=
    no_hash_defines_nothing n _ '/' ("* enum ".data ++ (enm.name.data ++ " */\n".data))
      (by simp [String.data_append, List.append_assoc]) (by decide)
  have hline : is_define_of n "\n" = false :=
    no_hash_defines_nothing n _ '\n' [] rfl (by decide)
  have hvalues := countP_define_lines_le n
    (fun iv : Nat × String => enum_value_line pfx enm.name iv.2 iv.1 ++ "\n")
    (fun iv : Nat × String => enum_value_name pfx enm.name iv.2) (enm.values.enumFrom 0)
    (by
      intro x hx h
      have hmem : x.2 ∈ enm.values := by
        have := List.mem_map_of_mem Prod.snd hx
        rwa [List.enumFrom_map_snd] at this
      refine name_of_is_define_of _ _ n (' ' :: ((toString x.1).data ++ "\n".data)) ?_ ?_ ?_ h
      · simp [enum_value_line, enum_value_name, String.data_append, List.append_assoc]
      · simp only [enum_value_name, is_identifier_append]
        exact ⟨⟨⟨hpfx, hE⟩, by unfold is_identifier; decide⟩, hv _ hmem⟩
      · simp [is_ident_char])
  have hnames : (enm.values.enumFrom 0).map
      (fun iv : Nat × String => enum_value_name pfx enm.name iv.2) =
      enm.values.map (enum_value_name pfx enm.name) := by
    have : (fun iv : Nat × String => enum_value_name pfx enm.name iv.2) =
        enum_value_name pfx enm.name ∘ Prod.snd := rfl
    rw [this, ← List.map_map, List.enumFrom_map_snd]
  rw [hnames] at hvalues
  unfold count_defines enum_fragments enum_value_fragments
  rw [List.countP_cons, hcomment, List.countP_append, List.countP_cons, hline]
  simpa using hvalues

/-- The fragments of write_header_macros define a name no more often than it
stands among the macro names of the job. -/
theorem count_defines_le_count_names (job : CJob) (n : String)
    (hpfx : is_identifier job.pfx)
    (hstructs : ∀ S ∈ job.schema.structs,
      is_identifier S.name ∧ ∀ C ∈ S.children, is_identifier C.name)
    (henums : ∀ E ∈ job.schema.enums, is_identifier E.name ∧ ∀ v ∈ E.values, is_identifier v) :
    count_defines n (header_macro_fragments job) ≤
      (macro_names job).count (String.mk (n.data.takeWhile is_ident_char)) := by
  unfold header_macro_fragments macro_names
  rw [count_defines_limits, count_defines_append, List.count_append]
  have h1 : count_defines n (accessor_macro_fragments job.schema job.pfx job.schema.structs) ≤
      (job.schema.structs.flatMap
        (fun S => S.children.flatMap (child_macro_names job.pfx S.name))).count
        (String.mk (n.data.takeWhile is_ident_char)) := by
    unfold count_defines accessor_macro_fragments children_macro_fragments
    refine countP_flatMap_le_count_flatMap _ _ _ _ _ (fun S hS => ?_)
    refine countP_flatMap_le_count_flatMap _ _ _ _ _ (fun C hC => ?_)
    exact count_defines_child_le job.schema job.pfx S.name n C hpfx (hstructs S hS).1
      ((hstructs S hS).2 C hC)
  have h2 : count_defines n (enum_macro_fragments job.pfx job.schema.enums) ≤
      (job.schema.enums.flatMap
        (fun E => E.values.map (enum_value_name job.pfx E.name))).count
        (String.mk (n.data.takeWhile is_ident_char)) := by
    unfold count_defines enum_macro_fragments
    refine countP_flatMap_le_count_flatMap _ _ _ _ _ (fun E hE => ?_)
    exact count_defines_enum_le job.pfx n E hpfx (henums E hE).1 (henums E hE).2
  omega

/-- A #define line of `name` whose name ends at a character that continues no
identifier is a #define of `name`. -/
theorem is_define_of_own_line (name frag : String) (c : Char) (rest : List Char)
    (hfrag : frag.data = "#define ".data ++ (name.data ++ c :: rest))
    (hc : is_ident_char c = false) : is_define_of name frag = true := by
  unfold is_define_of
  rw [String.data_append, hfrag, starts_with_word_append, starts_with_word_self_append]
  simp [starts_with_word, hc]

theorem count_le_countP_define_cons (N line name : String) (rest names : List String)
    (h : is_define_of name line = true)
    (ih : names.count N ≤ rest.countP (is_define_of N)) :
    (name :: names).count N ≤ (line :: rest).countP (is_define_of N) := by
  rw [List.countP_cons, List.count_cons]
  by_cases he : name = N
  · rw [← he] at ih ⊢
    rw [if_pos h, beq_self_eq_true, if_pos rfl]
    omega
  · have : (name == N) = false := by rwa [beq_eq_false_iff_ne]
    rw [this]
    simp only [Bool.false_eq_true, if_false]
    omega

theorem count_le_countP_define_skip (N frag : String) (rest names : List String)
    (ih : names.count N ≤ rest.countP (is_define_of N)) :
    names.count N ≤ (frag :: rest).countP (is_define_of N) := by
  rw [List.countP_cons]
  omega

theorem count_flatMap_le_countP_flatMap {α : Type} (p : String → Bool) (a : String)
    (f g : α → List String) (l : List α)
    (h : ∀ x ∈ l, (g x).count a ≤ (f x).countP p) :
    (l.flatMap g).count a ≤ (l.flatMap f).countP p := by
  induction l with
  | nil => simp
  | cons x l ih =>
    have h1 := h x (List.mem_cons_self _ _)
    have h2 := ih (fun y hy => h y (List.mem_cons_of_mem _ hy))
    rw [List.flatMap_cons, List.flatMap_cons, List.countP_append, List.count_append]
    omega

/-- Every macro name of a child has its #define among the fragments of the
child. -/
theorem count_names_child_le (schema : ParsedSchema) (pfx S N : String) (child : ChildField) :
    (child_macro_names pfx S child).count N ≤
      count_defines N (child_macro_fragments schema pfx S child) := by
  have hp : is_ident_char '(' = false := by decide
  have hnull : is_define_of (null_name pfx S child.name)
      ("#define " ++ null_name pfx S child.name ++ "(X) ((int)((X)->_" ++
        child.name ++ "_info.null))\n") = true :=
    is_define_of_own_line _ _ '(' ("X) ((int)((X)->_".data ++ (child.name.data ++
      "_info.null))\n".data)) (by simp [String.data_append, List.append_assoc]) hp
  have hnullify : is_define_of (nullify_name pfx S child.name)
      ("#define " ++ nullify_name pfx S child.name ++ "(X) ((X)->_" ++
        child.name ++ "_info.null = 1)\n") = true :=
    is_define_of_own_line _ _ '(' ("X) ((X)->_".data ++ (child.name.data ++
      "_info.null = 1)\n".data)) (by simp [String.data_append, List.append_assoc]) hp
  have hlen : is_define_of (len_name pfx S child.name)
      ("#define " ++ len_name pfx S child.name ++ "(X) ((haris_uint32_t)((X)->_" ++
        child.name ++ "_info.len))\n") = true :=
    is_define_of_own_line _ _ '(' ("X) ((haris_uint32_t)((X)->_".data ++ (child.name.data ++
      "_info.len))\n".data)) (by simp [String.data_append, List.append_assoc]) hp
  have hget : is_define_of (get_name pfx S child.name)
      ("#define " ++ get_name pfx S child.name ++ "(X) ") = true :=
    is_define_of_own_line _ _ '(' "X) ".data (by simp [String.data_append, List.append_assoc]) hp
  have hend : ([get_name pfx S child.name]).count N ≤
      (get_fragments schema pfx S child).countP (is_define_of N) :=
    count_le_countP_define_cons N _ _ _ [] hget (by simp)
  unfold count_defines child_macro_fragments child_macro_names
  by_cases h1 : child.nullable = true <;> by_cases h2 : child.tag ≠ ChildTag.CHILD_STRUCT
  · simp only [h1, h2, if_true, List.cons_append, List.nil_append, ne_eq, not_false_eq_true]
    exact count_le_countP_define_cons N _ _ _ _ hnull
      (count_le_countP_define_cons N _ _ _ _ hnullify
        (count_le_countP_define_cons N _ _ _ _ hlen hend))
  · simp only [h1, h2, if_true, if_false, List.cons_append, List.nil_append]
    exact count_le_countP_define_cons N _ _ _ _ hnull
      (count_le_countP_define_cons N _ _ _ _ hnullify hend)
  · simp only [h1, h2, if_true, if_false, List.cons_append, List.nil_append, ne_eq,
      not_false_eq_true]
    exact count_le_countP_define_cons N _ _ _ _ hlen hend
  · simp only [h1, h2, if_false, List.cons_append, List.nil_append]
    exact hend

theorem count_names_values_le (pfx E N : String) (vs : List String) (j : Nat) :
    (vs.map (enum_value_name pfx E)).count N ≤
      (enum_value_fragments pfx E j vs).countP (is_define_of N) := by
  induction vs generalizing j with
  | nil => simp [enum_value_fragments]
  | cons v vs ih =>
    have hline : is_define_of (enum_value_name pfx E v)
        (enum_value_line pfx E v j ++ "\n") = true :=
      is_define_of_own_line _ _ ' ' ((toString j).data ++ "\n".data)
        (by simp [enum_value_line, enum_value_name, String.data_append, List.append_assoc])
        (by decide)
    have := ih (j + 1)
    unfold enum_value_fragments at this ⊢
    rw [List.enumFrom_cons, List.map_cons, List.map_cons]
    exact count_le_countP_define_cons N _ _ _ _ hline this

/-- Every macro name of the job has its #define among the fragments of
write_header_macros, as often as it stands among the names. -/
theorem count_names_le_count_defines (job : CJob) (N : String) :
    (macro_names job).count N ≤ count_defines N (header_macro_fragments job) := by
  unfold header_macro_fragments macro_names
  rw [count_defines_limits, count_defines_append, List.count_append]
  have h1 : (job.schema.structs.flatMap
        (fun S => S.children.flatMap (child_macro_names job.pfx S.name))).count N ≤
      count_defines N (accessor_macro_fragments job.schema job.pfx job.schema.structs) := by
    unfold count_defines accessor_macro_fragments children_macro_fragments
    refine count_flatMap_le_countP_flatMap _ _ _ _ _ (fun S _ => ?_)
    refine count_flatMap_le_countP_flatMap _ _ _ _ _ (fun C _ => ?_)
    exact count_names_child_le job.schema job.pfx S.name N C
  have h2 : (job.schema.enums.flatMap
        (fun E => E.values.map (enum_value_name job.pfx E.name))).count N ≤
      count_defines N (enum_macro_fragments job.pfx job.schema.enums) := by
    unfold count_defines enum_macro_fragments
    refine count_flatMap_le_countP_flatMap _ _ _ _ _ (fun E _ => ?_)
    unfold enum_fragments
    rw [List.countP_cons, List.countP_append]
    have := count_names_values_le job.pfx E.name N E.values 0
    omega
  omega

/-! ## When the macro names are pairwise distinct -/

/-- Two texts cut at an underscore, with no underscore before the cut, are
equal only when both sides of the cut are. -/
theorem split_at_underscore (a b x y : List Char) (ha : '_' ∉ a) (hb : '_' ∉ b)
    (h : a ++ '_' :: x = b ++ '_' :: y) : a = b ∧ x = y := by
  induction a generalizing b with
  | nil =>
    cases b with
    | nil => simpa using h
    | cons c b =>
      simp only [List.nil_append, List.cons_append, List.cons.injEq] at h
      exact absurd (h.1 ▸ List.mem_cons_self _ _) hb
  | cons c a ih =>
    cases b with
    | nil =>
      simp only [List.nil_append, List.cons_append, List.cons.injEq] at h
      exact absurd (h.1 ▸ List.mem_cons_self _ _) ha
    | cons d b =>
      simp only [List.cons_append, List.cons.injEq] at h
      have := ih b (fun hm => ha (List.mem_cons_of_mem _ hm))
        (fun hm => hb (List.mem_cons_of_mem _ hm)) h.2
      exact ⟨by rw [h.1, this.1], this.2⟩

/-- The words `null`, `nullify`, `len` and `get` of the accessor macros. -/
theorem accessor_word_no_underscore (K : List Char)
    (h : K ∈ ["null".data, "nullify".data, "len".data, "get".data]) : '_' ∉ K := by
  simp only [List.mem_cons, List.mem_singleton, List.not_mem_nil, or_false] at h
  rcases h with h | h | h | h <;> subst h <;> decide

/-- Every macro name of a child reads `<pfx><S>_<word>_<C>`. -/
theorem child_macro_name_form (pfx S x : String) (child : ChildField)
    (h : x ∈ child_macro_names pfx S child) :
    ∃ K ∈ ["null".data, "nullify".data, "len".data, "get".data],
      x.data = pfx.data ++ (S.data ++ '_' :: (K ++ '_' :: child.name.data)) := by
  unfold child_macro_names at h
  simp only [List.mem_append, List.mem_singleton] at h
  rcases h with (h | h) | h
  · split at h
    · simp only [List.mem_cons, List.mem_singleton, List.not_mem_nil, or_false] at h
      rcases h with h | h
      · exact ⟨"null".data, by simp, by
          rw [h]; simp [null_name, String.data_append, List.append_assoc]⟩
      · exact ⟨"nullify".data, by simp, by
          rw [h]; simp [nullify_name, String.data_append, List.append_assoc]⟩
    · simp at h
  · split at h
    · simp only [List.mem_singleton] at h
      exact ⟨"len".data, by simp, by
        rw [h]; simp [len_name, String.data_append, List.append_assoc]⟩
    · simp at h
  · exact ⟨"get".data, by simp, by
      rw [h]; simp [get_name, String.data_append, List.append_assoc]⟩

/-- The macro names of one child are pairwise distinct. -/
theorem child_macro_names_nodup (pfx S : String) (child : ChildField) :
    (child_macro_names pfx S child).Nodup := by
  unfold child_macro_names
  by_cases h1 : child.nullable = true <;> by_cases h2 : child.tag ≠ ChildTag.CHILD_STRUCT <;>
    simp [h1, h2, null_name, nullify_name, len_name, get_name, String.ext_iff,
      String.data_append, List.append_assoc]

/-- The macro names of two children of one structure with different names
are disjoint. -/
theorem child_macro_names_disjoint (pfx S : String) (C D : ChildField)
    (hne : C.name ≠ D.name) :
    List.Disjoint (child_macro_names pfx S C) (child_macro_names pfx S D) := by
  rw [List.disjoint_left]
  intro x hC hD
  obtain ⟨K, hK, hx⟩ := child_macro_name_form pfx S x C hC
  obtain ⟨L, hL, hy⟩ := child_macro_name_form pfx S x D hD
  rw [hx] at hy
  have h1 := List.append_cancel_left (List.append_cancel_left hy)
  simp only [List.cons.injEq, true_and] at h1
  have h2 := split_at_underscore K L _ _ (accessor_word_no_underscore K hK)
    (accessor_word_no_underscore L hL) h1
  exact hne (String.ext h2.2)

/-- The macro names of the children of a structure with pairwise distinct
child names are pairwise distinct. -/
theorem children_macro_names_nodup (pfx S : String) (cs : List ChildField)
    (h : (cs.map (fun C => C.name)).Nodup) :
    (cs.flatMap (child_macro_names pfx S)).Nodup := by
  rw [List.nodup_flatMap]
  refine ⟨fun C _ => child_macro_names_nodup pfx S C, ?_⟩
  have hp : cs.Pairwise (fun C D => C.name ≠ D.name) := List.pairwise_map.mp h
  exact hp.imp (fun hne => child_macro_names_disjoint pfx S _ _ hne)

/-- Every macro name of a structure reads `<pfx><S>_<rest>`. -/
theorem struct_macro_name_form (pfx S x : String) (cs : List ChildField)
    (h : x ∈ cs.flatMap (child_macro_names pfx S)) :
    ∃ rest, x.data = pfx.data ++ (S.data ++ '_' :: rest) := by
  rw [List.mem_flatMap] at h
  obtain ⟨C, _, hx⟩ := h
  obtain ⟨K, _, hK⟩ := child_macro_name_form pfx S x C hx
  exact ⟨_, hK⟩

/-- Every macro name of an enumeration reads `<pfx><E>_<rest>`. -/
theorem enum_macro_name_form (pfx E x : String) (vs : List String)
    (h : x ∈ vs.map (enum_value_name pfx E)) :
    ∃ rest, x.data = pfx.data ++ (E.data ++ '_' :: rest) := by
  rw [List.mem_map] at h
  obtain ⟨v, _, hx⟩ := h
  exact ⟨v.data, by
    rw [← hx]; simp [enum_value_name, String.data_append, List.append_assoc]⟩

/-- Two macro names `<pfx><A>_<rest>` with different `A` free of underscores
are different. -/
theorem macro_name_owner (pfx A B : String) (r s : List Char)
    (hA : no_underscore A) (hB : no_underscore B)
    (h : pfx.data ++ (A.data ++ '_' :: r) = pfx.data ++ (B.data ++ '_' :: s)) : A = B :=
  String.ext (split_at_underscore A.data B.data r s hA hB (List.append_cancel_left h)).1

/-- The value macro names of an enumeration with pairwise distinct values are
pairwise distinct. -/
theorem enum_value_names_nodup (pfx E : String) (vs : List String) (h : vs.Nodup) :
    (vs.map (enum_value_name pfx E)).Nodup := by
  refine List.Nodup.map ?_ h
  intro v w hvw
  have := congrArg String.data hvw
  simp only [enum_value_name, String.data_append, List.append_assoc] at this
  exact String.ext (List.append_cancel_left
    (List.append_cancel_left (List.append_cancel_left this)))

/-- The claim's distinctness of names, with struct and enum names free of
underscores, makes the macro names pairwise distinct. -/
theorem macro_names_nodup (job : CJob)
    (hnames : (job.schema.structs.map (fun S => S.name) ++
      job.schema.enums.map (fun E => E.name)).Nodup)
    (hchildren : ∀ S ∈ job.schema.structs, (S.children.map (fun C => C.name)).Nodup)
    (hvalues : ∀ E ∈ job.schema.enums, E.values.Nodup)
    (hS : ∀ S ∈ job.schema.structs, no_underscore S.name)
    (hE : ∀ E ∈ job.schema.enums, no_underscore E.name) :
    (macro_names job).Nodup := by
  rw [List.nodup_append] at hnames
  obtain ⟨hs, he, hd⟩ := hnames
  unfold macro_names
  rw [List.nodup_append]
  refine ⟨?_, ?_, ?_⟩
  · rw [List.nodup_flatMap]
    refine ⟨fun S hmem => children_macro_names_nodup job.pfx S.name S.children
      (hchildren S hmem), ?_⟩
    have hp : job.schema.structs.Pairwise (fun S T => S.name ≠ T.name) :=
      List.pairwise_map.mp hs
    refine (List.Pairwise.and_mem.mp hp).imp ?_
    rintro S T ⟨hSm, hTm, hne⟩
    show List.Disjoint _ _
    rw [List.disjoint_left]
    intro x hx hy
    obtain ⟨r, hr⟩ := struct_macro_name_form job.pfx S.name x S.children hx
    obtain ⟨s, hs⟩ := struct_macro_name_form job.pfx T.name x T.children hy
    rw [hr] at hs
    exact hne (macro_name_owner job.pfx S.name T.name r s (hS S hSm) (hS T hTm) hs)
  · rw [List.nodup_flatMap]
    refine ⟨fun E hmem => enum_value_names_nodup job.pfx E.name E.values (hvalues E hmem), ?_⟩
    have hp : job.schema.enums.Pairwise (fun E F => E.name ≠ F.name) :=
      List.pairwise_map.mp he
    refine (List.Pairwise.and_mem.mp hp).imp ?_
    rintro E F ⟨hEm, hFm, hne⟩
    show List.Disjoint _ _
    rw [List.disjoint_left]
    intro x hx hy
    obtain ⟨r, hr⟩ := enum_macro_name_form job.pfx E.name x E.values hx
    obtain ⟨s, hs⟩ := enum_macro_name_form job.pfx F.name x F.values hy
    rw [hr] at hs
    exact hne (macro_name_owner job.pfx E.name F.name r s (hE E hEm) (hE F hFm) hs)
  · rw [List.disjoint_left]
    intro x hx hy
    rw [List.mem_flatMap] at hx hy
    obtain ⟨S, hSm, hxS⟩ := hx
    obtain ⟨E, hEm, hxE⟩ := hy
    obtain ⟨r, hr⟩ := struct_macro_name_form job.pfx S.name x S.children hxS
    obtain ⟨s, hs⟩ := enum_macro_name_form job.pfx E.name x E.values hxE
    rw [hr] at hs
    have := macro_name_owner job.pfx S.name E.name r s (hS S hSm) (hE E hEm) hs
    exact List.disjoint_left.mp hd (List.mem_map_of_mem (fun S => S.name) hSm)
      (this ▸ List.mem_map_of_mem (fun E => E.name) hEm)

/-! ## C15: the names the header macros define -/

/-- C15, as amended: write_header_macros returns CJOB_SUCCESS when no
allocation fails, and when it succeeds it has appended exactly the fragments
`header_macro_fragments`. For a prefix and struct, child, enum and value
names made of identifier characters, no two of the appended #define lines
define the same macro name exactly when the macro names `<pfx><S>_null_<C>`,
`<pfx><S>_nullify_<C>`, `<pfx><S>_len_<C>`, `<pfx><S>_get_<C>` and
`<pfx><E>_<V>` of the schema are pairwise distinct. They are so when struct
and enum names are pairwise distinct, child names are distinct within each
structure, value names are distinct within each enumeration, and no struct or
enum name holds an underscore. -/
theorem C15_defined_names_distinct (job : CJob)
    (hpfx : is_identifier job.pfx)
    (hstructs : ∀ S ∈ job.schema.structs,
      is_identifier S.name ∧ ∀ C ∈ S.children, is_identifier C.name)
    (henums : ∀ E ∈ job.schema.enums,
      is_identifier E.name ∧ ∀ v ∈ E.values, is_identifier v) :
    (NoFailure job.heap → (write_header_macros job).1 = CJobStatus.CJOB_SUCCESS) ∧
    ((write_header_macros job).1 = CJobStatus.CJOB_SUCCESS →
      (write_header_macros job).2.strings.header_strings =
        job.strings.header_strings ++ header_macro_fragments job) ∧
    ((write_header_macros job).1 = CJobStatus.CJOB_SUCCESS →
      ((∀ n, count_defines n ((write_header_macros job).2.strings.header_strings.drop
          job.strings.header_strings.length) ≤ 1) ↔ (macro_names job).Nodup)) ∧
    ((write_header_macros job).1 = CJobStatus.CJOB_SUCCESS →
      (job.schema.structs.map (fun S => S.name) ++
        job.schema.enums.map (fun E => E.name)).Nodup →
      (∀ S ∈ job.schema.structs, (S.children.map (fun C => C.name)).Nodup) →
      (∀ E ∈ job.schema.enums, E.values.Nodup) →
      (∀ S ∈ job.schema.structs, no_underscore S.name) →
      (∀ E ∈ job.schema.enums, no_underscore E.name) →
      ∀ n, count_defines n ((write_header_macros job).2.strings.header_strings.drop
        job.strings.header_strings.length) ≤ 1) := by
  have hrun := write_header_macros_run job
  have hup : (macro_names job).Nodup →
      ∀ n, count_defines n (header_macro_fragments job) ≤ 1 := by
    intro hnd n
    have h1 := count_defines_le_count_names job n hpfx hstructs henums
    have h2 := List.nodup_iff_count_le_one.mp hnd (String.mk (n.data.takeWhile is_ident_char))
    omega
  refine ⟨hrun.1, hrun.2, fun hok => ?_, fun hok hn hc hv hS hE => ?_⟩
  · rw [hrun.2 hok, List.drop_left]
    refine ⟨fun h => ?_, hup⟩
    rw [List.nodup_iff_count_le_one]
    intro N
    exact le_trans (count_names_le_count_defines job N) (h N)
  · rw [hrun.2 hok, List.drop_left]
    exact hup (macro_names_nodup job hn hc hv hS hE)

/-- C15 on the structures `Foo` and `Bar` and the enumeration `Color` under the
prefix `app_`: the macro names are pairwise distinct, and no name is defined
by two of the appended lines. -/
theorem C15_defined_names_distinct_witness :
    is_identifier header_job.pfx ∧
    (∀ S ∈ header_job.schema.structs,
      is_identifier S.name ∧ ∀ C ∈ S.children, is_identifier C.name) ∧
    (∀ E ∈ header_job.schema.enums,
      is_identifier E.name ∧ ∀ v ∈ E.values, is_identifier v) ∧
    NoFailure header_job.heap ∧
    macro_names header_job =
      ["app_Bar_null_payload", "app_Bar_nullify_payload", "app_Bar_get_payload",
       "app_Color_RED", "app_Color_GREEN", "app_Color_BLUE"] ∧
    (write_header_macros header_job).2.strings.header_strings.drop 1 =
      ["#define app_Bar_null_payload(X) ((int)((X)->_payload_info.null))\n",
       "#define app_Bar_nullify_payload(X) ((X)->_payload_info.null = 1)\n",
       "#define app_Bar_get_payload(X) ", "((app_Foo*)", "((X)->_payload_info.ptr))\n\n",
       "/* enum Color */\n", "#define app_Color_RED 0\n", "#define app_Color_GREEN 1\n",
       "#define app_Color_BLUE 2\n", "\n"] ∧
    ∀ n, count_defines n ((write_header_macros header_job).2.strings.header_strings.drop
      header_job.strings.header_strings.length) ≤ 1 := by
  have hp : is_identifier header_job.pfx := by decide
  have hs : ∀ S ∈ header_job.schema.structs,
      is_identifier S.name ∧ ∀ C ∈ S.children, is_identifier C.name := by decide
  have he : ∀ E ∈ header_job.schema.enums,
      is_identifier E.name ∧ ∀ v ∈ E.values, is_identifier v := by decide
  have hall := C15_defined_names_distinct header_job hp hs he
  have hok := hall.1 (by decide)
  refine ⟨hp, hs, he, by decide, by decide, ?_, ?_⟩
  · rw [hall.2.1 hok]
    rfl
  · exact hall.2.2.2 hok (by decide) (by decide) (by decide) (by decide) (by decide)

/-- C15 fails as stated: the structures `A` and `A_get_b` and the enumeration
`A_len` have pairwise distinct names, the one child of each structure and the
one value of the enumeration are distinct within it, and under the prefix
`app_` the appended fragments hold two #defines of `app_A_get_b_get_c` (the
get macros of the child `b_get_c` of `A` and of the child `c` of `A_get_b`) and
two #defines of `app_A_len_b_get_c` (the len macro of the child `b_get_c` of `A`
and the macro of the value `b_get_c` of `A_len`). -/
theorem C15_macro_name_defined_twice :
    (name_clash_job.schema.structs.map (fun S => S.name) ++
      name_clash_job.schema.enums.map (fun E => E.name)).Nodup ∧
    (∀ S ∈ name_clash_job.schema.structs, (S.children.map (fun C => C.name)).Nodup) ∧
    (∀ E ∈ name_clash_job.schema.enums, E.values.Nodup) ∧
    NoFailure name_clash_job.heap ∧
    (write_header_macros name_clash_job).1 = CJobStatus.CJOB_SUCCESS ∧
    (write_header_macros name_clash_job).2.strings.header_strings.drop 1 =
      ["#define app_A_len_b_get_c(X) ((haris_uint32_t)((X)->_b_get_c_info.len))\n",
       "#define app_A_get_b_get_c(X) ", "((char*)", "((X)->_b_get_c_info.ptr))\n\n",
       "#define app_A_get_b_len_c(X) ((haris_uint32_t)((X)->_c_info.len))\n",
       "#define app_A_get_b_get_c(X) ", "((char*)", "((X)->_c_info.ptr))\n\n",
       "/* enum A_len */\n", "#define app_A_len_b_get_c 0\n", "\n"] ∧
    count_defines "app_A_get_b_get_c"
      ((write_header_macros name_clash_job).2.strings.header_strings.drop 1) = 2 ∧
    count_defines "app_A_len_b_get_c"
      ((write_header_macros name_clash_job).2.strings.header_strings.drop 1) = 2 ∧
    ¬ ∀ n, count_defines n ((write_header_macros name_clash_job).2.strings.header_strings.drop
      name_clash_job.strings.header_strings.length) ≤ 1 := by
  have hok := (write_header_macros_run name_clash_job).1 (by decide)
  have hrun := (write_header_macros_run name_clash_job).2 hok
  refine ⟨by decide, by decide, by decide, by decide, hok, ?_, ?_, ?_, ?_⟩
  · rw [hrun]
    decide
  · rw [hrun]
    decide
  · rw [hrun]
    decide
  · intro h
    have := h "app_A_get_b_get_c"
    rw [hrun] at this
    revert this
    decide

end Haris
